import Mathlib

/-!
# os/user lookup over the systemd-userdbd socket (lookup_linux.go)

A shallow embedding of `src/os/user/lookup_linux.go`: the split function handed
to `bufio.Scanner`, the scan loop of `queryUserdbd`, the per-frame callbacks of
`queryGroupDb` / `queryUserDb`, and the four lookup entry points.

Go values are represented as follows.
* `[]byte` is `List UInt8`; a nil slice where the code distinguishes it (the
  token returned by the split function) is `Option (List UInt8)`.
* `string` is `String`; `int64` is `Int`; `int` is `Int`.
* `error` is `Option Error` (`none` is the nil error).
* a pointer result such as `*Group` is `Option Group` (`none` is nil).
* the variable captured and assigned by a closure is threaded as state.
-/

namespace user

/-- Go error values that reach the lookup code. `EOF` is `io.EOF`; `other` stands
for any error produced by the network or by the JSON decoder. -/
inductive Error where
  | EOF
  | ErrNegativeAdvance
  | ErrAdvanceTooFar
  | other (msg : String)
  deriving DecidableEq, Repr

/-- Modelled from the spec: `bytes.IndexByte` (package bytes is not under
src/): the index of the first instance of `c` in `b`, or `-1` when `c` is not
present. -/
def IndexByte : List UInt8 → UInt8 → Int
  | [], _ => -1
  | b :: bs, c =>
    if b = c then 0
    else if IndexByte bs c < 0 then -1 else IndexByte bs c + 1

/-- The split function literal of `queryUserdbd` (lookup_linux.go, lines 59-73):
the result is `(advance, token, err)`. -/
def split (data : List UInt8) (atEOF : Bool) : Int × Option (List UInt8) × Option Error :=
  if atEOF && data.length == 0 then
    (0, none, none)
  else if IndexByte data 0 ≥ 0 then
    -- We have a full 0-byte-terminated line.
    (IndexByte data 0 + 1, some (data.take (IndexByte data 0).toNat), none)
  else if atEOF then
    -- If we are at EOF, we have a final, non-terminated line. Return it.
    (data.length, some data, none)
  else
    -- Request more data.
    (0, none, none)

/-- Modelled from the spec: the type `bufio.Scanner` (package bufio is not under
src/). The state of a scanner reading from a connection: `chunks` are the
results of the successive `Read` calls that will succeed, `final` is the error
every later `Read` returns (`Error.EOF` for a clean end of stream), `buf` is the
unprocessed part of the buffer, `err` the sticky error and `tok` the last token.
Not modelled: the maximum token size (the buffer is unbounded), the limit on
consecutive empty reads and `ErrFinalToken`; the split function of
`queryUserdbd` returns no error and no token without advancing. -/
structure Scanner where
  chunks : List (List UInt8)
  final : Error
  buf : List UInt8
  err : Option Error
  tok : Option (List UInt8)
  deriving DecidableEq, Repr

/-- Modelled from the spec: `bufio.NewScanner(conn)`. -/
def NewScanner (chunks : List (List UInt8)) (final : Error) : Scanner :=
  { chunks := chunks, final := final, buf := [], err := none, tok := none }

/-- Modelled from the spec: `(*Scanner).setErr` records the first non-EOF error. -/
def Scanner.setErr (s : Scanner) (e : Error) : Scanner :=
  if s.err = none ∨ s.err = some Error.EOF then { s with err := some e } else s

/-- Modelled from the spec: `(*Scanner).Err` returns the first non-EOF error
met by the scanner. -/
def Scanner.Err (s : Scanner) : Option Error :=
  if s.err = some Error.EOF then none else s.err

/-- Modelled from the spec: `(*Scanner).Bytes` is the most recent token. -/
def Scanner.Bytes (s : Scanner) : List UInt8 :=
  s.tok.getD []

/-- Modelled from the spec: the first half of one iteration of the loop of
`(*Scanner).Scan`: when data is buffered or an error is pending, the split
function is called on the buffered data, with `atEOF` set exactly when an
error (end of stream or any other read error) is pending. `Sum.inl (b, s)`
means that `Scan` returns `b`; `Sum.inr s` means that no token could be
produced and the iteration goes on. -/
def Scanner.tryToken (splitFn : List UInt8 → Bool → Int × Option (List UInt8) × Option Error)
    (s : Scanner) : (Bool × Scanner) ⊕ Scanner :=
  if s.buf.length > 0 ∨ s.err ≠ none then
    match splitFn s.buf (s.err != none) with
    | (_, _, some e) => Sum.inl (false, s.setErr e)
    | (advance, token, none) =>
      if advance < 0 then Sum.inl (false, s.setErr Error.ErrNegativeAdvance)
      else if advance > s.buf.length then Sum.inl (false, s.setErr Error.ErrAdvanceTooFar)
      else if token.isSome then
        Sum.inl (true, { s with buf := s.buf.drop advance.toNat, tok := token })
      else
        Sum.inr { s with buf := s.buf.drop advance.toNat, tok := token }
  else
    Sum.inr s

/-- Modelled from the spec: one iteration of the loop of `(*Scanner).Scan` once
an error is pending: the split function gets a last chance on the remaining
data, and without a token the scanner shuts down. -/
def Scanner.atErr (splitFn : List UInt8 → Bool → Int × Option (List UInt8) × Option Error)
    (s : Scanner) : Bool × Scanner :=
  match s.tryToken splitFn with
  | Sum.inl r => r
  | Sum.inr s1 => (false, { s1 with buf := [] })

/-- Modelled from the spec: the loop of `(*Scanner).Scan` while no error is
pending; the first argument is the list of reads still to come. Each iteration
tries to produce a token and otherwise reads once more. -/
def Scanner.scanLoop (splitFn : List UInt8 → Bool → Int × Option (List UInt8) × Option Error) :
    List (List UInt8) → Scanner → Bool × Scanner
  | [], s =>
    match ({ s with chunks := [] } : Scanner).tryToken splitFn with
    | Sum.inl r => r
    | Sum.inr s1 => (s1.setErr s1.final).atErr splitFn
  | c :: cs, s =>
    match ({ s with chunks := c :: cs } : Scanner).tryToken splitFn with
    | Sum.inl r => r
    | Sum.inr s1 => Scanner.scanLoop splitFn cs { s1 with chunks := cs, buf := s1.buf ++ c }

/-- Modelled from the spec: `(*Scanner).Scan` advances the scanner to the next
token and reports whether there is one. -/
def Scanner.Scan (splitFn : List UInt8 → Bool → Int × Option (List UInt8) × Option Error)
    (s : Scanner) : Bool × Scanner :=
  if s.err ≠ none then s.atErr splitFn else Scanner.scanLoop splitFn s.chunks s

/-- Bytes the scanner can still hand to the split function. -/
def Scanner.pending (s : Scanner) : Nat :=
  if s.err ≠ none then s.buf.length else s.buf.length + s.chunks.flatten.length

/-- Modelled from the spec: the connection returned by a successful `net.Dial`
(package net is not under src/): `writeErr` is the error returned by
`conn.Write` (nil when the write succeeds), `chunks` and `final` are what the
successive `Read` calls on the connection return. -/
structure Conn where
  writeErr : Option Error
  chunks : List (List UInt8)
  final : Error
  deriving DecidableEq, Repr

/-- The bytes of a Go string (its UTF-8 encoding). -/
def stringBytes (s : String) : List UInt8 :=
  s.data.flatMap String.utf8EncodeChar

/-- The table `"0123456789abcdef"` of package encoding/json. -/
def hexByte (n : Nat) : UInt8 :=
  if n < 10 then (48 + n).toUInt8 else (87 + n).toUInt8

/-- Modelled from the spec: the string encoder of `json.Marshal` (package
encoding/json is not under src/), for one character of a valid UTF-8 string:
quote and backslash are escaped with a backslash, newline, carriage return and
tab have their short forms, the other control characters and `<`, `>`, `&` are
written `\u00xx`, U+2028 and U+2029 are written `\u2028` and `\u2029`, and
everything else is copied. -/
def jsonEscapeChar (c : Char) : List UInt8 :=
  if c.toNat = 0x22 ∨ c.toNat = 0x5c then [0x5c, c.toNat.toUInt8]
  else if c.toNat = 0x0a then [0x5c, 0x6e]
  else if c.toNat = 0x0d then [0x5c, 0x72]
  else if c.toNat = 0x09 then [0x5c, 0x74]
  else if c.toNat < 0x20 ∨ c.toNat = 0x3c ∨ c.toNat = 0x3e ∨ c.toNat = 0x26 then
    [0x5c, 0x75, 0x30, 0x30, hexByte (c.toNat / 16), hexByte (c.toNat % 16)]
  else if c.toNat = 0x2028 ∨ c.toNat = 0x2029 then
    [0x5c, 0x75, 0x32, 0x30, 0x32, hexByte (c.toNat % 16)]
  else String.utf8EncodeChar c

/-- Modelled from the spec: `json.Marshal` of a Go string. -/
def jsonMarshalString (s : String) : List UInt8 :=
  [0x22] ++ s.data.flatMap jsonEscapeChar ++ [0x22]

/-- Modelled from the spec: `json.Marshal(req)` for the request struct of
`queryUserdbd` (lines 35-50): the fields in declaration order, `Service` set to
`"io.systemd.NameServiceSwitch"` and `More` to true. Marshalling this struct
never fails. -/
def marshalRequest (method : String) : List UInt8 :=
  stringBytes "\x7b\"method\":" ++ jsonMarshalString method
    ++ stringBytes ",\"parameters\":\x7b\"service\":"
    ++ jsonMarshalString "io.systemd.NameServiceSwitch"
    ++ stringBytes "\x7d,\"more\":true\x7d"

/-- What one call of `queryUserdbd` did: `err` is the returned error, `st` the
final value of the variable captured by the callback, `written` the argument of
the `conn.Write` call (empty when it was not reached) and `frames` the frames
handed to the callback, in order. -/
structure Outcome (σ : Type) where
  err : Option Error
  st : σ
  written : List UInt8
  frames : List (List UInt8)

/-- The loop `for sc.Scan() \x7b ... \x7d` of `queryUserdbd` (lines 74-82) followed
by the `sc.Err()` check (lines 83-87). The result is the error returned by
`queryUserdbd`, the state of the callback and the frames seen. The first
argument bounds the number of iterations; `none` means it was too small. -/
def queryUserdbd.loop {σ : Type} (unmarshal : List UInt8 → σ → (Bool × Option Error) × σ) :
    Nat → Scanner → σ → List (List UInt8) → Option (Option Error × σ × List (List UInt8))
  | 0, _, _, _ => none
  | fuel + 1, sc, st, seen =>
    match sc.Scan split with
    | (false, sc1) => some (sc1.Err, st, seen)
    | (true, sc1) =>
      match unmarshal sc1.Bytes st with
      | ((_, some _), st1) => some (none, st1, seen ++ [sc1.Bytes])
      | ((continues, none), st1) =>
        if !continues then some (sc1.Err, st1, seen ++ [sc1.Bytes])
        else queryUserdbd.loop unmarshal fuel sc1 st1 (seen ++ [sc1.Bytes])

/-- The function `queryUserdbd` (lines 22-88). `dial` is the result of
`net.Dial("unix", userdbdAddress)`; `st` is the initial value of the variable
captured by `unmarshal`. The iteration bound handed to the loop is one more
than the number of bytes the connection delivers, which always suffices (every
token consumes at least one byte); `none` would mean the loop was cut short. -/
def queryUserdbd {σ : Type} (dial : Except Error Conn) (method : String)
    (unmarshal : List UInt8 → σ → (Bool × Option Error) × σ) (st : σ) : Option (Outcome σ) :=
  match dial with
  | Except.error err => some { err := some err, st := st, written := [], frames := [] }
  | Except.ok conn =>
    let b := marshalRequest method
    match conn.writeErr with
    | some err => some { err := some err, st := st, written := b ++ [0], frames := [] }
    | none =>
      let sc := NewScanner conn.chunks conn.final
      match queryUserdbd.loop unmarshal (sc.pending + 1) sc st [] with
      | none => none
      | some (err, st1, seen) =>
        some { err := err, st := st1, written := b ++ [0], frames := seen }

/-- The type `groupRecord` (lines 90-93). -/
structure groupRecord where
  GroupName : String
  Gid : Int
  deriving DecidableEq, Repr

/-- The type `userRecord` (lines 136-142). -/
structure userRecord where
  UserName : String
  RealName : String
  Uid : Int
  Gid : Int
  HomeDirectory : String
  deriving DecidableEq, Repr

/-- Modelled from the spec: the type `Group` of package os/user (its
declaration is not under src/), with the fields the lookup sets. -/
structure Group where
  Gid : String
  Name : String
  deriving DecidableEq, Repr

/-- Modelled from the spec: the type `User` of package os/user (its declaration
is not under src/), with the fields the lookup sets. -/
structure User where
  Uid : String
  Gid : String
  Username : String
  Name : String
  HomeDir : String
  deriving DecidableEq, Repr

/-- The anonymous `reply` struct of the callbacks (lines 111-116, 160-165),
`ρ` being the record type; `Record` stands for `Parameters.Record`. -/
structure Reply (ρ : Type) where
  Record : ρ
  Continues : Bool
  deriving DecidableEq, Repr

/-- Modelled from the spec: the digit loop of `strconv.FormatInt` in base 10
(package strconv is not under src/): the decimal digits of `u`, most
significant first, put in front of `acc`. The first argument bounds the number
of digits. -/
def formatBits : Nat → Nat → List Char → List Char
  | 0, _, acc => acc
  | fuel + 1, u, acc =>
    if u ≥ 10 then formatBits fuel (u / 10) (Nat.digitChar (u % 10) :: acc)
    else Nat.digitChar u :: acc

/-- Modelled from the spec: `strconv.FormatInt(i, 10)` (package strconv is not
under src/): the decimal-string rendering of `i`, with a leading `-` for a
negative number. -/
def FormatInt (i : Int) : String :=
  if i < 0 then String.mk ('-' :: formatBits (i.natAbs + 1) i.natAbs [])
  else String.mk (formatBits (i.natAbs + 1) i.natAbs [])

/-- The closure `unmarshal` of `queryGroupDb` (lines 110-129); the captured
variable `group` is the state. `jsonUnmarshal` stands for
`json.Unmarshal(b, &reply)` on a zero `reply`. -/
def queryGroupDb.unmarshal (jsonUnmarshal : List UInt8 → Except Error (Reply groupRecord))
    (predicate : groupRecord → Bool) (b : List UInt8) (group : Option Group) :
    (Bool × Option Error) × Option Group :=
  match jsonUnmarshal b with
  | Except.error err => ((false, some err), group)
  | Except.ok reply =>
    let r := reply.Record
    if !predicate r then ((reply.Continues, none), group) -- skip
    else ((reply.Continues, none), some { Name := r.GroupName, Gid := FormatInt r.Gid })

/-- The function `queryGroupDb` (lines 107-134) together with what it does on
the connection: the result `(group, err)` and the bytes handed to `conn.Write`
by its call of `queryUserdbd`. -/
def queryGroupDb.traced (jsonUnmarshal : List UInt8 → Except Error (Reply groupRecord))
    (dial : Except Error Conn) (predicate : groupRecord → Bool) :
    Option ((Option Group × Option Error) × List UInt8) :=
  match queryUserdbd dial "io.systemd.UserDatabase.GetGroupRecord"
      (queryGroupDb.unmarshal jsonUnmarshal predicate) none with
  | none => none
  | some out =>
    match out.err with
    | some err => some ((none, some err), out.written)
    | none => some ((out.st, none), out.written)

/-- The function `queryGroupDb` (lines 107-134): its result `(group, err)`. -/
def queryGroupDb (jsonUnmarshal : List UInt8 → Except Error (Reply groupRecord))
    (dial : Except Error Conn) (predicate : groupRecord → Bool) :
    Option (Option Group × Option Error) :=
  (queryGroupDb.traced jsonUnmarshal dial predicate).map Prod.fst

/-- The predicate literal of `lookupGroup` (lines 96-98). -/
def lookupGroup.predicate (groupname : String) (g : groupRecord) : Bool :=
  g.GroupName == groupname

/-- The function `lookupGroup` (lines 95-99) together with the bytes it has
written to the connection. -/
def lookupGroup.traced (jsonUnmarshal : List UInt8 → Except Error (Reply groupRecord))
    (dial : Except Error Conn) (groupname : String) :
    Option ((Option Group × Option Error) × List UInt8) :=
  queryGroupDb.traced jsonUnmarshal dial (lookupGroup.predicate groupname)

/-- The function `lookupGroup` (lines 95-99): its result. -/
def lookupGroup (jsonUnmarshal : List UInt8 → Except Error (Reply groupRecord))
    (dial : Except Error Conn) (groupname : String) : Option (Option Group × Option Error) :=
  (lookupGroup.traced jsonUnmarshal dial groupname).map Prod.fst

/-- The predicate literal of `lookupGroupId` (lines 102-104). -/
def lookupGroupId.predicate (id : String) (g : groupRecord) : Bool :=
  FormatInt g.Gid == id

/-- The function `lookupGroupId` (lines 101-105) together with the bytes it has
written to the connection. -/
def lookupGroupId.traced (jsonUnmarshal : List UInt8 → Except Error (Reply groupRecord))
    (dial : Except Error Conn) (id : String) :
    Option ((Option Group × Option Error) × List UInt8) :=
  queryGroupDb.traced jsonUnmarshal dial (lookupGroupId.predicate id)

/-- The function `lookupGroupId` (lines 101-105): its result. -/
def lookupGroupId (jsonUnmarshal : List UInt8 → Except Error (Reply groupRecord))
    (dial : Except Error Conn) (id : String) : Option (Option Group × Option Error) :=
  (lookupGroupId.traced jsonUnmarshal dial id).map Prod.fst

/-- The closure `unmarshal` of `queryUserDb` (lines 159-181); the captured
variable `u` is the state. -/
def queryUserDb.unmarshal (jsonUnmarshal : List UInt8 → Except Error (Reply userRecord))
    (predicate : userRecord → Bool) (b : List UInt8) (u : Option User) :
    (Bool × Option Error) × Option User :=
  match jsonUnmarshal b with
  | Except.error err => ((false, some err), u)
  | Except.ok reply =>
    let r := reply.Record
    if !predicate r then ((reply.Continues, none), u) -- skip
    else ((reply.Continues, none),
      some { Uid := FormatInt r.Uid, Gid := FormatInt r.Gid, Username := r.UserName,
             Name := r.RealName, HomeDir := r.HomeDirectory })

/-- The function `queryUserDb` (lines 156-186) together with what it does on
the connection: the result `(u, err)` and the bytes handed to `conn.Write` by
its call of `queryUserdbd`. -/
def queryUserDb.traced (jsonUnmarshal : List UInt8 → Except Error (Reply userRecord))
    (dial : Except Error Conn) (predicate : userRecord → Bool) :
    Option ((Option User × Option Error) × List UInt8) :=
  match queryUserdbd dial "io.systemd.UserDatabase.GetUserRecord"
      (queryUserDb.unmarshal jsonUnmarshal predicate) none with
  | none => none
  | some out =>
    match out.err with
    | some err => some ((none, some err), out.written)
    | none => some ((out.st, none), out.written)

/-- The function `queryUserDb` (lines 156-186): its result `(u, err)`. -/
def queryUserDb (jsonUnmarshal : List UInt8 → Except Error (Reply userRecord))
    (dial : Except Error Conn) (predicate : userRecord → Bool) :
    Option (Option User × Option Error) :=
  (queryUserDb.traced jsonUnmarshal dial predicate).map Prod.fst

/-- The predicate literal of `lookupUser` (lines 145-147). -/
def lookupUser.predicate (username : String) (u : userRecord) : Bool :=
  u.UserName == username

/-- The function `lookupUser` (lines 144-148) together with the bytes it has
written to the connection. -/
def lookupUser.traced (jsonUnmarshal : List UInt8 → Except Error (Reply userRecord))
    (dial : Except Error Conn) (username : String) :
    Option ((Option User × Option Error) × List UInt8) :=
  queryUserDb.traced jsonUnmarshal dial (lookupUser.predicate username)

/-- The function `lookupUser` (lines 144-148): its result. -/
def lookupUser (jsonUnmarshal : List UInt8 → Except Error (Reply userRecord))
    (dial : Except Error Conn) (username : String) : Option (Option User × Option Error) :=
  (lookupUser.traced jsonUnmarshal dial username).map Prod.fst

/-- The predicate literal of `lookupUserId` (lines 151-153). -/
def lookupUserId.predicate (uid : String) (u : userRecord) : Bool :=
  FormatInt u.Uid == uid

/-- The function `lookupUserId` (lines 150-154) together with the bytes it has
written to the connection. -/
def lookupUserId.traced (jsonUnmarshal : List UInt8 → Except Error (Reply userRecord))
    (dial : Except Error Conn) (uid : String) :
    Option ((Option User × Option Error) × List UInt8) :=
  queryUserDb.traced jsonUnmarshal dial (lookupUserId.predicate uid)

/-- The function `lookupUserId` (lines 150-154): its result. -/
def lookupUserId (jsonUnmarshal : List UInt8 → Except Error (Reply userRecord))
    (dial : Except Error Conn) (uid : String) : Option (Option User × Option Error) :=
  (lookupUserId.traced jsonUnmarshal dial uid).map Prod.fst

/-- The `Group` built by `queryGroupDb` from a matching record (lines 124-127). -/
def groupOf (r : groupRecord) : Group :=
  { Name := r.GroupName, Gid := FormatInt r.Gid }

/-- The `User` built by `queryUserDb` from a matching record (lines 173-179). -/
def userOf (r : userRecord) : User :=
  { Uid := FormatInt r.Uid, Gid := FormatInt r.Gid, Username := r.UserName,
    Name := r.RealName, HomeDir := r.HomeDirectory }

/-- The frames produced by the frame scanner of `queryUserdbd` when it is
driven to the end of the stream: the frames handed to a callback that always
asks to continue. `chunks` are the reads delivering the stream and `final` is
the error that ends it. -/
def scanFrames (chunks : List (List UInt8)) (final : Error) : Option (List (List UInt8)) :=
  (queryUserdbd (Except.ok { writeErr := none, chunks := chunks, final := final }) ""
    (fun _ (st : Unit) => ((true, none), st)) ()).map Outcome.frames

/-- A response stream given by its frames: every frame of `frames` followed by
its 0 byte, then `last`, a final frame without terminator (empty: none). -/
def frameStream (frames : List (List UInt8)) (last : List UInt8) : List UInt8 :=
  frames.flatMap (fun f => f ++ [0]) ++ last

/-- Modelled from the spec: the value of a decimal digit character, for reading
a decimal string back (package strconv is not under src/). -/
def digitValue (c : Char) : Option Nat :=
  if 48 ≤ c.toNat ∧ c.toNat ≤ 57 then some (c.toNat - 48) else none

/-- Modelled from the spec: the base-10 value of a string of digits, `acc` being
the value of the digits already read; `none` when a character is not a digit. -/
def parseDigits : List Char → Nat → Option Nat
  | [], acc => some acc
  | c :: cs, acc =>
    match digitValue c with
    | some d => parseDigits cs (10 * acc + d)
    | none => none

/-- Modelled from the spec: the base-10 parse of a decimal string, as
`strconv.ParseInt(s, 10, 64)` does it apart from the range check: an optional
sign followed by at least one digit. -/
def ParseInt (s : String) : Option Int :=
  match s.data with
  | [] => none
  | c :: cs =>
    if c = '-' then
      (if cs = [] then none else (parseDigits cs 0).map (fun (n : Nat) => -(Int.ofNat n)))
    else if c = '+' then
      (if cs = [] then none else (parseDigits cs 0).map (fun (n : Nat) => Int.ofNat n))
    else (parseDigits (c :: cs) 0).map (fun (n : Nat) => Int.ofNat n)

/-- The digits of a decimal string: its characters after the leading `-`, if
there is one. -/
def decimalDigits (s : String) : List Char :=
  if s.data.head? = some '-' then s.data.tail else s.data

/-- The decimal string `s` renders the integer `v` exactly: it parses back in
base 10 to `v`; it consists of an optional `-` followed by at least one decimal
digit and nothing else (no `+`, no blank, no separator); its digits do not
start with `0`, the single digit `0` apart; and it starts with `-` exactly when
`v` is negative. -/
def rendersExactly (s : String) (v : Int) : Prop :=
  ParseInt s = some v ∧
  decimalDigits s ≠ [] ∧
  (∀ c ∈ decimalDigits s, (digitValue c).isSome = true) ∧
  (∀ rest, decimalDigits s = '0' :: rest → rest = []) ∧
  (s.data.head? = some '-' ↔ v < 0)

/-! ## A model of the JSON decoder, used to run the lookups on concrete frames
and to read a written request back -/

/-- Modelled from the spec: the JSON values that `json.Unmarshal` (package
encoding/json is not under src/) reads from a frame; a number keeps its
literal. -/
inductive JSON where
  | null
  | bool (b : Bool)
  | num (lit : List UInt8)
  | str (s : String)
  | arr (elems : List JSON)
  | obj (members : List (String × JSON))
  deriving Repr

/-- Modelled from the spec: the JSON white-space bytes (space, tab, line feed,
carriage return). -/
def isSpace (b : UInt8) : Bool :=
  b = 0x20 || b = 0x09 || b = 0x0a || b = 0x0d

/-- Modelled from the spec: the input after its leading JSON white space. -/
def skipSpace : List UInt8 → List UInt8
  | [] => []
  | b :: bs => if isSpace b then skipSpace bs else b :: bs

/-- Modelled from the spec: the value of a hexadecimal digit of a `\u` escape. -/
def hexValue (b : UInt8) : Option Nat :=
  if 0x30 ≤ b ∧ b ≤ 0x39 then some (b.toNat - 0x30)
  else if 0x61 ≤ b ∧ b ≤ 0x66 then some (b.toNat - 0x61 + 10)
  else if 0x41 ≤ b ∧ b ≤ 0x46 then some (b.toNat - 0x41 + 10)
  else none

/-- Modelled from the spec: the four hexadecimal digits of a `\u` escape. -/
def getu4 : List UInt8 → Option (Nat × List UInt8)
  | a :: b :: c :: d :: rest =>
    match hexValue a, hexValue b, hexValue c, hexValue d with
    | some x, some y, some z, some w => some (((x * 16 + y) * 16 + z) * 16 + w, rest)
    | _, _, _, _ => none
  | _ => none

/-- Modelled from the spec: a UTF-8 continuation byte. -/
def isCont (b : UInt8) : Bool := 0x80 ≤ b && b ≤ 0xbf

/-- Modelled from the spec: `utf8.DecodeRune`, the rune at the head of the input
and its size in bytes; an invalid encoding gives U+FFFD and size 1. -/
def decodeRune : List UInt8 → Nat × Nat
  | [] => (0xfffd, 1)
  | b0 :: rest =>
    if b0 < 0x80 then (b0.toNat, 1)
    else if 0xc2 ≤ b0 ∧ b0 ≤ 0xdf then
      match rest with
      | b1 :: _ => if isCont b1 then ((b0.toNat % 32) * 64 + b1.toNat % 64, 2) else (0xfffd, 1)
      | _ => (0xfffd, 1)
    else if 0xe0 ≤ b0 ∧ b0 ≤ 0xef then
      match rest with
      | b1 :: b2 :: _ =>
        if (if b0 = 0xe0 then 0xa0 else 0x80) ≤ b1 ∧ b1 ≤ (if b0 = 0xed then 0x9f else 0xbf)
            ∧ isCont b2 then
          (((b0.toNat % 16) * 64 + b1.toNat % 64) * 64 + b2.toNat % 64, 3)
        else (0xfffd, 1)
      | _ => (0xfffd, 1)
    else if 0xf0 ≤ b0 ∧ b0 ≤ 0xf4 then
      match rest with
      | b1 :: b2 :: b3 :: _ =>
        if (if b0 = 0xf0 then 0x90 else 0x80) ≤ b1 ∧ b1 ≤ (if b0 = 0xf4 then 0x8f else 0xbf)
            ∧ isCont b2 ∧ isCont b3 then
          ((((b0.toNat % 8) * 64 + b1.toNat % 64) * 64 + b2.toNat % 64) * 64 + b3.toNat % 64, 4)
        else (0xfffd, 1)
      | _ => (0xfffd, 1)
    else (0xfffd, 1)

/-- Modelled from the spec: the body of a JSON string after its opening quote,
with the escapes resolved and invalid UTF-8 replaced by U+FFFD. -/
def parseString : Nat → List UInt8 → List Char → Option (String × List UInt8)
  | 0, _, _ => none
  | _ + 1, [], _ => none
  | fuel + 1, b :: bs, acc =>
    if b = 0x22 then some (String.mk acc.reverse, bs)
    else if b = 0x5c then
      match bs with
      | [] => none
      | e :: rest =>
        if e = 0x22 ∨ e = 0x5c ∨ e = 0x2f then parseString fuel rest (Char.ofNat e.toNat :: acc)
        else if e = 0x62 then parseString fuel rest (Char.ofNat 8 :: acc)
        else if e = 0x66 then parseString fuel rest (Char.ofNat 12 :: acc)
        else if e = 0x6e then parseString fuel rest (Char.ofNat 10 :: acc)
        else if e = 0x72 then parseString fuel rest (Char.ofNat 13 :: acc)
        else if e = 0x74 then parseString fuel rest (Char.ofNat 9 :: acc)
        else if e = 0x75 then
          match getu4 rest with
          | none => none
          | some (u, rest1) =>
            if 0xd800 ≤ u ∧ u < 0xe000 then
              match rest1 with
              | 0x5c :: 0x75 :: rest2 =>
                match getu4 rest2 with
                | some (v, rest3) =>
                  if u < 0xdc00 ∧ 0xdc00 ≤ v ∧ v < 0xe000 then
                    parseString fuel rest3
                      (Char.ofNat ((u - 0xd800) * 1024 + (v - 0xdc00) + 0x10000) :: acc)
                  else parseString fuel rest1 (Char.ofNat 0xfffd :: acc)
                | none => parseString fuel rest1 (Char.ofNat 0xfffd :: acc)
              | _ => parseString fuel rest1 (Char.ofNat 0xfffd :: acc)
            else parseString fuel rest1 (Char.ofNat u :: acc)
        else none
    else if b < 0x20 then none
    else
      parseString fuel ((b :: bs).drop (decodeRune (b :: bs)).2)
        (Char.ofNat (decodeRune (b :: bs)).1 :: acc)

/-- Modelled from the spec: an ASCII decimal digit. -/
def isDigit (b : UInt8) : Bool := 0x30 ≤ b && b ≤ 0x39

/-- Modelled from the spec: the leading decimal digits of the input and what
follows them. -/
def spanDigits : List UInt8 → List UInt8 × List UInt8
  | [] => ([], [])
  | b :: bs => if isDigit b then ((spanDigits bs).1.cons b, (spanDigits bs).2) else ([], b :: bs)

/-- Modelled from the spec: the JSON number literal at the head of the input. -/
def parseNumber (input : List UInt8) : Option (List UInt8 × List UInt8) :=
  let (sign, r0) := match input with
    | 0x2d :: r => ([(0x2d : UInt8)], r)
    | r => ([], r)
  let (ip, r1) := spanDigits r0
  if ip = [] ∨ (ip.length > 1 ∧ ip.head? = some 0x30) then none
  else
    let fr : Option (List UInt8 × List UInt8) := match r1 with
      | 0x2e :: r =>
        let (fd, r2) := spanDigits r
        if fd = [] then none else some (0x2e :: fd, r2)
      | r => some ([], r)
    match fr with
    | none => none
    | some (fp, r2) =>
      let ex : Option (List UInt8 × List UInt8) := match r2 with
        | e :: r =>
          if e = 0x65 ∨ e = 0x45 then
            let (sg, r3) : List UInt8 × List UInt8 := match r with
              | s :: r' => if s = 0x2b ∨ s = 0x2d then ([s], r') else ([], r)
              | [] => ([], r)
            let (ed, r4) := spanDigits r3
            if ed = [] then none else some (e :: sg ++ ed, r4)
          else some ([], r2)
        | [] => some ([], r2)
      match ex with
      | none => none
      | some (ep, r3) => some (sign ++ ip ++ fp ++ ep, r3)

mutual
/-- Modelled from the spec: one JSON value at the head of the input. The first
argument bounds the nesting and the number of members read. -/
def parseValue : Nat → List UInt8 → Option (JSON × List UInt8)
  | 0, _ => none
  | fuel + 1, input =>
    match skipSpace input with
    | [] => none
    | b :: bs =>
      if b = 0x7b then
        match skipSpace bs with
        | 0x7d :: rest => some (JSON.obj [], rest)
        | _ => (parseMembers fuel bs).map (fun r => (JSON.obj r.1, r.2))
      else if b = 0x5b then
        match skipSpace bs with
        | 0x5d :: rest => some (JSON.arr [], rest)
        | _ => (parseElems fuel bs).map (fun r => (JSON.arr r.1, r.2))
      else if b = 0x22 then
        (parseString (bs.length + 1) bs []).map (fun r => (JSON.str r.1, r.2))
      else if b = 0x74 then
        match bs with
        | 0x72 :: 0x75 :: 0x65 :: rest => some (JSON.bool true, rest)
        | _ => none
      else if b = 0x66 then
        match bs with
        | 0x61 :: 0x6c :: 0x73 :: 0x65 :: rest => some (JSON.bool false, rest)
        | _ => none
      else if b = 0x6e then
        match bs with
        | 0x75 :: 0x6c :: 0x6c :: rest => some (JSON.null, rest)
        | _ => none
      else (parseNumber (b :: bs)).map (fun r => (JSON.num r.1, r.2))
/-- Modelled from the spec: the elements of a JSON array after its bracket. -/
def parseElems : Nat → List UInt8 → Option (List JSON × List UInt8)
  | 0, _ => none
  | fuel + 1, input =>
    match parseValue fuel input with
    | none => none
    | some (v, rest) =>
      match skipSpace rest with
      | 0x5d :: rest1 => some ([v], rest1)
      | 0x2c :: rest1 => (parseElems fuel rest1).map (fun r => (v :: r.1, r.2))
      | _ => none
/-- Modelled from the spec: the members of a JSON object after its brace. -/
def parseMembers : Nat → List UInt8 → Option (List (String × JSON) × List UInt8)
  | 0, _ => none
  | fuel + 1, input =>
    match skipSpace input with
    | 0x22 :: bs =>
      match parseString (bs.length + 1) bs [] with
      | none => none
      | some (k, rest) =>
        match skipSpace rest with
        | 0x3a :: rest1 =>
          match parseValue fuel rest1 with
          | none => none
          | some (v, rest2) =>
            match skipSpace rest2 with
            | 0x7d :: rest3 => some ([(k, v)], rest3)
            | 0x2c :: rest3 => (parseMembers fuel rest3).map (fun r => ((k, v) :: r.1, r.2))
            | _ => none
        | _ => none
    | _ => none
end

/-- Modelled from the spec: the whole input as one JSON value, white space
allowed around it. -/
def parseJSON (input : List UInt8) : Option JSON :=
  match parseValue (input.length + 1) input with
  | none => none
  | some (v, rest) => if skipSpace rest = [] then some v else none


/-- Modelled from the spec: the case folding of `json.Unmarshal` for one
character of a field name against one character of a key: equal, or equal up
to ASCII case, or the long s (U+017F) for `s`, or the Kelvin sign (U+212A) for
`k`. -/
def foldCharEq (name key : Char) : Bool :=
  name = key ||
  (key.toNat < 0x80 && (name.toNat &&& 0xdf) = (key.toNat &&& 0xdf)) ||
  ((name.toNat &&& 0xdf) = 0x53 && key.toNat = 0x17f) ||
  ((name.toNat &&& 0xdf) = 0x4b && key.toNat = 0x212a)

/-- Modelled from the spec: the case-insensitive comparison of a field name with
an object key, character by character. -/
def foldEq : List Char → List Char → Bool
  | [], [] => true
  | a :: as, b :: bs => foldCharEq a b && foldEq as bs
  | _, _ => false

/-- Modelled from the spec: the match of an object key against a struct field
name done by `json.Unmarshal`: exact or case-insensitive. -/
def equalFold (name key : String) : Bool := foldEq name.data key.data

/-- Modelled from the spec: `json.Unmarshal` into a string field: a JSON string
sets it, `null` leaves it, anything else is an error. -/
def decodeString (v : JSON) (old : String) : Option String :=
  match v with
  | JSON.null => some old
  | JSON.str s => some s
  | _ => none

/-- Modelled from the spec: `json.Unmarshal` into a bool field. -/
def decodeBool (v : JSON) (old : Bool) : Option Bool :=
  match v with
  | JSON.null => some old
  | JSON.bool b => some b
  | _ => none

/-- Modelled from the spec: the number written by a list of decimal digits. -/
def digitsValue (ds : List UInt8) : Nat :=
  ds.foldl (fun a d => 10 * a + (d.toNat - 0x30)) 0

/-- Modelled from the spec: `json.Unmarshal` into an int64 field: the literal
must be an integer (no fraction, no exponent) in the int64 range. -/
def decodeInt64 (v : JSON) (old : Int) : Option Int :=
  match v with
  | JSON.null => some old
  | JSON.num (0x2d :: ds) =>
    if ds.all isDigit ∧ digitsValue ds ≤ 2 ^ 63 then some (-(digitsValue ds : Int)) else none
  | JSON.num ds =>
    if ds.all isDigit ∧ digitsValue ds < 2 ^ 63 then some (digitsValue ds : Int) else none
  | _ => none

/-- Modelled from the spec: `json.Unmarshal` of a JSON value into a
`groupRecord`: the members of an object are stored in order into the fields
they name, unknown keys are ignored, `null` leaves the record unchanged. -/
def decodeGroupRecord (v : JSON) (r : groupRecord) : Option groupRecord :=
  match v with
  | JSON.null => some r
  | JSON.obj ms =>
    ms.foldlM (fun r kv =>
      if equalFold "groupName" kv.1 then
        (decodeString kv.2 r.GroupName).map (fun s => { r with GroupName := s })
      else if equalFold "gid" kv.1 then
        (decodeInt64 kv.2 r.Gid).map (fun n => { r with Gid := n })
      else some r) r
  | _ => none

/-- Modelled from the spec: `json.Unmarshal` into the `Parameters` struct of the
reply, whose only field is `Record`. -/
def decodeParameters {ρ : Type} (dec : JSON → ρ → Option ρ) (v : JSON) (r : ρ) : Option ρ :=
  match v with
  | JSON.null => some r
  | JSON.obj ms =>
    ms.foldlM (fun r kv => if equalFold "record" kv.1 then dec kv.2 r else some r) r
  | _ => none

/-- Modelled from the spec: `json.Unmarshal` of a parsed JSON value into the
zero reply struct. -/
def decodeReply {ρ : Type} (dec : JSON → ρ → Option ρ) (zero : ρ) (v : JSON) : Option (Reply ρ) :=
  match v with
  | JSON.null => some { Record := zero, Continues := false }
  | JSON.obj ms =>
    ms.foldlM (fun rep kv =>
      if equalFold "parameters" kv.1 then
        (decodeParameters dec kv.2 rep.Record).map (fun r => { rep with Record := r })
      else if equalFold "continues" kv.1 then
        (decodeBool kv.2 rep.Continues).map (fun c => { rep with Continues := c })
      else some rep) { Record := zero, Continues := false }
  | _ => none

/-- Modelled from the spec: `json.Unmarshal(b, &reply)` in `queryGroupDb`
(package encoding/json is not under src/): the frame must be one valid JSON
value, decoded into the reply struct field by field. -/
def jsonUnmarshalGroup (b : List UInt8) : Except Error (Reply groupRecord) :=
  match parseJSON b with
  | none => Except.error (Error.other "json: syntax error")
  | some v =>
    match decodeReply decodeGroupRecord { GroupName := "", Gid := 0 } v with
    | none => Except.error (Error.other "json: cannot unmarshal")
    | some r => Except.ok r

/-- Modelled from the spec: `json.Unmarshal` of a JSON value into a
`userRecord`. -/
def decodeUserRecord (v : JSON) (r : userRecord) : Option userRecord :=
  match v with
  | JSON.null => some r
  | JSON.obj ms =>
    ms.foldlM (fun r kv =>
      if equalFold "userName" kv.1 then
        (decodeString kv.2 r.UserName).map (fun s => { r with UserName := s })
      else if equalFold "realName" kv.1 then
        (decodeString kv.2 r.RealName).map (fun s => { r with RealName := s })
      else if equalFold "uid" kv.1 then
        (decodeInt64 kv.2 r.Uid).map (fun n => { r with Uid := n })
      else if equalFold "gid" kv.1 then
        (decodeInt64 kv.2 r.Gid).map (fun n => { r with Gid := n })
      else if equalFold "homeDirectory" kv.1 then
        (decodeString kv.2 r.HomeDirectory).map (fun s => { r with HomeDirectory := s })
      else some r) r
  | _ => none

/-- Modelled from the spec: `json.Unmarshal(b, &reply)` in `queryUserDb`
(package encoding/json is not under src/). -/
def jsonUnmarshalUser (b : List UInt8) : Except Error (Reply userRecord) :=
  match parseJSON b with
  | none => Except.error (Error.other "json: syntax error")
  | some v =>
    match decodeReply decodeUserRecord
        { UserName := "", RealName := "", Uid := 0, Gid := 0, HomeDirectory := "" } v with
    | none => Except.error (Error.other "json: cannot unmarshal")
    | some r => Except.ok r

deriving instance DecidableEq for Except

/-- The frame written by `serveUserdbd` in lookup_linux_test.go (line 33),
without its terminating 0 byte. -/
def testFrame : List UInt8 :=
  stringBytes "\x7b\"parameters\":\x7b\"record\":\x7b\"groupName\":\"stdlibcontrib\",\"gid\":181,\"status\":\x7b\"ecb5a44f1a5846ad871566e113bf8937\":\x7b\"service\":\"io.systemd.NameServiceSwitch\"\x7d\x7d\x7d,\"incomplete\":false\x7d\x7d"

/-- The byte stream `s` carries exactly the frames `fs`: no frame contains a 0
byte, every frame is followed by a 0 byte, and the 0 byte after the last frame
may be missing when that frame is not empty. -/
def carries (s : List UInt8) (fs : List (List UInt8)) : Prop :=
  (∀ f ∈ fs, (0 : UInt8) ∉ f) ∧
    (s = frameStream fs [] ∨ (s = List.intercalate [0] fs ∧ fs.getLast? ≠ some []))

/-- The `continues` field of the envelope a frame decodes into; `none` when the
frame does not decode. -/
def continuesOf {ρ : Type} (jsonUnmarshal : List UInt8 → Except Error (Reply ρ))
    (f : List UInt8) : Option Bool :=
  match jsonUnmarshal f with
  | Except.ok reply => some reply.Continues
  | Except.error _ => none

/-- The record of the envelope a frame decodes into; `none` when the frame does
not decode. -/
def recordOf {ρ : Type} (jsonUnmarshal : List UInt8 → Except Error (Reply ρ))
    (f : List UInt8) : Option ρ :=
  match jsonUnmarshal f with
  | Except.ok reply => some reply.Record
  | Except.error _ => none

/-- A group frame: group `wheel`, gid 10, more frames follow. -/
def wheelFrame : List UInt8 :=
  stringBytes "\x7b\"parameters\":\x7b\"record\":\x7b\"groupName\":\"wheel\",\"gid\":10\x7d\x7d,\"continues\":true\x7d"

/-- A group frame: group `users`, gid 100, more frames follow. -/
def usersFrame : List UInt8 :=
  stringBytes "\x7b\"parameters\":\x7b\"record\":\x7b\"groupName\":\"users\",\"gid\":100\x7d\x7d,\"continues\":true\x7d"

/-- A group frame: group `wheel` again, with gid 998, the last of its reply. -/
def wheelLastFrame : List UInt8 :=
  stringBytes "\x7b\"parameters\":\x7b\"record\":\x7b\"groupName\":\"wheel\",\"gid\":998\x7d\x7d,\"continues\":false\x7d"

/-- A group frame: group `audio`, gid 63, the last of its reply. -/
def audioLastFrame : List UInt8 :=
  stringBytes "\x7b\"parameters\":\x7b\"record\":\x7b\"groupName\":\"audio\",\"gid\":63\x7d\x7d,\"continues\":false\x7d"

/-- The first bytes of a group frame, cut in the middle of the record. -/
def brokenFrame : List UInt8 :=
  stringBytes "\x7b\"parameters\":\x7b\"record\":\x7b\"groupName\":\"whe"

/-- A user frame: user `root`, uid 0, gid 0, more frames follow. -/
def rootFrame : List UInt8 :=
  stringBytes "\x7b\"parameters\":\x7b\"record\":\x7b\"userName\":\"root\",\"realName\":\"Super User\",\"uid\":0,\"gid\":0,\"homeDirectory\":\"/root\"\x7d\x7d,\"continues\":true\x7d"

/-- A user frame: user `alice`, uid 1000, gid 100, the last of its reply. -/
def aliceLastFrame : List UInt8 :=
  stringBytes "\x7b\"parameters\":\x7b\"record\":\x7b\"userName\":\"alice\",\"realName\":\"Alice\",\"uid\":1000,\"gid\":100,\"homeDirectory\":\"/home/alice\"\x7d\x7d,\"continues\":false\x7d"

/-- A user frame: user `alice` again, with uid 2000, more frames follow. -/
def aliceFrame : List UInt8 :=
  stringBytes "\x7b\"parameters\":\x7b\"record\":\x7b\"userName\":\"alice\",\"realName\":\"Alice B\",\"uid\":2000,\"gid\":100,\"homeDirectory\":\"/home/alice\"\x7d\x7d,\"continues\":true\x7d"

/-! ## Stream-level view of the scan loop -/

/-- The bytes a scanner has still to deliver: the buffer, followed by the reads
to come unless an error is already pending. -/
def Scanner.stream (s : Scanner) : List UInt8 :=
  if s.err ≠ none then s.buf else s.buf ++ s.chunks.flatten

/-- The error a scanner ends with: the pending one, else the reader's. -/
def Scanner.terminal (s : Scanner) : Error :=
  s.err.getD s.final

/-- What `sc.Err()` reports once the scanner has met the error `e`. -/
def errView (e : Error) : Option Error :=
  if e = Error.EOF then none else some e

/-- The tokens of a byte stream, each with the value of `sc.Err()` right after
it is produced: a token closed by a 0 byte carries `errNow`, a final token that
no 0 byte closes carries `endErr`. `cur` holds the bytes of the token being
read. -/
def tokens (endErr errNow : Option Error) :
    List UInt8 → List UInt8 → List (List UInt8 × Option Error)
  | [], cur => if cur = [] then [] else [(cur, endErr)]
  | b :: bs, cur =>
    if b = 0 then (cur, errNow) :: tokens endErr errNow bs []
    else tokens endErr errNow bs (cur ++ [b])

/-- The scan loop of `queryUserdbd` over a given list of tokens: `endErr` is
what `sc.Err()` reports when the tokens run out. -/
def consume {σ : Type} (unmarshal : List UInt8 → σ → (Bool × Option Error) × σ)
    (endErr : Option Error) :
    List (List UInt8 × Option Error) → σ → List (List UInt8) →
      Option Error × σ × List (List UInt8)
  | [], st, seen => (endErr, st, seen)
  | (f, e) :: fs, st, seen =>
    match unmarshal f st with
    | ((_, some _), st1) => (none, st1, seen ++ [f])
    | ((continues, none), st1) =>
      if !continues then (e, st1, seen ++ [f])
      else consume unmarshal endErr fs st1 (seen ++ [f])

/-- The shape shared by the callbacks of `queryGroupDb` and `queryUserDb`:
decode, skip a record the predicate rejects, else capture what `build` makes
of the record. -/
def recordCallback {ρ ι : Type} (jsonUnmarshal : List UInt8 → Except Error (Reply ρ))
    (predicate : ρ → Bool) (build : ρ → ι) (b : List UInt8) (st : Option ι) :
    (Bool × Option Error) × Option ι :=
  match jsonUnmarshal b with
  | Except.error err => ((false, some err), st)
  | Except.ok reply =>
    if !predicate reply.Record then ((reply.Continues, none), st)
    else ((reply.Continues, none), some (build reply.Record))

/-- The value captured after the frames `fs` have all been handed to a record
callback, starting from `st`: the last matching record wins. -/
def captured {ρ ι : Type} (jsonUnmarshal : List UInt8 → Except Error (Reply ρ))
    (predicate : ρ → Bool) (build : ρ → ι) (fs : List (List UInt8)) (st : Option ι) :
    Option ι :=
  fs.foldl (fun acc f => (recordCallback jsonUnmarshal predicate build f acc).2) st

/-! ## The results of the record queries -/

theorem queryGroupDb_eq (j : List UInt8 → Except Error (Reply groupRecord))
    (dial : Except Error Conn) (p : groupRecord → Bool) :
    queryGroupDb j dial p =
      match queryUserdbd dial "io.systemd.UserDatabase.GetGroupRecord"
          (queryGroupDb.unmarshal j p) none with
      | none => none
      | some out =>
        match out.err with
        | some err => some (none, some err)
        | none => some (out.st, none) := by
  unfold queryGroupDb queryGroupDb.traced
  cases queryUserdbd dial "io.systemd.UserDatabase.GetGroupRecord"
      (queryGroupDb.unmarshal j p) none with
  | none => rfl
  | some out => cases hout : out.err <;> simp [hout]

theorem queryUserDb_eq (j : List UInt8 → Except Error (Reply userRecord))
    (dial : Except Error Conn) (p : userRecord → Bool) :
    queryUserDb j dial p =
      match queryUserdbd dial "io.systemd.UserDatabase.GetUserRecord"
          (queryUserDb.unmarshal j p) none with
      | none => none
      | some out =>
        match out.err with
        | some err => some (none, some err)
        | none => some (out.st, none) := by
  unfold queryUserDb queryUserDb.traced
  cases queryUserdbd dial "io.systemd.UserDatabase.GetUserRecord"
      (queryUserDb.unmarshal j p) none with
  | none => rfl
  | some out => cases hout : out.err <;> simp [hout]

theorem lookupGroup_eq (j : List UInt8 → Except Error (Reply groupRecord))
    (dial : Except Error Conn) (n : String) :
    lookupGroup j dial n = queryGroupDb j dial (lookupGroup.predicate n) := rfl

/-! ## The split function -/

theorem IndexByte_of_not_mem (data : List UInt8) (c : UInt8) (h : c ∉ data) :
    IndexByte data c = -1 := by
  induction data with
  | nil => rfl
  | cons b bs ih =>
    have hb : ¬ b = c := fun e => h (by simp [e])
    have hbs : c ∉ bs := fun e => h (by simp [e])
    simp [IndexByte, hb, ih hbs]

theorem IndexByte_of_mem (data : List UInt8) (c : UInt8) (h : c ∈ data) :
    IndexByte data c = ((data.takeWhile (fun b => b != c)).length : Int) := by
  induction data with
  | nil => simp at h
  | cons b bs ih =>
    by_cases hb : b = c
    · simp [IndexByte, hb]
    · have hbs : c ∈ bs := by
        rcases List.mem_cons.1 h with e | e
        · exact absurd e.symm hb
        · exact e
      have := ih hbs
      simp [IndexByte, hb, this]

theorem take_takeWhile_length (data : List UInt8) (p : UInt8 → Bool) :
    data.take (data.takeWhile p).length = data.takeWhile p := by
  induction data with
  | nil => rfl
  | cons b bs ih =>
    by_cases hb : p b <;> simp [List.takeWhile, hb, ih]

theorem drop_takeWhile_length_succ (data : List UInt8) (p : UInt8 → Bool) :
    data.drop ((data.takeWhile p).length + 1) = (data.dropWhile p).drop 1 := by
  induction data with
  | nil => rfl
  | cons b bs ih =>
    by_cases hb : p b <;> simp [List.takeWhile, List.dropWhile, hb, ih]

theorem split_of_mem (data : List UInt8) (atEOF : Bool) (h : (0 : UInt8) ∈ data) :
    split data atEOF =
      (((data.takeWhile (fun b => b != 0)).length : Int) + 1,
        some (data.takeWhile (fun b => b != 0)), none) := by
  have hne : data ≠ [] := by rintro rfl; simp at h
  have hlen : ¬ data.length = 0 := by simpa using hne
  have hi := IndexByte_of_mem data 0 h
  simp [split, hi, hlen, take_takeWhile_length]

theorem split_of_not_mem (data : List UInt8) (h : (0 : UInt8) ∉ data) :
    split data false = (0, none, none) := by
  simp [split, IndexByte_of_not_mem data 0 h]

theorem split_eof_nil : split [] true = (0, none, none) := by
  simp [split]

theorem split_eof_of_not_mem (data : List UInt8) (h : (0 : UInt8) ∉ data) (hne : data ≠ []) :
    split data true = ((data.length : Int), some data, none) := by
  have hlen : ¬ data.length = 0 := by simpa using hne
  simp [split, IndexByte_of_not_mem data 0 h, hlen]

/-! ## One call of `Scan` -/

theorem takeWhile_length_lt_of_mem (data : List UInt8) (h : (0 : UInt8) ∈ data) :
    (data.takeWhile (fun b => b != 0)).length < data.length := by
  induction data with
  | nil => simp at h
  | cons b bs ih =>
    by_cases hb : b = 0
    · simp [List.takeWhile, hb]
    · have hbs : (0 : UInt8) ∈ bs := by
        rcases List.mem_cons.1 h with e | e
        · exact absurd e.symm hb
        · exact e
      have := ih hbs
      have hb1 : (b != 0) = true := by simpa using hb
      rw [List.takeWhile_cons, if_pos hb1]
      simp only [List.length_cons]
      omega

theorem tryToken_of_mem (s : Scanner) (h : (0 : UInt8) ∈ s.buf) :
    s.tryToken split =
      Sum.inl (true, { s with buf := (s.buf.dropWhile (fun b => b != 0)).drop 1,
                              tok := some (s.buf.takeWhile (fun b => b != 0)) }) := by
  have hne : s.buf ≠ [] := by intro e; rw [e] at h; simp at h
  have hpos : 0 < s.buf.length := List.length_pos.2 hne
  have hlt := takeWhile_length_lt_of_mem s.buf h
  have h1 : ¬ (((s.buf.takeWhile (fun b => b != 0)).length : Int) + 1 < 0) := by omega
  have h2 : ¬ (((s.buf.takeWhile (fun b => b != 0)).length : Int) + 1 > (s.buf.length : Int)) := by
    omega
  have h3 : (((s.buf.takeWhile (fun b => b != 0)).length : Int) + 1).toNat
      = (s.buf.takeWhile (fun b => b != 0)).length + 1 := by omega
  unfold Scanner.tryToken
  rw [if_pos (Or.inl hpos), split_of_mem s.buf _ h]
  simp only [h1, h2, h3, if_false, Option.isSome_some, if_true, drop_takeWhile_length_succ]

theorem tryToken_noerr_of_not_mem (s : Scanner) (he : s.err = none) (h : (0 : UInt8) ∉ s.buf) :
    ∃ t, s.tryToken split = Sum.inr { s with tok := t } := by
  by_cases hne : s.buf = []
  · refine ⟨s.tok, ?_⟩
    cases s
    simp_all [Scanner.tryToken]
  · refine ⟨none, ?_⟩
    have hpos : 0 < s.buf.length := List.length_pos.2 hne
    unfold Scanner.tryToken
    rw [if_pos (Or.inl hpos)]
    simp [he, split_of_not_mem s.buf h]

theorem tryToken_err_of_not_mem (s : Scanner) (he : s.err ≠ none) (h : (0 : UInt8) ∉ s.buf)
    (hne : s.buf ≠ []) :
    s.tryToken split = Sum.inl (true, { s with buf := [], tok := some s.buf }) := by
  have hpos : 0 < s.buf.length := List.length_pos.2 hne
  have hb : (s.err != none) = true := by simpa using he
  unfold Scanner.tryToken
  rw [if_pos (Or.inl hpos), hb, split_eof_of_not_mem s.buf h hne]
  simp

theorem tryToken_err_nil (s : Scanner) (he : s.err ≠ none) (hnil : s.buf = []) :
    s.tryToken split = Sum.inr { s with buf := [], tok := none } := by
  have hb : (s.err != none) = true := by simpa using he
  unfold Scanner.tryToken
  rw [if_pos (Or.inr he), hb, hnil, split_eof_nil]
  simp

theorem takeWhile_append_of_mem (a b : List UInt8) (h : (0 : UInt8) ∈ a) :
    (a ++ b).takeWhile (fun x => x != 0) = a.takeWhile (fun x => x != 0) := by
  induction a with
  | nil => simp at h
  | cons x xs ih =>
    by_cases hx : x = 0
    · simp [List.takeWhile_cons, hx]
    · have hxs : (0 : UInt8) ∈ xs := by
        rcases List.mem_cons.1 h with e | e
        · exact absurd e.symm hx
        · exact e
      simp [List.takeWhile_cons, hx, ih hxs]

theorem dropWhile_append_of_mem (a b : List UInt8) (h : (0 : UInt8) ∈ a) :
    ((a ++ b).dropWhile (fun x => x != 0)).drop 1
      = (a.dropWhile (fun x => x != 0)).drop 1 ++ b := by
  induction a with
  | nil => simp at h
  | cons x xs ih =>
    by_cases hx : x = 0
    · simp [List.dropWhile_cons, hx]
    · have hxs : (0 : UInt8) ∈ xs := by
        rcases List.mem_cons.1 h with e | e
        · exact absurd e.symm hx
        · exact e
      simp [List.dropWhile_cons, hx, ih hxs]

theorem scanLoop_of_mem (cs : List (List UInt8)) (s : Scanner) (he : s.err = none)
    (h : (0 : UInt8) ∈ s.buf ++ cs.flatten) :
    (Scanner.scanLoop split cs s).1 = true ∧
    (Scanner.scanLoop split cs s).2.tok
      = some ((s.buf ++ cs.flatten).takeWhile (fun b => b != 0)) ∧
    (Scanner.scanLoop split cs s).2.stream
      = ((s.buf ++ cs.flatten).dropWhile (fun b => b != 0)).drop 1 ∧
    (Scanner.scanLoop split cs s).2.err = none ∧
    (Scanner.scanLoop split cs s).2.final = s.final := by
  induction cs generalizing s with
  | nil =>
    have hb : (0 : UInt8) ∈ ({ s with chunks := [] } : Scanner).buf := by simpa using h
    rw [Scanner.scanLoop, tryToken_of_mem _ hb]
    simp [Scanner.stream, he]
  | cons c cs ih =>
    by_cases hb : (0 : UInt8) ∈ s.buf
    · have hb1 : (0 : UInt8) ∈ ({ s with chunks := c :: cs } : Scanner).buf := hb
      rw [Scanner.scanLoop, tryToken_of_mem _ hb1]
      simp [Scanner.stream, he, takeWhile_append_of_mem _ _ hb, dropWhile_append_of_mem _ _ hb]
    · have hb1 : (0 : UInt8) ∉ ({ s with chunks := c :: cs } : Scanner).buf := hb
      obtain ⟨t, ht⟩ := tryToken_noerr_of_not_mem ({ s with chunks := c :: cs } : Scanner) he hb1
      rw [Scanner.scanLoop, ht]
      have h2 := ih ({ chunks := cs, final := s.final, buf := s.buf ++ c, err := s.err, tok := t })
        he (by simpa [List.append_assoc] using h)
      simpa [List.append_assoc] using h2

theorem scanLoop_of_last (cs : List (List UInt8)) (s : Scanner) (he : s.err = none)
    (h : (0 : UInt8) ∉ s.buf ++ cs.flatten) (hne : s.buf ++ cs.flatten ≠ []) :
    (Scanner.scanLoop split cs s).1 = true ∧
    (Scanner.scanLoop split cs s).2.tok = some (s.buf ++ cs.flatten) ∧
    (Scanner.scanLoop split cs s).2.stream = [] ∧
    (Scanner.scanLoop split cs s).2.err = some s.final ∧
    (Scanner.scanLoop split cs s).2.final = s.final := by
  induction cs generalizing s with
  | nil =>
    have hb : (0 : UInt8) ∉ ({ s with chunks := [] } : Scanner).buf := by simpa using h
    obtain ⟨t, ht⟩ := tryToken_noerr_of_not_mem ({ s with chunks := [] } : Scanner) he hb
    have hbne : s.buf ≠ [] := by simpa using hne
    rw [Scanner.scanLoop, ht]
    simp only [Scanner.setErr, he, true_or, if_true, Scanner.atErr]
    rw [tryToken_err_of_not_mem _ (by simp) (by simpa using h) (by simpa using hbne)]
    simp [Scanner.stream]
  | cons c cs ih =>
    have hb : (0 : UInt8) ∉ ({ s with chunks := c :: cs } : Scanner).buf := by
      intro hh; exact h (by simp [show (0 : UInt8) ∈ s.buf from hh])
    obtain ⟨t, ht⟩ := tryToken_noerr_of_not_mem ({ s with chunks := c :: cs } : Scanner) he hb
    rw [Scanner.scanLoop, ht]
    have h2 := ih ({ chunks := cs, final := s.final, buf := s.buf ++ c, err := s.err, tok := t })
      he (by simpa [List.append_assoc] using h) (by simpa [List.append_assoc] using hne)
    simpa [List.append_assoc] using h2

theorem scanLoop_of_nil (cs : List (List UInt8)) (s : Scanner) (he : s.err = none)
    (h : s.buf ++ cs.flatten = []) :
    (Scanner.scanLoop split cs s).1 = false ∧
    (Scanner.scanLoop split cs s).2.err = some s.final ∧
    (Scanner.scanLoop split cs s).2.final = s.final := by
  induction cs generalizing s with
  | nil =>
    have hbnil : s.buf = [] := by simpa using h
    have hb : (0 : UInt8) ∉ ({ s with chunks := [] } : Scanner).buf := by simp [hbnil]
    obtain ⟨t, ht⟩ := tryToken_noerr_of_not_mem ({ s with chunks := [] } : Scanner) he hb
    rw [Scanner.scanLoop, ht]
    simp only [Scanner.setErr, he, true_or, if_true, Scanner.atErr]
    rw [tryToken_err_nil _ (by simp) (by simpa using hbnil)]
    simp
  | cons c cs ih =>
    have hbnil : s.buf = [] := by
      have := List.append_eq_nil.1 h
      exact this.1
    have hb : (0 : UInt8) ∉ ({ s with chunks := c :: cs } : Scanner).buf := by simp [hbnil]
    obtain ⟨t, ht⟩ := tryToken_noerr_of_not_mem ({ s with chunks := c :: cs } : Scanner) he hb
    rw [Scanner.scanLoop, ht]
    have h2 := ih ({ chunks := cs, final := s.final, buf := s.buf ++ c, err := s.err, tok := t })
      he (by simpa [List.append_assoc] using h)
    simpa [List.append_assoc] using h2

theorem Scan_of_nil (s : Scanner) (h : s.stream = []) :
    (s.Scan split).1 = false ∧ (s.Scan split).2.Err = errView s.terminal := by
  by_cases he : s.err = none
  · have hs : s.buf ++ s.chunks.flatten = [] := by simpa [Scanner.stream, he] using h
    obtain ⟨h1, h2, _⟩ := scanLoop_of_nil s.chunks s he hs
    simp [Scanner.Scan, he, h1, Scanner.Err, h2, errView, Scanner.terminal]
  · have hs : s.buf = [] := by simpa [Scanner.stream, he] using h
    obtain ⟨e, hee⟩ := Option.ne_none_iff_exists'.1 he
    simp [Scanner.Scan, he, Scanner.atErr, tryToken_err_nil s he hs, Scanner.Err, errView,
      Scanner.terminal, hee]

theorem Scan_of_mem (s : Scanner) (h : (0 : UInt8) ∈ s.stream) :
    (s.Scan split).1 = true ∧
    (s.Scan split).2.Bytes = s.stream.takeWhile (fun b => b != 0) ∧
    (s.Scan split).2.stream = (s.stream.dropWhile (fun b => b != 0)).drop 1 ∧
    (s.Scan split).2.Err = s.Err ∧
    (s.Scan split).2.terminal = s.terminal := by
  by_cases he : s.err = none
  · have hst : s.stream = s.buf ++ s.chunks.flatten := by simp [Scanner.stream, he]
    have hS : s.Scan split = Scanner.scanLoop split s.chunks s := by simp [Scanner.Scan, he]
    rw [hst] at h
    rw [hst, hS]
    obtain ⟨h1, h2, h3, h4, h5⟩ := scanLoop_of_mem s.chunks s he h
    refine ⟨h1, ?_, h3, ?_, ?_⟩
    · simp [Scanner.Bytes, h2]
    · simp [Scanner.Err, h4, he]
    · simp [Scanner.terminal, h4, h5, he]
  · have hs : (0 : UInt8) ∈ s.buf := by simpa [Scanner.stream, he] using h
    simp [Scanner.Scan, he, Scanner.atErr, tryToken_of_mem s hs, Scanner.Bytes, Scanner.Err,
      Scanner.terminal, Scanner.stream]

theorem Scan_of_last (s : Scanner) (hne : s.stream ≠ []) (h : (0 : UInt8) ∉ s.stream) :
    (s.Scan split).1 = true ∧
    (s.Scan split).2.Bytes = s.stream ∧
    (s.Scan split).2.stream = [] ∧
    (s.Scan split).2.Err = errView s.terminal ∧
    (s.Scan split).2.terminal = s.terminal := by
  by_cases he : s.err = none
  · have hst : s.stream = s.buf ++ s.chunks.flatten := by simp [Scanner.stream, he]
    have hS : s.Scan split = Scanner.scanLoop split s.chunks s := by simp [Scanner.Scan, he]
    rw [hst] at h hne
    rw [hst, hS]
    obtain ⟨h1, h2, h3, h4, h5⟩ := scanLoop_of_last s.chunks s he h hne
    refine ⟨h1, ?_, h3, ?_, ?_⟩
    · simp [Scanner.Bytes, h2]
    · simp [Scanner.Err, h4, errView, Scanner.terminal, he]
    · simp [Scanner.terminal, h4, he]
  · have hs : (0 : UInt8) ∉ s.buf := by simpa [Scanner.stream, he] using h
    have hn : s.buf ≠ [] := by simpa [Scanner.stream, he] using hne
    obtain ⟨e, hee⟩ := Option.ne_none_iff_exists'.1 he
    simp [Scanner.Scan, he, Scanner.atErr, tryToken_err_of_not_mem s he hs hn, Scanner.Bytes,
      Scanner.Err, Scanner.terminal, Scanner.stream, errView, hee]

/-! ## The token list of a stream -/

theorem tokens_of_mem (endErr errNow : Option Error) (bs cur : List UInt8)
    (h : (0 : UInt8) ∈ bs) :
    tokens endErr errNow bs cur =
      (cur ++ bs.takeWhile (fun b => b != 0), errNow) ::
        tokens endErr errNow ((bs.dropWhile (fun b => b != 0)).drop 1) [] := by
  induction bs generalizing cur with
  | nil => simp at h
  | cons x xs ih =>
    by_cases hx : x = 0
    · simp [tokens, hx, List.takeWhile_cons, List.dropWhile_cons]
    · have hxs : (0 : UInt8) ∈ xs := by
        rcases List.mem_cons.1 h with e | e
        · exact absurd e.symm hx
        · exact e
      simp [tokens, hx, List.takeWhile_cons, List.dropWhile_cons, ih _ hxs]

theorem tokens_of_not_mem (endErr errNow : Option Error) (bs cur : List UInt8)
    (h : (0 : UInt8) ∉ bs) :
    tokens endErr errNow bs cur = if cur ++ bs = [] then [] else [(cur ++ bs, endErr)] := by
  induction bs generalizing cur with
  | nil => simp [tokens]
  | cons x xs ih =>
    have hx : ¬ x = 0 := fun e => h (by simp [e])
    have hxs : (0 : UInt8) ∉ xs := fun e => h (by simp [e])
    simp [tokens, hx, ih _ hxs]

theorem drop_dropWhile_length_lt (data : List UInt8) (h : (0 : UInt8) ∈ data) :
    ((data.dropWhile (fun b => b != 0)).drop 1).length < data.length := by
  have h1 := drop_takeWhile_length_succ data (fun b => b != 0)
  have h2 := takeWhile_length_lt_of_mem data h
  rw [← h1, List.length_drop]
  omega

/-! ## The scan loop is the token-level loop -/

theorem loop_eq_consume {σ : Type} (unmarshal : List UInt8 → σ → (Bool × Option Error) × σ)
    (fuel : Nat) (sc : Scanner) (st : σ) (seen : List (List UInt8))
    (hfuel : sc.stream.length < fuel) :
    queryUserdbd.loop unmarshal fuel sc st seen =
      some (consume unmarshal (errView sc.terminal)
        (tokens (errView sc.terminal) sc.Err sc.stream []) st seen) := by
  induction fuel generalizing sc st seen with
  | zero => omega
  | succ fuel ih =>
    by_cases hnil : sc.stream = []
    · obtain ⟨h1, h2⟩ := Scan_of_nil sc hnil
      rcases hS : sc.Scan split with ⟨b, sc1⟩
      rw [hS] at h1 h2
      simp only at h1 h2
      subst h1
      simp [queryUserdbd.loop, hS, hnil, tokens, consume, h2]
    · by_cases hmem : (0 : UInt8) ∈ sc.stream
      · obtain ⟨h1, h2, h3, h4, h5⟩ := Scan_of_mem sc hmem
        rcases hS : sc.Scan split with ⟨b, sc1⟩
        rw [hS] at h1 h2 h3 h4 h5
        simp only at h1 h2 h3 h4 h5
        subst h1
        have hlt : sc1.stream.length < fuel := by
          have := drop_dropWhile_length_lt sc.stream hmem
          rw [h3]; omega
        rw [queryUserdbd.loop, hS, tokens_of_mem _ _ _ _ hmem]
        simp only [consume, h2, List.nil_append]
        rcases hu : unmarshal (sc.stream.takeWhile (fun b => b != 0)) st with ⟨⟨c, e⟩, st1⟩
        cases e with
        | some e => simp
        | none =>
          cases c with
          | false => simp [h4]
          | true =>
            simp only [Bool.not_true, Bool.false_eq_true, if_false]
            rw [ih sc1 st1 _ hlt, h5, h4, h3]
      · obtain ⟨h1, h2, h3, h4, h5⟩ := Scan_of_last sc hnil hmem
        rcases hS : sc.Scan split with ⟨b, sc1⟩
        rw [hS] at h1 h2 h3 h4 h5
        simp only at h1 h2 h3 h4 h5
        subst h1
        have hlt : sc1.stream.length < fuel := by
          have := List.length_pos.2 hnil
          rw [h3]; simp; omega
        rw [queryUserdbd.loop, hS, tokens_of_not_mem _ _ _ _ hmem]
        simp only [consume, h2, List.nil_append, hnil, if_false]
        rcases hu : unmarshal sc.stream st with ⟨⟨c, e⟩, st1⟩
        cases e with
        | some e => simp
        | none =>
          cases c with
          | false => simp [h4]
          | true =>
            simp only [Bool.not_true, Bool.false_eq_true, if_false]
            rw [ih sc1 st1 _ hlt, h5, h3]
            simp [tokens, consume]

/-! ## From the connection to the token-level loop -/

theorem queryUserdbd_ok {σ : Type} (chunks : List (List UInt8)) (final : Error)
    (method : String) (unmarshal : List UInt8 → σ → (Bool × Option Error) × σ) (st : σ) :
    queryUserdbd (Except.ok { writeErr := none, chunks := chunks, final := final }) method
        unmarshal st =
      some { err := (consume unmarshal (errView final)
                      (tokens (errView final) none chunks.flatten []) st []).1,
             st := (consume unmarshal (errView final)
                      (tokens (errView final) none chunks.flatten []) st []).2.1,
             written := marshalRequest method ++ [0],
             frames := (consume unmarshal (errView final)
                      (tokens (errView final) none chunks.flatten []) st []).2.2 } := by
  have h := loop_eq_consume unmarshal ((NewScanner chunks final).pending + 1)
    (NewScanner chunks final) st [] (by simp [NewScanner, Scanner.pending, Scanner.stream])
  simp only [queryUserdbd, h]
  simp [NewScanner, Scanner.terminal, Scanner.Err, Scanner.stream]

theorem takeWhile_frame (f rest : List UInt8) (h : (0 : UInt8) ∉ f) :
    (f ++ 0 :: rest).takeWhile (fun b => b != 0) = f := by
  induction f with
  | nil => simp
  | cons x xs ih =>
    have hx : ¬ x = 0 := fun e => h (by simp [e])
    have hxs : (0 : UInt8) ∉ xs := fun e => h (by simp [e])
    simp [List.takeWhile_cons, hx, ih hxs]

theorem dropWhile_frame (f rest : List UInt8) (h : (0 : UInt8) ∉ f) :
    ((f ++ 0 :: rest).dropWhile (fun b => b != 0)).drop 1 = rest := by
  induction f with
  | nil => simp
  | cons x xs ih =>
    have hx : ¬ x = 0 := fun e => h (by simp [e])
    have hxs : (0 : UInt8) ∉ xs := fun e => h (by simp [e])
    simp [List.dropWhile_cons, hx, ih hxs]

theorem tokens_frameStream (endErr errNow : Option Error) (frames : List (List UInt8))
    (last : List UInt8) (h : ∀ f ∈ frames, (0 : UInt8) ∉ f) (hl : (0 : UInt8) ∉ last) :
    tokens endErr errNow (frameStream frames last) [] =
      frames.map (fun f => (f, errNow)) ++ (if last = [] then [] else [(last, endErr)]) := by
  induction frames with
  | nil => simp [frameStream, tokens_of_not_mem _ _ _ _ hl]
  | cons f fs ih =>
    have hf : (0 : UInt8) ∉ f := h f (by simp)
    have hfs : ∀ g ∈ fs, (0 : UInt8) ∉ g := fun g hg => h g (by simp [hg])
    have hmem : (0 : UInt8) ∈ f ++ 0 :: frameStream fs last := by simp
    have hst : frameStream (f :: fs) last = f ++ 0 :: frameStream fs last := by
      simp [frameStream]
    rw [hst, tokens_of_mem _ _ _ _ hmem, takeWhile_frame _ _ hf, dropWhile_frame _ _ hf, ih hfs]
    simp

theorem tokens_frames_append (endErr errNow : Option Error) (frames : List (List UInt8))
    (rest : List UInt8) (h : ∀ f ∈ frames, (0 : UInt8) ∉ f) :
    tokens endErr errNow (frameStream frames [] ++ rest) [] =
      frames.map (fun f => (f, errNow)) ++ tokens endErr errNow rest [] := by
  induction frames with
  | nil => simp [frameStream]
  | cons f fs ih =>
    have hf : (0 : UInt8) ∉ f := h f (by simp)
    have hfs : ∀ g ∈ fs, (0 : UInt8) ∉ g := fun g hg => h g (by simp [hg])
    have hmem : (0 : UInt8) ∈ f ++ 0 :: (frameStream fs [] ++ rest) := by simp
    have hst : frameStream (f :: fs) [] ++ rest = f ++ 0 :: (frameStream fs [] ++ rest) := by
      simp [frameStream]
    rw [hst, tokens_of_mem _ _ _ _ hmem, takeWhile_frame _ _ hf, dropWhile_frame _ _ hf, ih hfs]
    simp

theorem intercalate_concat (frames : List (List UInt8)) (last : List UInt8) :
    List.intercalate [0] (frames ++ [last]) = frameStream frames last := by
  induction frames with
  | nil => simp [frameStream, List.intercalate]
  | cons f fs ih =>
    cases fs with
    | nil => simp [frameStream, List.intercalate]
    | cons g gs =>
      simp [frameStream, List.intercalate] at ih ⊢
      exact ih

/-! ## The token-level loop under a callback that continues -/

theorem consume_continuing {σ : Type} (cb : List UInt8 → σ → (Bool × Option Error) × σ)
    (endErr flag : Option Error) (pre : List (List UInt8))
    (post : List (List UInt8 × Option Error)) (st : σ) (seen : List (List UInt8))
    (hpre : ∀ f ∈ pre, ∀ s, (cb f s).1 = (true, none)) :
    consume cb endErr (pre.map (fun f => (f, flag)) ++ post) st seen =
      consume cb endErr post (pre.foldl (fun s f => (cb f s).2) st) (seen ++ pre) := by
  induction pre generalizing st seen with
  | nil => simp
  | cons f fs ih =>
    have hf := hpre f (by simp) st
    have hfs : ∀ g ∈ fs, ∀ s, (cb g s).1 = (true, none) := fun g hg => hpre g (by simp [hg])
    rcases hu : cb f st with ⟨⟨c, e⟩, st1⟩
    rw [hu] at hf
    simp only [Prod.mk.injEq] at hf
    obtain ⟨hc, he⟩ := hf
    subst hc he
    simp only [List.map_cons, List.cons_append, consume, hu, List.foldl_cons]
    simp [ih st1 (seen ++ [f]) hfs]

theorem consume_all_frames {σ : Type} (cb : List UInt8 → σ → (Bool × Option Error) × σ)
    (endErr : Option Error) (toks : List (List UInt8 × Option Error)) (st : σ)
    (seen : List (List UInt8)) (hcb : ∀ f s, (cb f s).1 = (true, none)) :
    (consume cb endErr toks st seen).2.2 = seen ++ toks.map Prod.fst := by
  induction toks generalizing st seen with
  | nil => simp [consume]
  | cons t ts ih =>
    obtain ⟨f, e⟩ := t
    have hf := hcb f st
    rcases hu : cb f st with ⟨⟨c, e1⟩, st1⟩
    rw [hu] at hf
    simp only [Prod.mk.injEq] at hf
    obtain ⟨hc, he⟩ := hf
    subst hc he
    simp [consume, hu, ih]

/-! ## C1: framing round trip -/

/-- C1 (as amended): for every finite list of byte strings none of which
contains the byte 0x00 and whose last string is not empty, the strings joined
with a single 0x00 between consecutive strings (no trailing 0x00), delivered in
any sequence of reads, are split by the frame scanner of `queryUserdbd` into
exactly the original list, in order, the final frame without delimiter
included. -/
theorem framing_round_trip (frames : List (List UInt8)) (chunks : List (List UInt8))
    (final : Error) (h0 : ∀ f ∈ frames, (0 : UInt8) ∉ f)
    (hlast : frames.getLast? ≠ some [])
    (hchunks : chunks.flatten = List.intercalate [0] frames) :
    scanFrames chunks final = some frames := by
  have hcb : ∀ (f : List UInt8) (s : Unit),
      ((fun (_ : List UInt8) (st : Unit) => (((true, none) : Bool × Option Error), st)) f s).1
        = (true, none) := fun _ _ => rfl
  rcases List.eq_nil_or_concat frames with rfl | ⟨init, last, rfl⟩
  · have hc : chunks.flatten = [] := by simpa [List.intercalate] using hchunks
    simp [scanFrames, queryUserdbd_ok, hc, tokens, consume]
  · have hl : last ≠ [] := by simpa using hlast
    have h0i : ∀ f ∈ init, (0 : UInt8) ∉ f := fun f hf => h0 f (by simp [hf])
    have h0l : (0 : UInt8) ∉ last := h0 last (by simp)
    rw [List.concat_eq_append] at hchunks ⊢
    rw [intercalate_concat] at hchunks
    simp only [scanFrames, queryUserdbd_ok, hchunks, Option.map_some',
      tokens_frameStream _ _ _ _ h0i h0l, hl, if_false]
    rw [consume_all_frames _ _ _ _ _ hcb]
    simp [Function.comp_def]

/-- C1, instance of the round trip: three frames, the last one unterminated,
delivered in two reads. -/
theorem framing_round_trip_witness :
    scanFrames [[1, 2, 0, 0], [3]] Error.EOF = some [[1, 2], [], [3]] :=
  framing_round_trip [[1, 2], [], [3]] [[1, 2, 0, 0], [3]] Error.EOF (by decide) (by decide)
    (by decide)

/-- C1 as stated fails when the last string is empty: the strings `hi` and the
empty string contain no 0x00, their join is `hi` followed by one 0x00, and the
scanner yields the single frame `hi`. -/
theorem framing_round_trip_empty_last :
    (∀ f ∈ ([[104, 105], []] : List (List UInt8)), (0 : UInt8) ∉ f) ∧
    scanFrames [List.intercalate [0] [[104, 105], []]] Error.EOF = some [[104, 105]] ∧
    scanFrames [List.intercalate [0] [[104, 105], []]] Error.EOF ≠ some [[104, 105], []] := by
  decide

/-! ## C2: early stop on `continues=false` -/

theorem consume_stop {σ : Type} (cb : List UInt8 → σ → (Bool × Option Error) × σ)
    (endErr flag flagk : Option Error) (pre : List (List UInt8)) (fk : List UInt8)
    (post : List (List UInt8 × Option Error)) (st : σ) (seen : List (List UInt8))
    (hpre : ∀ f ∈ pre, ∀ s, (cb f s).1 = (true, none))
    (hk : ∀ s, (cb fk s).1 = (false, none)) :
    consume cb endErr (pre.map (fun f => (f, flag)) ++ (fk, flagk) :: post) st seen =
      (flagk, (cb fk (pre.foldl (fun s f => (cb f s).2) st)).2, seen ++ pre ++ [fk]) := by
  rw [consume_continuing cb endErr flag pre _ st seen hpre]
  have h := hk (pre.foldl (fun s f => (cb f s).2) st)
  rcases hu : cb fk (pre.foldl (fun s f => (cb f s).2) st) with ⟨⟨c, e⟩, st1⟩
  rw [hu] at h
  simp only [Prod.mk.injEq] at h
  obtain ⟨hc, he⟩ := h
  subst hc he
  simp [consume, hu]

theorem queryUserdbd_stop {σ : Type} (unmarshal : List UInt8 → σ → (Bool × Option Error) × σ)
    (pre : List (List UInt8)) (fk : List UInt8) (chunks : List (List UInt8)) (final : Error)
    (method : String) (st : σ)
    (h0 : ∀ f ∈ pre ++ [fk], (0 : UInt8) ∉ f)
    (hs : (∃ rest, chunks.flatten = frameStream (pre ++ [fk]) [] ++ rest) ∨
      (chunks.flatten = frameStream pre fk ∧ fk ≠ [] ∧ final = Error.EOF))
    (hpre : ∀ f ∈ pre, ∀ s, (unmarshal f s).1 = (true, none))
    (hk : ∀ s, (unmarshal fk s).1 = (false, none)) :
    queryUserdbd (Except.ok { writeErr := none, chunks := chunks, final := final }) method
        unmarshal st =
      some { err := none,
             st := (unmarshal fk (pre.foldl (fun s f => (unmarshal f s).2) st)).2,
             written := marshalRequest method ++ [0],
             frames := pre ++ [fk] } := by
  have h0p : ∀ f ∈ pre, (0 : UInt8) ∉ f := fun f hf => h0 f (by simp [hf])
  have h0k : (0 : UInt8) ∉ fk := h0 fk (by simp)
  rw [queryUserdbd_ok]
  rcases hs with ⟨rest, hr⟩ | ⟨hr, hne, hfin⟩
  · rw [hr, tokens_frames_append _ _ _ _ h0, List.map_append, List.append_assoc]
    simp only [List.map_cons, List.map_nil, List.cons_append, List.nil_append]
    rw [consume_stop unmarshal _ none none pre fk _ st [] hpre hk]
    simp
  · rw [hr, tokens_frameStream _ _ _ _ h0p h0k, if_neg hne, hfin]
    rw [consume_stop unmarshal _ none (errView Error.EOF) pre fk [] st [] hpre hk]
    simp [errView]

theorem queryGroupDb_unmarshal_eq (j : List UInt8 → Except Error (Reply groupRecord))
    (p : groupRecord → Bool) :
    queryGroupDb.unmarshal j p = recordCallback j p groupOf := by
  funext b st
  unfold queryGroupDb.unmarshal recordCallback groupOf
  cases j b <;> rfl

theorem queryUserDb_unmarshal_eq (j : List UInt8 → Except Error (Reply userRecord))
    (p : userRecord → Bool) :
    queryUserDb.unmarshal j p = recordCallback j p userOf := by
  funext b st
  unfold queryUserDb.unmarshal recordCallback userOf
  cases j b <;> rfl

theorem recordCallback_fst {ρ ι : Type} (j : List UInt8 → Except Error (Reply ρ))
    (p : ρ → Bool) (build : ρ → ι) (f : List UInt8) (st : Option ι) (reply : Reply ρ)
    (h : j f = Except.ok reply) :
    (recordCallback j p build f st).1 = (reply.Continues, none) := by
  unfold recordCallback
  rw [h]
  by_cases hp : p reply.Record <;> simp [hp]

theorem recordCallback_snd {ρ ι : Type} (j : List UInt8 → Except Error (Reply ρ))
    (p : ρ → Bool) (build : ρ → ι) (f : List UInt8) (st : Option ι) (reply : Reply ρ)
    (h : j f = Except.ok reply) :
    (recordCallback j p build f st).2 =
      if p reply.Record then some (build reply.Record) else st := by
  unfold recordCallback
  rw [h]
  by_cases hp : p reply.Record <;> simp [hp]

theorem continuesOf_eq {ρ : Type} (j : List UInt8 → Except Error (Reply ρ)) (f : List UInt8)
    (c : Bool) (h : continuesOf j f = some c) :
    ∃ reply, j f = Except.ok reply ∧ reply.Continues = c := by
  unfold continuesOf at h
  cases hj : j f with
  | error e => rw [hj] at h; simp at h
  | ok reply => rw [hj] at h; exact ⟨reply, rfl, by simpa using h⟩

theorem recordOf_eq {ρ : Type} (j : List UInt8 → Except Error (Reply ρ)) (f : List UInt8)
    (r : ρ) (h : recordOf j f = some r) :
    ∃ reply, j f = Except.ok reply ∧ reply.Record = r := by
  unfold recordOf at h
  cases hj : j f with
  | error e => rw [hj] at h; simp at h
  | ok reply => rw [hj] at h; exact ⟨reply, rfl, by simpa using h⟩

theorem recordCallback_continues {ρ ι : Type} (j : List UInt8 → Except Error (Reply ρ))
    (p : ρ → Bool) (build : ρ → ι) (f : List UInt8) (c : Bool)
    (h : continuesOf j f = some c) (st : Option ι) :
    (recordCallback j p build f st).1 = (c, none) := by
  obtain ⟨reply, hj, hc⟩ := continuesOf_eq j f c h
  rw [recordCallback_fst j p build f st reply hj, hc]

theorem record_query_stop {ρ ι : Type} (j : List UInt8 → Except Error (Reply ρ))
    (p : ρ → Bool) (build : ρ → ι) (pre : List (List UInt8)) (fk : List UInt8)
    (chunks : List (List UInt8)) (final : Error) (method : String)
    (h0 : ∀ f ∈ pre ++ [fk], (0 : UInt8) ∉ f)
    (hs : (∃ rest, chunks.flatten = frameStream (pre ++ [fk]) [] ++ rest) ∨
      (chunks.flatten = frameStream pre fk ∧ fk ≠ [] ∧ final = Error.EOF))
    (hpre : ∀ f ∈ pre, continuesOf j f = some true)
    (hk : continuesOf j fk = some false) :
    queryUserdbd (Except.ok { writeErr := none, chunks := chunks, final := final }) method
        (recordCallback j p build) none =
      some { err := none,
             st := captured j p build (pre ++ [fk]) none,
             written := marshalRequest method ++ [0],
             frames := pre ++ [fk] } := by
  rw [queryUserdbd_stop (recordCallback j p build) pre fk chunks final method none h0 hs
    (fun f hf s => recordCallback_continues j p build f true (hpre f hf) s)
    (fun s => recordCallback_continues j p build fk false hk s)]
  simp [captured, List.foldl_append]

/-- C2: when the first k frames of the response decode, with continues=true on
frames 1..k-1 (`pre`) and continues=false on frame k (`fk`), and more bytes
(`rest`, the frames k+1..N) follow the delimiter of frame k, then `queryUserdbd`
hands exactly the frames 1..k to the callback, in order, and returns what it
returns on the stream truncated after frame k (with or without the delimiter of
frame k); so do `queryGroupDb` and `queryUserDb`, whose result is the record
captured from the frames 1..k and a nil error. -/
theorem early_stop_on_continues_false (pre : List (List UInt8)) (fk rest : List UInt8)
    (chunks chunks' : List (List UInt8)) (final final' : Error)
    (h0 : ∀ f ∈ pre ++ [fk], (0 : UInt8) ∉ f)
    (hchunks : chunks.flatten = frameStream (pre ++ [fk]) [] ++ rest)
    (htrunc : chunks'.flatten = frameStream (pre ++ [fk]) [] ∨
      (chunks'.flatten = frameStream pre fk ∧ fk ≠ [] ∧ final' = Error.EOF)) :
    (∀ (σ : Type) (unmarshal : List UInt8 → σ → (Bool × Option Error) × σ) (method : String)
        (st : σ),
      (∀ f ∈ pre, ∀ s, (unmarshal f s).1 = (true, none)) →
      (∀ s, (unmarshal fk s).1 = (false, none)) →
      ∃ out,
        queryUserdbd (Except.ok { writeErr := none, chunks := chunks, final := final }) method
          unmarshal st = some out ∧
        out.frames = pre ++ [fk] ∧
        queryUserdbd (Except.ok { writeErr := none, chunks := chunks', final := final' }) method
          unmarshal st = some out) ∧
    (∀ (j : List UInt8 → Except Error (Reply groupRecord)) (p : groupRecord → Bool),
      (∀ f ∈ pre, continuesOf j f = some true) → continuesOf j fk = some false →
      queryGroupDb j (Except.ok { writeErr := none, chunks := chunks, final := final }) p
        = some (captured j p groupOf (pre ++ [fk]) none, none) ∧
      queryGroupDb j (Except.ok { writeErr := none, chunks := chunks', final := final' }) p
        = some (captured j p groupOf (pre ++ [fk]) none, none)) ∧
    (∀ (j : List UInt8 → Except Error (Reply userRecord)) (p : userRecord → Bool),
      (∀ f ∈ pre, continuesOf j f = some true) → continuesOf j fk = some false →
      queryUserDb j (Except.ok { writeErr := none, chunks := chunks, final := final }) p
        = some (captured j p userOf (pre ++ [fk]) none, none) ∧
      queryUserDb j (Except.ok { writeErr := none, chunks := chunks', final := final' }) p
        = some (captured j p userOf (pre ++ [fk]) none, none)) := by
  have hs : (∃ rest, chunks.flatten = frameStream (pre ++ [fk]) [] ++ rest) ∨
      (chunks.flatten = frameStream pre fk ∧ fk ≠ [] ∧ final = Error.EOF) :=
    Or.inl ⟨rest, hchunks⟩
  have hs' : (∃ rest, chunks'.flatten = frameStream (pre ++ [fk]) [] ++ rest) ∨
      (chunks'.flatten = frameStream pre fk ∧ fk ≠ [] ∧ final' = Error.EOF) := by
    rcases htrunc with h | h
    · exact Or.inl ⟨[], by simpa using h⟩
    · exact Or.inr h
  refine ⟨?_, ?_, ?_⟩
  · intro σ unmarshal method st hpre hk
    exact ⟨_, queryUserdbd_stop unmarshal pre fk chunks final method st h0 hs hpre hk, rfl,
      queryUserdbd_stop unmarshal pre fk chunks' final' method st h0 hs' hpre hk⟩
  · intro j p hpre hk
    simp only [queryGroupDb_eq, queryGroupDb_unmarshal_eq,
      record_query_stop j p groupOf pre fk chunks final _ h0 hs hpre hk,
      record_query_stop j p groupOf pre fk chunks' final' _ h0 hs' hpre hk, and_self]
  · intro j p hpre hk
    simp only [queryUserDb_eq, queryUserDb_unmarshal_eq,
      record_query_stop j p userOf pre fk chunks final _ h0 hs hpre hk,
      record_query_stop j p userOf pre fk chunks' final' _ h0 hs' hpre hk, and_self]

set_option maxRecDepth 100000 in
/-- C2, instance: the reply `wheel` (continues), `audio` (last), then a third
frame `users`; the lookup of `users` stops after the second frame, never sees
the third, and reports absence, as on the reply cut after the second frame. -/
theorem early_stop_on_continues_false_witness :
    lookupGroup jsonUnmarshalGroup
        (Except.ok { writeErr := none,
                     chunks := [wheelFrame ++ [0], audioLastFrame ++ [0] ++ usersFrame ++ [0]],
                     final := Error.EOF }) "users" = some (none, none) ∧
    lookupGroup jsonUnmarshalGroup
        (Except.ok { writeErr := none, chunks := [wheelFrame ++ [0] ++ audioLastFrame],
                     final := Error.EOF }) "users" = some (none, none) :=
  ((early_stop_on_continues_false [wheelFrame] audioLastFrame (usersFrame ++ [0])
      [wheelFrame ++ [0], audioLastFrame ++ [0] ++ usersFrame ++ [0]]
      [wheelFrame ++ [0] ++ audioLastFrame] Error.EOF Error.EOF
      (by decide) (by decide) (Or.inr (by decide))).2.1 jsonUnmarshalGroup
      (lookupGroup.predicate "users") (by decide) (by decide))

/-! ## The record queries on a stream that ends cleanly -/

theorem tokens_of_carries (s : List UInt8) (fs : List (List UInt8)) (h : carries s fs) :
    tokens (errView Error.EOF) none s [] = fs.map (fun f => (f, none)) := by
  obtain ⟨h0, hs | ⟨hs, hlast⟩⟩ := h
  · rw [hs, tokens_frameStream _ _ _ _ h0 (by simp)]
    simp
  · rcases List.eq_nil_or_concat fs with rfl | ⟨init, last, rfl⟩
    · rw [hs]
      simp [List.intercalate, tokens]
    · rw [List.concat_eq_append] at hs hlast h0
      have hl : last ≠ [] := by simpa using hlast
      have h0i : ∀ f ∈ init, (0 : UInt8) ∉ f := fun f hf => h0 f (by simp [hf])
      have h0l : (0 : UInt8) ∉ last := h0 last (by simp)
      rw [hs, intercalate_concat, tokens_frameStream _ _ _ _ h0i h0l, if_neg hl,
        List.concat_eq_append]
      simp [errView]

theorem map_flag_none (fs : List (List UInt8)) :
    ∀ t ∈ fs.map (fun f => (f, (none : Option Error))), t.2 = none := by
  intro t ht
  obtain ⟨f, _, rfl⟩ := List.mem_map.1 ht
  rfl

theorem consume_err_none {σ : Type} (cb : List UInt8 → σ → (Bool × Option Error) × σ)
    (toks : List (List UInt8 × Option Error)) (st : σ) (seen : List (List UInt8))
    (h : ∀ t ∈ toks, t.2 = none) :
    (consume cb none toks st seen).1 = none := by
  induction toks generalizing st seen with
  | nil => simp [consume]
  | cons t ts ih =>
    obtain ⟨f, e⟩ := t
    have he : e = none := h (f, e) (by simp)
    have hts : ∀ t ∈ ts, t.2 = none := fun t ht => h t (by simp [ht])
    subst he
    rcases hu : cb f st with ⟨⟨c, e1⟩, st1⟩
    cases e1 with
    | some e1 => simp [consume, hu]
    | none =>
      cases c with
      | false => simp [consume, hu]
      | true => simp [consume, hu, ih st1 _ hts]

theorem consume_no_match {ρ ι : Type} (j : List UInt8 → Except Error (Reply ρ))
    (p : ρ → Bool) (build : ρ → ι) (endErr : Option Error)
    (toks : List (List UInt8 × Option Error)) (st : Option ι) (seen : List (List UInt8))
    (h : ∀ t ∈ toks, (recordOf j t.1).map p = some false) :
    (consume (recordCallback j p build) endErr toks st seen).2.1 = st := by
  induction toks generalizing seen with
  | nil => simp [consume]
  | cons t ts ih =>
    obtain ⟨f, e⟩ := t
    have hf : (recordOf j f).map p = some false := h (f, e) (by simp)
    have hts : ∀ t ∈ ts, (recordOf j t.1).map p = some false := fun t ht => h t (by simp [ht])
    obtain ⟨r, hr, hpr⟩ := Option.map_eq_some'.1 hf
    obtain ⟨reply, hj, hrec⟩ := recordOf_eq j f r hr
    have h1 := recordCallback_fst j p build f st reply hj
    have h2 := recordCallback_snd j p build f st reply hj
    rw [hrec, hpr] at h2
    simp only [Bool.false_eq_true, if_false] at h2
    rcases hu : recordCallback j p build f st with ⟨⟨c, e1⟩, st1⟩
    rw [hu] at h1 h2
    simp only [Prod.mk.injEq] at h1
    obtain ⟨hc, he1⟩ := h1
    simp only at h2
    subst he1 h2
    cases c with
    | false => simp [consume, hu]
    | true => simp [consume, hu, ih _ hts]

theorem record_query_last_match {ρ ι : Type} (j : List UInt8 → Except Error (Reply ρ))
    (p : ρ → Bool) (build : ρ → ι) (pre : List (List UInt8)) (fm : List UInt8)
    (post : List (List UInt8)) (chunks : List (List UInt8)) (method : String) (r : ρ)
    (hcar : carries chunks.flatten (pre ++ fm :: post))
    (hpre : ∀ f ∈ pre, continuesOf j f = some true)
    (hm : recordOf j fm = some r) (hp : p r = true)
    (hpost : ∀ f ∈ post, (recordOf j f).map p = some false) :
    ∃ out, queryUserdbd (Except.ok { writeErr := none, chunks := chunks, final := Error.EOF })
        method (recordCallback j p build) none = some out ∧
      out.err = none ∧ out.st = some (build r) := by
  refine ⟨_, queryUserdbd_ok chunks Error.EOF method _ none, ?_, ?_⟩
  · simp only [tokens_of_carries _ _ hcar]
    have : errView Error.EOF = none := by simp [errView]
    rw [this]
    exact consume_err_none _ _ _ _ (map_flag_none _)
  · simp only [tokens_of_carries _ _ hcar, List.map_append, List.map_cons]
    rw [consume_continuing (recordCallback j p build) _ none pre _ none []
      (fun f hf s => recordCallback_continues j p build f true (hpre f hf) s)]
    obtain ⟨reply, hj, hrec⟩ := recordOf_eq j fm r hm
    have h1 := recordCallback_fst j p build fm
      (pre.foldl (fun s f => (recordCallback j p build f s).2) none) reply hj
    have h2 := recordCallback_snd j p build fm
      (pre.foldl (fun s f => (recordCallback j p build f s).2) none) reply hj
    rw [hrec, hp] at h2
    simp only [if_true] at h2
    rcases hu : recordCallback j p build fm
      (pre.foldl (fun s f => (recordCallback j p build f s).2) none) with ⟨⟨c, e1⟩, st1⟩
    rw [hu] at h1 h2
    simp only [Prod.mk.injEq] at h1
    obtain ⟨hc, he1⟩ := h1
    simp only at h2
    subst he1 h2
    cases c with
    | false => simp [consume, hu]
    | true =>
      simp only [consume, hu, Bool.not_true, Bool.false_eq_true, if_false]
      exact consume_no_match j p build _ _ _ _ (by simpa using hpost)

theorem record_query_absent {ρ ι : Type} (j : List UInt8 → Except Error (Reply ρ))
    (p : ρ → Bool) (build : ρ → ι) (fs : List (List UInt8)) (chunks : List (List UInt8))
    (method : String) (hcar : carries chunks.flatten fs)
    (hfs : ∀ f ∈ fs, (recordOf j f).map p = some false) :
    ∃ out, queryUserdbd (Except.ok { writeErr := none, chunks := chunks, final := Error.EOF })
        method (recordCallback j p build) none = some out ∧
      out.err = none ∧ out.st = none := by
  refine ⟨_, queryUserdbd_ok chunks Error.EOF method _ none, ?_, ?_⟩
  · simp only [tokens_of_carries _ _ hcar]
    have : errView Error.EOF = none := by simp [errView]
    rw [this]
    exact consume_err_none _ _ _ _ (map_flag_none _)
  · simp only [tokens_of_carries _ _ hcar]
    exact consume_no_match j p build _ _ _ _ (by simpa using hfs)

theorem queryGroupDb_of_outcome (j : List UInt8 → Except Error (Reply groupRecord))
    (dial : Except Error Conn) (p : groupRecord → Bool) (out : Outcome (Option Group))
    (h : queryUserdbd dial "io.systemd.UserDatabase.GetGroupRecord"
      (recordCallback j p groupOf) none = some out) (herr : out.err = none) :
    queryGroupDb j dial p = some (out.st, none) := by
  simp [queryGroupDb_eq, queryGroupDb_unmarshal_eq, h, herr]

theorem queryUserDb_of_outcome (j : List UInt8 → Except Error (Reply userRecord))
    (dial : Except Error Conn) (p : userRecord → Bool) (out : Outcome (Option User))
    (h : queryUserdbd dial "io.systemd.UserDatabase.GetUserRecord"
      (recordCallback j p userOf) none = some out) (herr : out.err = none) :
    queryUserDb j dial p = some (out.st, none) := by
  simp [queryUserDb_eq, queryUserDb_unmarshal_eq, h, herr]

theorem captured_no_match {ρ ι : Type} (j : List UInt8 → Except Error (Reply ρ))
    (p : ρ → Bool) (build : ρ → ι) (fs : List (List UInt8)) (st : Option ι)
    (h : ∀ f ∈ fs, (recordOf j f).map p = some false) :
    captured j p build fs st = st := by
  induction fs generalizing st with
  | nil => rfl
  | cons f fs ih =>
    have hf : (recordOf j f).map p = some false := h f (by simp)
    have hfs : ∀ g ∈ fs, (recordOf j g).map p = some false := fun g hg => h g (by simp [hg])
    obtain ⟨r, hr, hpr⟩ := Option.map_eq_some'.1 hf
    obtain ⟨reply, hj, hrec⟩ := recordOf_eq j f r hr
    have h2 := recordCallback_snd j p build f st reply hj
    rw [hrec, hpr] at h2
    simp only [Bool.false_eq_true, if_false] at h2
    have := ih st hfs
    simp only [captured, List.foldl_cons] at this ⊢
    rw [h2, this]

theorem captured_last_match {ρ ι : Type} (j : List UInt8 → Except Error (Reply ρ))
    (p : ρ → Bool) (build : ρ → ι) (pre : List (List UInt8)) (fm : List UInt8)
    (post : List (List UInt8)) (st : Option ι) (r : ρ)
    (hm : recordOf j fm = some r) (hp : p r = true)
    (hpost : ∀ f ∈ post, (recordOf j f).map p = some false) :
    captured j p build (pre ++ fm :: post) st = some (build r) := by
  obtain ⟨reply, hj, hrec⟩ := recordOf_eq j fm r hm
  have h2 := recordCallback_snd j p build fm
    (pre.foldl (fun acc f => (recordCallback j p build f acc).2) st) reply hj
  rw [hrec, hp] at h2
  simp only [if_true] at h2
  have h3 := captured_no_match j p build post (some (build r)) hpost
  simp only [captured] at h3 ⊢
  rw [List.foldl_append, List.foldl_cons, h2, h3]

theorem record_query_match {ρ ι : Type} (j : List UInt8 → Except Error (Reply ρ))
    (p : ρ → Bool) (build : ρ → ι) (pre : List (List UInt8)) (fm : List UInt8)
    (post : List (List UInt8)) (chunks : List (List UInt8)) (final : Error)
    (method : String) (r : ρ)
    (hpre : ∀ f ∈ pre, continuesOf j f = some true)
    (hm : recordOf j fm = some r) (hp : p r = true)
    (hpost : ∀ f ∈ post, (recordOf j f).map p = some false)
    (hs : (carries chunks.flatten (pre ++ fm :: post) ∧ final = Error.EOF) ∨
      (∃ mid fk rest, fm :: post = mid ++ [fk] ∧
        (∀ f ∈ pre ++ fm :: post, (0 : UInt8) ∉ f) ∧
        chunks.flatten = frameStream (pre ++ fm :: post) [] ++ rest ∧
        (∀ f ∈ mid, continuesOf j f = some true) ∧ continuesOf j fk = some false)) :
    ∃ out, queryUserdbd (Except.ok { writeErr := none, chunks := chunks, final := final })
        method (recordCallback j p build) none = some out ∧
      out.err = none ∧ out.st = some (build r) := by
  rcases hs with ⟨hcar, rfl⟩ | ⟨mid, fk, rest, hsplit, h0, hch, hmid, hk⟩
  · exact record_query_last_match j p build pre fm post chunks method r hcar hpre hm hp hpost
  · have hpm : pre ++ fm :: post = (pre ++ mid) ++ [fk] := by
      rw [hsplit, List.append_assoc]
    have hcap := captured_last_match j p build pre fm post none r hm hp hpost
    rw [hpm] at h0 hch hcap
    have hq := record_query_stop j p build (pre ++ mid) fk chunks final method h0
      (Or.inl ⟨rest, hch⟩)
      (fun f hf => (List.mem_append.1 hf).elim (hpre f) (hmid f)) hk
    exact ⟨_, hq, rfl, hcap⟩

/-! ## C3: predicate selectivity -/

/-- C3: for every stream of decodable frames in which exactly one record
satisfies the predicate (frame `fm`; the frames `pre` before it and `post`
after it do not) and every frame before it has continues=true, consumed to its
clean end or to a 0-terminated frame with continues=false (whatever bytes
`rest` follow that frame and however the connection ends after it),
`queryGroupDb` and `queryUserDb` return the identity built from that record
with a nil error, whatever its position; the non-matching records that come
first do not stop the query. -/
theorem predicate_selectivity (pre : List (List UInt8)) (fm : List UInt8)
    (post : List (List UInt8)) (chunks : List (List UInt8)) (final : Error) :
    (∀ (j : List UInt8 → Except Error (Reply groupRecord)) (p : groupRecord → Bool)
        (r : groupRecord),
      (∀ f ∈ pre, continuesOf j f = some true ∧ (recordOf j f).map p = some false) →
      recordOf j fm = some r → p r = true →
      (∀ f ∈ post, (recordOf j f).map p = some false) →
      ((carries chunks.flatten (pre ++ fm :: post) ∧ final = Error.EOF) ∨
        (∃ mid fk rest, fm :: post = mid ++ [fk] ∧
          (∀ f ∈ pre ++ fm :: post, (0 : UInt8) ∉ f) ∧
          chunks.flatten = frameStream (pre ++ fm :: post) [] ++ rest ∧
          (∀ f ∈ mid, continuesOf j f = some true) ∧ continuesOf j fk = some false)) →
      queryGroupDb j (Except.ok { writeErr := none, chunks := chunks, final := final }) p
        = some (some (groupOf r), none)) ∧
    (∀ (j : List UInt8 → Except Error (Reply userRecord)) (p : userRecord → Bool)
        (r : userRecord),
      (∀ f ∈ pre, continuesOf j f = some true ∧ (recordOf j f).map p = some false) →
      recordOf j fm = some r → p r = true →
      (∀ f ∈ post, (recordOf j f).map p = some false) →
      ((carries chunks.flatten (pre ++ fm :: post) ∧ final = Error.EOF) ∨
        (∃ mid fk rest, fm :: post = mid ++ [fk] ∧
          (∀ f ∈ pre ++ fm :: post, (0 : UInt8) ∉ f) ∧
          chunks.flatten = frameStream (pre ++ fm :: post) [] ++ rest ∧
          (∀ f ∈ mid, continuesOf j f = some true) ∧ continuesOf j fk = some false)) →
      queryUserDb j (Except.ok { writeErr := none, chunks := chunks, final := final }) p
        = some (some (userOf r), none)) := by
  constructor
  · intro j p r hpre hm hp hpost hs
    obtain ⟨out, hq, herr, hst⟩ := record_query_match j p groupOf pre fm post chunks final
      "io.systemd.UserDatabase.GetGroupRecord" r (fun f hf => (hpre f hf).1) hm hp hpost hs
    rw [queryGroupDb_of_outcome j _ p out hq herr, hst]
  · intro j p r hpre hm hp hpost hs
    obtain ⟨out, hq, herr, hst⟩ := record_query_match j p userOf pre fm post chunks final
      "io.systemd.UserDatabase.GetUserRecord" r (fun f hf => (hpre f hf).1) hm hp hpost hs
    rw [queryUserDb_of_outcome j _ p out hq herr, hst]

set_option maxRecDepth 100000 in
/-- C3, instance: in the reply `wheel`, `users`, `audio` the group `users` is
found in the middle, after a non-matching frame; the reply ends with the frame
`audio`, which has continues=false, and the connection is reset afterwards,
while a partial frame is buffered. -/
theorem predicate_selectivity_witness :
    lookupGroup jsonUnmarshalGroup
        (Except.ok { writeErr := none,
                     chunks := [wheelFrame ++ [0] ++ usersFrame,
                                [0] ++ audioLastFrame ++ [0] ++ brokenFrame],
                     final := Error.other "read: connection reset by peer" }) "users"
      = some (some { Name := "users", Gid := "100" }, none) :=
  (predicate_selectivity [wheelFrame] usersFrame [audioLastFrame]
      [wheelFrame ++ [0] ++ usersFrame, [0] ++ audioLastFrame ++ [0] ++ brokenFrame]
      (Error.other "read: connection reset by peer")).1 jsonUnmarshalGroup
      (lookupGroup.predicate "users") { GroupName := "users", Gid := 100 }
      (by decide) (by decide) (by decide) (by decide)
      (Or.inr ⟨[usersFrame], audioLastFrame, brokenFrame, by decide, by decide, by decide,
        by decide, by decide⟩)

/-! ## C4: a decode failure -/

set_option maxRecDepth 100000 in
/-- C4 fails on the code: when the first frame does not decode, `lookupGroup`
returns a nil error (and no record); when a matching record came first, it
returns that record with a nil error. The decode error is dropped at line 77. -/
theorem decode_failure_is_swallowed :
    continuesOf jsonUnmarshalGroup brokenFrame = none ∧
    lookupGroup jsonUnmarshalGroup
        (Except.ok { writeErr := none, chunks := [brokenFrame ++ [0] ++ wheelLastFrame ++ [0]],
                     final := Error.EOF }) "wheel" = some (none, none) ∧
    lookupGroup jsonUnmarshalGroup
        (Except.ok { writeErr := none, chunks := [wheelFrame ++ [0] ++ brokenFrame ++ [0]],
                     final := Error.EOF }) "wheel"
      = some (some { Name := "wheel", Gid := "10" }, none) := by
  decide

/-! ## C5: several matching records -/

/-- C5 (as amended): for every stream of decodable frames in which two or more
consumed frames carry records satisfying the predicate, every frame before the
last of them (`fm`) having continues=true, consumed to its clean end or to a
0-terminated frame with continues=false (whatever bytes `rest` follow that
frame, matching frames included, and however the connection ends after it),
the identity returned by `queryGroupDb` / `queryUserDb` is the one built from
the last matching frame that is consumed: every match overwrites the one
before, and the consumed frames `post` after it, which do not match, leave it
as it is. -/
theorem last_match_wins (pre : List (List UInt8)) (fm : List UInt8)
    (post : List (List UInt8)) (chunks : List (List UInt8)) (final : Error) :
    (∀ (j : List UInt8 → Except Error (Reply groupRecord)) (p : groupRecord → Bool)
        (r : groupRecord),
      (∀ f ∈ pre, continuesOf j f = some true) →
      (∃ f ∈ pre, (recordOf j f).map p = some true) →
      recordOf j fm = some r → p r = true →
      (∀ f ∈ post, (recordOf j f).map p = some false) →
      ((carries chunks.flatten (pre ++ fm :: post) ∧ final = Error.EOF) ∨
        (∃ mid fk rest, fm :: post = mid ++ [fk] ∧
          (∀ f ∈ pre ++ fm :: post, (0 : UInt8) ∉ f) ∧
          chunks.flatten = frameStream (pre ++ fm :: post) [] ++ rest ∧
          (∀ f ∈ mid, continuesOf j f = some true) ∧ continuesOf j fk = some false)) →
      queryGroupDb j (Except.ok { writeErr := none, chunks := chunks, final := final }) p
        = some (some (groupOf r), none)) ∧
    (∀ (j : List UInt8 → Except Error (Reply userRecord)) (p : userRecord → Bool)
        (r : userRecord),
      (∀ f ∈ pre, continuesOf j f = some true) →
      (∃ f ∈ pre, (recordOf j f).map p = some true) →
      recordOf j fm = some r → p r = true →
      (∀ f ∈ post, (recordOf j f).map p = some false) →
      ((carries chunks.flatten (pre ++ fm :: post) ∧ final = Error.EOF) ∨
        (∃ mid fk rest, fm :: post = mid ++ [fk] ∧
          (∀ f ∈ pre ++ fm :: post, (0 : UInt8) ∉ f) ∧
          chunks.flatten = frameStream (pre ++ fm :: post) [] ++ rest ∧
          (∀ f ∈ mid, continuesOf j f = some true) ∧ continuesOf j fk = some false)) →
      queryUserDb j (Except.ok { writeErr := none, chunks := chunks, final := final }) p
        = some (some (userOf r), none)) := by
  constructor
  · intro j p r hpre _ hm hp hpost hs
    obtain ⟨out, hq, herr, hst⟩ := record_query_match j p groupOf pre fm post chunks final
      "io.systemd.UserDatabase.GetGroupRecord" r hpre hm hp hpost hs
    rw [queryGroupDb_of_outcome j _ p out hq herr, hst]
  · intro j p r hpre _ hm hp hpost hs
    obtain ⟨out, hq, herr, hst⟩ := record_query_match j p userOf pre fm post chunks final
      "io.systemd.UserDatabase.GetUserRecord" r hpre hm hp hpost hs
    rw [queryUserDb_of_outcome j _ p out hq herr, hst]

set_option maxRecDepth 100000 in
/-- C5, instances: the group `wheel` is sent with gid 10, then with gid 998 and
continues=false, then once more with gid 10 in a frame that is never consumed;
the lookup by name returns the gid 998, while the connection is still open.
The user `alice` is sent twice, with uid 2000 and then with uid 1000, in a
reply that ends cleanly; the lookup by name returns the second record. -/
theorem last_match_wins_witness :
    lookupGroup jsonUnmarshalGroup
        (Except.ok { writeErr := none,
                     chunks := [wheelFrame ++ [0] ++ wheelLastFrame, [0] ++ wheelFrame ++ [0]],
                     final := Error.other "read: connection still open" }) "wheel"
      = some (some { Name := "wheel", Gid := "998" }, none) ∧
    lookupUser jsonUnmarshalUser
        (Except.ok { writeErr := none,
                     chunks := [rootFrame ++ [0] ++ aliceFrame ++ [0], aliceLastFrame ++ [0]],
                     final := Error.EOF }) "alice"
      = some (some { Uid := "1000", Gid := "100", Username := "alice", Name := "Alice",
                     HomeDir := "/home/alice" }, none) :=
  ⟨(last_match_wins [wheelFrame] wheelLastFrame []
      [wheelFrame ++ [0] ++ wheelLastFrame, [0] ++ wheelFrame ++ [0]]
      (Error.other "read: connection still open")).1 jsonUnmarshalGroup
      (lookupGroup.predicate "wheel") { GroupName := "wheel", Gid := 998 }
      (by decide) ⟨wheelFrame, by decide, by decide⟩ (by decide) (by decide) (by decide)
      (Or.inr ⟨[], wheelLastFrame, wheelFrame ++ [0], by decide, by decide, by decide,
        by decide, by decide⟩),
   (last_match_wins [rootFrame, aliceFrame] aliceLastFrame []
      [rootFrame ++ [0] ++ aliceFrame ++ [0], aliceLastFrame ++ [0]] Error.EOF).2
      jsonUnmarshalUser (lookupUser.predicate "alice")
      { UserName := "alice", RealName := "Alice", Uid := 1000, Gid := 100,
        HomeDirectory := "/home/alice" }
      (by decide) ⟨aliceFrame, by decide, by decide⟩ (by decide) (by decide) (by decide)
      (Or.inl ⟨⟨by decide, Or.inl (by decide)⟩, rfl⟩)⟩

set_option maxRecDepth 100000 in
/-- C5 as stated fails: both frames of the reply carry the group `wheel`, the
first with gid 10 and continues=true, the second with gid 998; `lookupGroup`
returns the group built from the second frame, not from the first. -/
theorem first_match_is_overwritten :
    recordOf jsonUnmarshalGroup wheelFrame = some { GroupName := "wheel", Gid := 10 } ∧
    continuesOf jsonUnmarshalGroup wheelFrame = some true ∧
    recordOf jsonUnmarshalGroup wheelLastFrame = some { GroupName := "wheel", Gid := 998 } ∧
    lookupGroup jsonUnmarshalGroup
        (Except.ok { writeErr := none, chunks := [wheelFrame ++ [0] ++ wheelLastFrame ++ [0]],
                     final := Error.EOF }) "wheel"
      = some (some { Name := "wheel", Gid := "998" }, none) ∧
    lookupGroup jsonUnmarshalGroup
        (Except.ok { writeErr := none, chunks := [wheelFrame ++ [0] ++ wheelLastFrame ++ [0]],
                     final := Error.EOF }) "wheel"
      ≠ some (some (groupOf { GroupName := "wheel", Gid := 10 }), none) := by
  decide

/-! ## C6: a read error in the middle of the stream -/

theorem record_query_read_error {ρ ι : Type} (j : List UInt8 → Except Error (Reply ρ))
    (p : ρ → Bool) (build : ρ → ι) (fs : List (List UInt8)) (last : List UInt8)
    (chunks : List (List UInt8)) (e : Error) (method : String) (he : e ≠ Error.EOF)
    (h0 : ∀ f ∈ fs, (0 : UInt8) ∉ f) (hl : (0 : UInt8) ∉ last)
    (hchunks : chunks.flatten = frameStream fs last)
    (hfs : ∀ f ∈ fs, continuesOf j f = some true)
    (hlast : last = [] ∨ (continuesOf j last).isSome = true) :
    ∃ out, queryUserdbd (Except.ok { writeErr := none, chunks := chunks, final := e })
        method (recordCallback j p build) none = some out ∧ out.err = some e := by
  refine ⟨_, queryUserdbd_ok chunks e method _ none, ?_⟩
  have hv : errView e = some e := by simp [errView, he]
  simp only [hchunks, tokens_frameStream _ _ _ _ h0 hl, hv]
  rw [consume_continuing (recordCallback j p build) _ none fs _ none []
    (fun f hf s => recordCallback_continues j p build f true (hfs f hf) s)]
  by_cases hnil : last = []
  · simp [hnil, consume]
  · rcases hlast with h | h
    · exact absurd h hnil
    · obtain ⟨c, hc⟩ := Option.isSome_iff_exists.1 h
      have h1 := recordCallback_continues j p build last c hc
        (fs.foldl (fun s f => (recordCallback j p build f s).2) none)
      rcases hu : recordCallback j p build last
        (fs.foldl (fun s f => (recordCallback j p build f s).2) none) with ⟨⟨c1, e1⟩, st1⟩
      rw [hu] at h1
      simp only [Prod.mk.injEq] at h1
      obtain ⟨hc1, he1⟩ := h1
      subst hc1 he1
      cases c1 <;> simp [hnil, consume, hu]

theorem queryGroupDb_of_error (j : List UInt8 → Except Error (Reply groupRecord))
    (dial : Except Error Conn) (p : groupRecord → Bool) (out : Outcome (Option Group))
    (e : Error)
    (h : queryUserdbd dial "io.systemd.UserDatabase.GetGroupRecord"
      (recordCallback j p groupOf) none = some out) (herr : out.err = some e) :
    queryGroupDb j dial p = some (none, some e) := by
  simp [queryGroupDb_eq, queryGroupDb_unmarshal_eq, h, herr]

theorem queryUserDb_of_error (j : List UInt8 → Except Error (Reply userRecord))
    (dial : Except Error Conn) (p : userRecord → Bool) (out : Outcome (Option User))
    (e : Error)
    (h : queryUserdbd dial "io.systemd.UserDatabase.GetUserRecord"
      (recordCallback j p userOf) none = some out) (herr : out.err = some e) :
    queryUserDb j dial p = some (none, some e) := by
  simp [queryUserDb_eq, queryUserDb_unmarshal_eq, h, herr]

/-- Where the read error does come back: when reading the response fails with a
non-EOF error `e` after the 0-terminated frames `fs`, all decoding with
continues=true, and the undelimited remainder `last` buffered at that moment
(which the scanner hands to the callback as a final frame) is empty or decodes,
the lookup returns the error `e` and a nil record. -/
theorem read_error_is_returned (fs : List (List UInt8)) (last : List UInt8)
    (chunks : List (List UInt8)) (e : Error) (he : e ≠ Error.EOF)
    (h0 : ∀ f ∈ fs, (0 : UInt8) ∉ f) (hl : (0 : UInt8) ∉ last)
    (hchunks : chunks.flatten = frameStream fs last) :
    (∀ (j : List UInt8 → Except Error (Reply groupRecord)) (p : groupRecord → Bool),
      (∀ f ∈ fs, continuesOf j f = some true) →
      (last = [] ∨ (continuesOf j last).isSome = true) →
      queryGroupDb j (Except.ok { writeErr := none, chunks := chunks, final := e }) p
        = some (none, some e)) ∧
    (∀ (j : List UInt8 → Except Error (Reply userRecord)) (p : userRecord → Bool),
      (∀ f ∈ fs, continuesOf j f = some true) →
      (last = [] ∨ (continuesOf j last).isSome = true) →
      queryUserDb j (Except.ok { writeErr := none, chunks := chunks, final := e }) p
        = some (none, some e)) := by
  constructor
  · intro j p hfs hlast
    obtain ⟨out, hq, herr⟩ := record_query_read_error j p groupOf fs last chunks e
      "io.systemd.UserDatabase.GetGroupRecord" he h0 hl hchunks hfs hlast
    exact queryGroupDb_of_error j _ p out e hq herr
  · intro j p hfs hlast
    obtain ⟨out, hq, herr⟩ := record_query_read_error j p userOf fs last chunks e
      "io.systemd.UserDatabase.GetUserRecord" he h0 hl hchunks hfs hlast
    exact queryUserDb_of_error j _ p out e hq herr

set_option maxRecDepth 100000 in
/-- An instance of `read_error_is_returned`: the connection is reset after the
frame `wheel` and while the whole frame `users` is buffered without its
delimiter; the lookup of `wheel` returns the read error and no record, although
`wheel` had matched. -/
theorem read_error_is_returned_witness :
    lookupGroup jsonUnmarshalGroup
        (Except.ok { writeErr := none, chunks := [wheelFrame ++ [0], usersFrame],
                     final := Error.other "read: connection reset by peer" }) "wheel"
      = some (none, some (Error.other "read: connection reset by peer")) :=
  (read_error_is_returned [wheelFrame] usersFrame [wheelFrame ++ [0], usersFrame]
      (Error.other "read: connection reset by peer") (by decide) (by decide) (by decide)
      (by decide)).1 jsonUnmarshalGroup (lookupGroup.predicate "wheel") (by decide)
      (Or.inr (by decide))

set_option maxRecDepth 100000 in
/-- C6 fails on the code: the connection is reset (a read error other than EOF)
before any frame with continues=false has been consumed and while a partial,
undelimited frame is buffered. The scanner hands the frame `wheel` and then the
partial frame to the callback; the partial frame does not decode, and
`queryUserdbd` returns nil at line 77 without looking at `sc.Err()`. The lookup
of `audio` returns a nil record with a nil error, and the lookup of `wheel`
returns the record captured before the failure with a nil error; neither
returns the read error. -/
theorem read_error_becomes_absence :
    continuesOf jsonUnmarshalGroup wheelFrame = some true ∧
    continuesOf jsonUnmarshalGroup brokenFrame = none ∧
    scanFrames [wheelFrame ++ [0] ++ brokenFrame]
        (Error.other "read: connection reset by peer") = some [wheelFrame, brokenFrame] ∧
    lookupGroup jsonUnmarshalGroup
        (Except.ok { writeErr := none, chunks := [wheelFrame ++ [0] ++ brokenFrame],
                     final := Error.other "read: connection reset by peer" }) "audio"
      = some (none, none) ∧
    lookupGroup jsonUnmarshalGroup
        (Except.ok { writeErr := none, chunks := [wheelFrame ++ [0] ++ brokenFrame],
                     final := Error.other "read: connection reset by peer" }) "wheel"
      = some (some { Name := "wheel", Gid := "10" }, none) := by
  decide

/-! ## C7: absence -/

/-- C7: for every stream of decodable frames none of whose records satisfies
the predicate, consumed to its clean end or to a 0-terminated frame with
continues=false (all frames before it having continues=true), the lookup
(`queryGroupDb`, `queryUserDb`) returns a nil record with a nil error. -/
theorem absence_is_not_an_error (fs : List (List UInt8)) (chunks : List (List UInt8))
    (final : Error) :
    (∀ (j : List UInt8 → Except Error (Reply groupRecord)) (p : groupRecord → Bool),
      (∀ f ∈ fs, (recordOf j f).map p = some false) →
      ((carries chunks.flatten fs ∧ final = Error.EOF) ∨
        (∃ pre fk rest, fs = pre ++ [fk] ∧ (∀ f ∈ fs, (0 : UInt8) ∉ f) ∧
          chunks.flatten = frameStream fs [] ++ rest ∧
          (∀ f ∈ pre, continuesOf j f = some true) ∧ continuesOf j fk = some false)) →
      queryGroupDb j (Except.ok { writeErr := none, chunks := chunks, final := final }) p
        = some (none, none)) ∧
    (∀ (j : List UInt8 → Except Error (Reply userRecord)) (p : userRecord → Bool),
      (∀ f ∈ fs, (recordOf j f).map p = some false) →
      ((carries chunks.flatten fs ∧ final = Error.EOF) ∨
        (∃ pre fk rest, fs = pre ++ [fk] ∧ (∀ f ∈ fs, (0 : UInt8) ∉ f) ∧
          chunks.flatten = frameStream fs [] ++ rest ∧
          (∀ f ∈ pre, continuesOf j f = some true) ∧ continuesOf j fk = some false)) →
      queryUserDb j (Except.ok { writeErr := none, chunks := chunks, final := final }) p
        = some (none, none)) := by
  constructor
  · intro j p hno hs
    rcases hs with ⟨hcar, rfl⟩ | ⟨pre, fk, rest, rfl, h0, hch, hpre, hk⟩
    · obtain ⟨out, hq, herr, hst⟩ := record_query_absent j p groupOf fs chunks
        "io.systemd.UserDatabase.GetGroupRecord" hcar hno
      rw [queryGroupDb_of_outcome j _ p out hq herr, hst]
    · have hq := record_query_stop j p groupOf pre fk chunks final
        "io.systemd.UserDatabase.GetGroupRecord" h0 (Or.inl ⟨rest, hch⟩) hpre hk
      rw [queryGroupDb_of_outcome j _ p _ hq rfl]
      simp [captured_no_match j p groupOf (pre ++ [fk]) none hno]
  · intro j p hno hs
    rcases hs with ⟨hcar, rfl⟩ | ⟨pre, fk, rest, rfl, h0, hch, hpre, hk⟩
    · obtain ⟨out, hq, herr, hst⟩ := record_query_absent j p userOf fs chunks
        "io.systemd.UserDatabase.GetUserRecord" hcar hno
      rw [queryUserDb_of_outcome j _ p out hq herr, hst]
    · have hq := record_query_stop j p userOf pre fk chunks final
        "io.systemd.UserDatabase.GetUserRecord" h0 (Or.inl ⟨rest, hch⟩) hpre hk
      rw [queryUserDb_of_outcome j _ p _ hq rfl]
      simp [captured_no_match j p userOf (pre ++ [fk]) none hno]

set_option maxRecDepth 100000 in
/-- C7, instance: the frame of the test server, which has no `continues` field,
queried by the name `nonexistent`: the lookup stops after that frame, while the
connection is still open, and returns a nil record with a nil error. -/
theorem absence_is_not_an_error_witness :
    lookupGroup jsonUnmarshalGroup
        (Except.ok { writeErr := none, chunks := [testFrame ++ [0]],
                     final := Error.other "read: connection still open" }) "nonexistent"
      = some (none, none) :=
  (absence_is_not_an_error [testFrame] [testFrame ++ [0]]
      (Error.other "read: connection still open")).1 jsonUnmarshalGroup
      (lookupGroup.predicate "nonexistent") (by decide)
      (Or.inr ⟨[], testFrame, [], by decide, by decide, by decide, by decide, by decide⟩)

/-! ## C8: group lookup by name on a single frame -/

/-- C8: for every group name `n` and every gid, when the service replies with
one frame that decodes into a record with groupName `n` and that gid (the frame
followed by its 0 byte, and then either continues=false or a clean end of
stream; or the frame alone and a clean end of stream), `lookupGroup n` returns a
nil error and the group with Name `n` and Gid the decimal rendering of gid. -/
theorem lookupGroup_single_frame (j : List UInt8 → Except Error (Reply groupRecord))
    (n : String) (gid : Int) (frame : List UInt8) (chunks : List (List UInt8))
    (final : Error) (h0 : (0 : UInt8) ∉ frame)
    (hrec : recordOf j frame = some { GroupName := n, Gid := gid })
    (hs : (chunks.flatten = frame ++ [0] ∧
            (continuesOf j frame = some false ∨ final = Error.EOF)) ∨
          (chunks.flatten = frame ∧ frame ≠ [] ∧ final = Error.EOF)) :
    lookupGroup j (Except.ok { writeErr := none, chunks := chunks, final := final }) n
      = some (some { Name := n, Gid := FormatInt gid }, none) := by
  have hp : lookupGroup.predicate n { GroupName := n, Gid := gid } = true := by
    simp [lookupGroup.predicate]
  have hclean : carries chunks.flatten ([] ++ frame :: []) → final = Error.EOF →
      lookupGroup j (Except.ok { writeErr := none, chunks := chunks, final := final }) n
        = some (some { Name := n, Gid := FormatInt gid }, none) := by
    intro hcar hfin
    subst hfin
    obtain ⟨out, hq, herr, hst⟩ := record_query_last_match j (lookupGroup.predicate n) groupOf
      [] frame [] chunks "io.systemd.UserDatabase.GetGroupRecord" _ hcar (by simp) hrec hp
      (by simp)
    rw [lookupGroup_eq, queryGroupDb_of_outcome j _ _ out hq herr, hst]
    rfl
  rcases hs with ⟨hch, hk | hfin⟩ | ⟨hch, hne, hfin⟩
  · have hq := record_query_stop j (lookupGroup.predicate n) groupOf [] frame chunks final
      "io.systemd.UserDatabase.GetGroupRecord" (by simpa using h0)
      (Or.inl ⟨[], by simpa [frameStream] using hch⟩) (by simp) hk
    obtain ⟨reply, hj, hr⟩ := recordOf_eq j frame _ hrec
    have h2 := recordCallback_snd j (lookupGroup.predicate n) groupOf frame none reply hj
    rw [hr, hp] at h2
    rw [lookupGroup_eq, queryGroupDb_of_outcome j _ _ _ hq rfl]
    simp [captured, h2, groupOf]
  · exact hclean ⟨by simpa using h0, Or.inl (by simpa [frameStream] using hch)⟩ hfin
  · exact hclean ⟨by simpa using h0,
      Or.inr ⟨by simpa [List.intercalate] using hch, by simpa using hne⟩⟩ hfin

set_option maxRecDepth 100000 in
/-- C8, instance: the frame of the test server (groupName `stdlibcontrib`, gid
181, no `continues` field, unknown fields `status` and `incomplete`), followed
by its 0 byte on a connection that stays open, gives the group `stdlibcontrib`
with Gid `181` and a nil error. -/
theorem lookupGroup_single_frame_witness :
    lookupGroup jsonUnmarshalGroup
        (Except.ok { writeErr := none, chunks := [testFrame ++ [0]],
                     final := Error.other "read: connection still open" }) "stdlibcontrib"
      = some (some { Name := "stdlibcontrib", Gid := "181" }, none) :=
  lookupGroup_single_frame jsonUnmarshalGroup "stdlibcontrib" 181 testFrame [testFrame ++ [0]]
    (Error.other "read: connection still open") (by decide) (by decide)
    (Or.inl ⟨by decide, Or.inl (by decide)⟩)

/-! ## C9: the id predicates -/

/-- C9: the predicate of `lookupGroupId s` accepts a record with gid `v`, and
the predicate of `lookupUserId s` a record with uid `v`, exactly when `s` is
equal to the decimal rendering of `v`; `007` does not match the id 7, and `7`
matches no record whose id is rendered `07` or `70`. -/
theorem id_comparison_is_string_exact :
    (∀ (s : String) (g : groupRecord),
      lookupGroupId.predicate s g = true ↔ s = FormatInt g.Gid) ∧
    (∀ (s : String) (u : userRecord),
      lookupUserId.predicate s u = true ↔ s = FormatInt u.Uid) ∧
    (∀ n : String, lookupGroupId.predicate "007" { GroupName := n, Gid := 7 } = false) ∧
    (∀ g : groupRecord, FormatInt g.Gid = "07" ∨ FormatInt g.Gid = "70" →
      lookupGroupId.predicate "7" g = false) ∧
    (∀ u : userRecord, u.Uid = 7 → lookupUserId.predicate "007" u = false) ∧
    (∀ u : userRecord, FormatInt u.Uid = "07" ∨ FormatInt u.Uid = "70" →
      lookupUserId.predicate "7" u = false) := by
  refine ⟨?_, ?_, ?_, ?_, ?_, ?_⟩
  · intro s g
    unfold lookupGroupId.predicate
    rw [beq_iff_eq]
    exact eq_comm
  · intro s u
    unfold lookupUserId.predicate
    rw [beq_iff_eq]
    exact eq_comm
  · intro n
    show (FormatInt 7 == "007") = false
    decide
  · intro g h
    unfold lookupGroupId.predicate
    rcases h with h | h <;> rw [h] <;> decide
  · intro u h
    unfold lookupUserId.predicate
    rw [h]
    decide
  · intro u h
    unfold lookupUserId.predicate
    rcases h with h | h <;> rw [h] <;> decide

/-! ## C10: the decimal rendering of ids -/

theorem digitChar_facts (d : Nat) (hd : d < 10) :
    digitValue (Nat.digitChar d) = some d ∧ Nat.digitChar d ≠ '-' ∧ Nat.digitChar d ≠ '+' ∧
      (Nat.digitChar d = '0' → d = 0) := by
  interval_cases d <;> decide

theorem formatBits_append (fuel u : Nat) (acc : List Char) :
    formatBits fuel u acc = formatBits fuel u [] ++ acc := by
  induction fuel generalizing u acc with
  | zero => simp [formatBits]
  | succ fuel ih =>
    by_cases hu : u ≥ 10
    · simp only [formatBits, hu, if_true]
      rw [ih (u / 10) (Nat.digitChar (u % 10) :: acc), ih (u / 10) [Nat.digitChar (u % 10)]]
      simp
    · simp [formatBits, hu]

theorem formatBits_fuel (fuel fuel' u : Nat) (acc : List Char) (h : u < fuel) (h' : u < fuel') :
    formatBits fuel u acc = formatBits fuel' u acc := by
  induction fuel generalizing fuel' u acc with
  | zero => omega
  | succ fuel ih =>
    cases fuel' with
    | zero => omega
    | succ fuel' =>
      by_cases hu : u ≥ 10
      · simp only [formatBits, hu, if_true]
        exact ih fuel' (u / 10) _ (by omega) (by omega)
      · simp [formatBits, hu]

theorem formatBits_step (fuel u : Nat) (h : u < fuel) (hu : u ≥ 10) :
    formatBits fuel u [] = formatBits fuel (u / 10) [] ++ [Nat.digitChar (u % 10)] := by
  cases fuel with
  | zero => omega
  | succ fuel =>
    have h1 : formatBits (fuel + 1) u [] = formatBits fuel (u / 10) [Nat.digitChar (u % 10)] := by
      simp [formatBits, hu]
    rw [h1, formatBits_append, formatBits_fuel fuel (fuel + 1) (u / 10) [] (by omega) (by omega)]

theorem formatBits_small (fuel u : Nat) (h : u < fuel) (hu : ¬ u ≥ 10) :
    formatBits fuel u [] = [Nat.digitChar u] := by
  cases fuel with
  | zero => omega
  | succ fuel => simp [formatBits, hu]

theorem parseDigits_append (l : List Char) (c : Char) (a : Nat) :
    parseDigits (l ++ [c]) a =
      (parseDigits l a).bind (fun n => (digitValue c).map (fun d => 10 * n + d)) := by
  induction l generalizing a with
  | nil =>
    cases hc : digitValue c <;> simp [parseDigits, hc]
  | cons x xs ih =>
    cases hx : digitValue x with
    | none => simp [parseDigits, hx]
    | some d => simp [parseDigits, hx, ih]

theorem parseDigits_formatBits (fuel u : Nat) (h : u < fuel) :
    parseDigits (formatBits fuel u []) 0 = some u := by
  induction u using Nat.strong_induction_on with
  | _ u ih =>
    by_cases hu : u ≥ 10
    · rw [formatBits_step fuel u h hu, parseDigits_append, ih (u / 10) (by omega) (by omega)]
      have hd := (digitChar_facts (u % 10) (Nat.mod_lt _ (by omega))).1
      simp only [Option.some_bind, hd, Option.map_some']
      congr 1
      omega
    · rw [formatBits_small fuel u h hu]
      have hd := (digitChar_facts u (by omega)).1
      simp [parseDigits, hd]

theorem formatBits_head (fuel u : Nat) (acc : List Char) (h : u < fuel) :
    ∃ d rest, formatBits fuel u acc = Nat.digitChar d :: rest ∧ d < 10 ∧
      (d = 0 → u = 0 ∧ rest = acc) := by
  induction fuel generalizing u acc with
  | zero => omega
  | succ fuel ih =>
    by_cases hu : u ≥ 10
    · obtain ⟨d, rest, h1, h2, h3⟩ := ih (u / 10) (Nat.digitChar (u % 10) :: acc) (by omega)
      refine ⟨d, rest, by simp [formatBits, hu, h1], h2, ?_⟩
      intro hd
      have := (h3 hd).1
      omega
    · exact ⟨u, acc, by simp [formatBits, hu], by omega, fun hd => ⟨hd, rfl⟩⟩

theorem parseDigits_all_digits (l : List Char) (a n : Nat) (h : parseDigits l a = some n) :
    ∀ c ∈ l, (digitValue c).isSome = true := by
  induction l generalizing a with
  | nil => simp
  | cons x xs ih =>
    cases hx : digitValue x with
    | none => simp [parseDigits, hx] at h
    | some d =>
      simp only [parseDigits, hx] at h
      intro c hc
      rcases List.mem_cons.1 hc with rfl | hc
      · simp [hx]
      · exact ih _ h c hc

theorem FormatInt_rendersExactly (v : Int) : rendersExactly (FormatInt v) v := by
  obtain ⟨d, rest, h1, h2, h3⟩ := formatBits_head (v.natAbs + 1) v.natAbs [] (by omega)
  obtain ⟨f1, f2, f3, f4⟩ := digitChar_facts d h2
  have hparse := parseDigits_formatBits (v.natAbs + 1) v.natAbs (by omega)
  rw [h1] at hparse
  have hall := parseDigits_all_digits _ _ _ hparse
  by_cases hv : v < 0
  · have hdata : (FormatInt v).data = '-' :: Nat.digitChar d :: rest := by
      simp [FormatInt, hv, h1]
    have hdig : decimalDigits (FormatInt v) = Nat.digitChar d :: rest := by
      simp [decimalDigits, hdata]
    have hd0 : d ≠ 0 := by
      intro hd
      have := (h3 hd).1
      omega
    refine ⟨?_, ?_, ?_, ?_, ?_⟩
    · simp only [ParseInt, hdata, if_true, hparse, Option.map_some']
      simp only [reduceCtorEq, if_false, Int.ofNat_eq_coe]
      congr 1
      omega
    · rw [hdig]
      simp
    · rw [hdig]
      exact hall
    · intro r hr
      rw [hdig] at hr
      simp only [List.cons.injEq] at hr
      exact absurd (f4 hr.1) hd0
    · simp [hdata, hv]
  · have hdata : (FormatInt v).data = Nat.digitChar d :: rest := by
      simp [FormatInt, hv, h1]
    have hdig : decimalDigits (FormatInt v) = Nat.digitChar d :: rest := by
      simp [decimalDigits, hdata, f2]
    refine ⟨?_, ?_, ?_, ?_, ?_⟩
    · simp only [ParseInt, hdata, f2, f3, if_false, hparse, Option.map_some', Int.ofNat_eq_coe]
      congr 1
      omega
    · rw [hdig]
      simp
    · rw [hdig]
      exact hall
    · intro r hr
      rw [hdig] at hr
      simp only [List.cons.injEq] at hr
      have := (h3 (f4 hr.1)).2
      rw [← hr.2]
      exact this
    · simp only [hdata, List.head?_cons, Option.some.injEq, hv, iff_false]
      exact f2

theorem digitValue_eq (c : Char) (d : Nat) (h : digitValue c = some d) :
    d < 10 ∧ c = Nat.digitChar d := by
  unfold digitValue at h
  split_ifs at h with hc
  have hd : d = c.toNat - 48 := by simpa using h.symm
  have hlt : d < 10 := by omega
  have hc2 : c = Char.ofNat (48 + d) := by
    have : 48 + d = c.toNat := by omega
    rw [this, Char.ofNat_toNat]
  refine ⟨hlt, ?_⟩
  rw [hc2]
  interval_cases d <;> rfl

theorem parseDigits_le (l : List Char) (a n : Nat) (h : parseDigits l a = some n) : a ≤ n := by
  induction l generalizing a with
  | nil =>
    have : a = n := by simpa [parseDigits] using h
    omega
  | cons x xs ih =>
    cases hx : digitValue x with
    | none => simp [parseDigits, hx] at h
    | some d =>
      simp only [parseDigits, hx] at h
      have := ih _ h
      omega

theorem canonical_digits (l : List Char) (n : Nat) (hne : l ≠ [])
    (hz : ∀ rest, l = '0' :: rest → rest = []) (h : parseDigits l 0 = some n) :
    l = formatBits (n + 1) n [] := by
  induction l using List.reverseRecOn generalizing n with
  | nil => exact absurd rfl hne
  | append_singleton l' c ih =>
    rw [parseDigits_append] at h
    cases hm : parseDigits l' 0 with
    | none => simp [hm] at h
    | some m =>
      cases hc : digitValue c with
      | none => simp [hm, hc] at h
      | some d =>
        have hn : n = 10 * m + d := by simpa [hm, hc] using h.symm
        obtain ⟨hd, hcd⟩ := digitValue_eq c d hc
        by_cases hl' : l' = []
        · subst hl'
          have hm0 : m = 0 := by simpa [parseDigits] using hm.symm
          rw [formatBits_small (n + 1) n (by omega) (by omega)]
          have : n = d := by omega
          rw [this, hcd]
          rfl
        · obtain ⟨x, xs, hx⟩ := List.exists_cons_of_ne_nil hl'
          have hx0 : x ≠ '0' := by
            intro e
            have := hz (xs ++ [c]) (by simp [hx, e])
            simp at this
          have hz' : ∀ rest, l' = '0' :: rest → rest = [] := by
            intro rest hr
            rw [hx] at hr
            simp only [List.cons.injEq] at hr
            exact absurd hr.1 hx0
          have ih' := ih m hl' hz' hm
          have hm1 : 1 ≤ m := by
            rw [hx] at hm
            cases hdx : digitValue x with
            | none => simp [parseDigits, hdx] at hm
            | some dx =>
              simp only [parseDigits, hdx] at hm
              obtain ⟨_, hxd⟩ := digitValue_eq x dx hdx
              have hdx0 : dx ≠ 0 := by
                intro e
                rw [e] at hxd
                exact hx0 hxd
              have := parseDigits_le _ _ _ hm
              omega
          rw [formatBits_step (n + 1) n (by omega) (by omega)]
          have h1 : n / 10 = m := by omega
          have h2 : n % 10 = d := by omega
          rw [h1, h2, formatBits_fuel (n + 1) (m + 1) m [] (by omega) (by omega), ← ih', hcd]

theorem rendersExactly_unique (s : String) (v : Int) (h : rendersExactly s v) :
    s = FormatInt v := by
  obtain ⟨hp, hne, hall, hz, hsign⟩ := h
  have hs : s = String.mk s.data := rfl
  by_cases hv : v < 0
  · have hhead := hsign.2 hv
    obtain ⟨cs, hcs⟩ : ∃ cs, s.data = '-' :: cs := by
      cases hd : s.data with
      | nil => rw [hd] at hhead; simp at hhead
      | cons c cs =>
        rw [hd] at hhead
        simp only [List.head?_cons, Option.some.injEq] at hhead
        exact ⟨cs, by rw [hhead]⟩
    have hdig : decimalDigits s = cs := by simp [decimalDigits, hcs]
    rw [hdig] at hne hall hz
    simp only [ParseInt, hcs, if_true, hne, if_false] at hp
    obtain ⟨n, hn, hnv⟩ := Option.map_eq_some'.1 hp
    have hcan := canonical_digits cs n hne hz hn
    have hnat : n = v.natAbs := by
      simp only [Int.ofNat_eq_coe] at hnv
      omega
    rw [hs, hcs, hcan, hnat]
    simp [FormatInt, hv]
  · have hhead : ¬ s.data.head? = some '-' := fun e => hv (hsign.1 e)
    have hdig : decimalDigits s = s.data := by simp [decimalDigits, hhead]
    rw [hdig] at hne hall hz
    obtain ⟨c, cs, hcs⟩ := List.exists_cons_of_ne_nil hne
    have hc1 : c ≠ '-' := by
      intro e
      exact hhead (by simp [hcs, e])
    have hc2 : c ≠ '+' := by
      intro e
      have := hall c (by simp [hcs])
      rw [e] at this
      revert this
      decide
    simp only [ParseInt, hcs, hc1, hc2, if_false] at hp
    obtain ⟨n, hn, hnv⟩ := Option.map_eq_some'.1 hp
    rw [← hcs] at hn
    have hcan := canonical_digits s.data n hne hz hn
    have hnat : n = v.natAbs := by
      simp only [Int.ofNat_eq_coe] at hnv
      omega
    rw [hs, hcan, hnat]
    simp [FormatInt, hv]

theorem rendersExactly_iff (s : String) (v : Int) : rendersExactly s v ↔ s = FormatInt v :=
  ⟨rendersExactly_unique s v, fun h => h ▸ FormatInt_rendersExactly v⟩

/-! ## C11: dial failure -/

/-- C11: whenever dialing the socket fails with the error `e`, `queryUserdbd`
returns `e` with nothing written and no frame handed to the callback, whose
captured variable is left as it was, and each of the four lookups returns a nil
record together with `e`. -/
theorem dial_failure_aborts :
    (∀ (σ : Type) (e : Error) (method : String)
        (unmarshal : List UInt8 → σ → (Bool × Option Error) × σ) (st : σ),
      queryUserdbd (Except.error e) method unmarshal st
        = some { err := some e, st := st, written := [], frames := [] }) ∧
    (∀ (j : List UInt8 → Except Error (Reply groupRecord)) (e : Error) (key : String),
      lookupGroup j (Except.error e) key = some (none, some e) ∧
      lookupGroupId j (Except.error e) key = some (none, some e)) ∧
    (∀ (j : List UInt8 → Except Error (Reply userRecord)) (e : Error) (key : String),
      lookupUser j (Except.error e) key = some (none, some e) ∧
      lookupUserId j (Except.error e) key = some (none, some e)) := by
  refine ⟨fun σ e method unmarshal st => rfl, fun j e key => ⟨rfl, rfl⟩,
    fun j e key => ⟨rfl, rfl⟩⟩

/-! ## C12: the request on the wire -/

set_option maxRecDepth 100000 in
theorem lor_ne_zero_fin : ∀ n : Fin 256, (UInt8.mk (BitVec.ofFin n) ||| 0x80) ≠ 0 ∧
    (UInt8.mk (BitVec.ofFin n) ||| 0xc0) ≠ 0 ∧
    (UInt8.mk (BitVec.ofFin n) ||| 0xe0) ≠ 0 ∧ (UInt8.mk (BitVec.ofFin n) ||| 0xf0) ≠ 0 := by
  decide

theorem lor_ne_zero (x : UInt8) : (x ||| 0x80) ≠ 0 ∧ (x ||| 0xc0) ≠ 0 ∧
    (x ||| 0xe0) ≠ 0 ∧ (x ||| 0xf0) ≠ 0 := by
  cases x with
  | mk bv =>
    cases bv with
    | ofFin n => exact lor_ne_zero_fin n

theorem utf8EncodeChar_no_zero (c : Char) (h : c.toNat ≠ 0) :
    (0 : UInt8) ∉ String.utf8EncodeChar c := by
  unfold String.utf8EncodeChar
  simp only
  split_ifs with h1 h2 h3
  · simp only [List.mem_singleton]
    intro h0
    have h4 : c.val.toNat ≤ 0x7f := h1
    have h5 : c.val.toUInt8.toNat = c.val.toNat % 256 := rfl
    rw [← h0] at h5
    have h6 : c.toNat = c.val.toNat := rfl
    simp at h5
    omega
  · have a := lor_ne_zero ((c.val >>> 6).toUInt8 &&& 0x1f)
    have b := lor_ne_zero (c.val.toUInt8 &&& 0x3f)
    simp only [List.mem_cons, List.mem_singleton, List.not_mem_nil, or_false, not_or]
    exact ⟨fun e => a.2.1 e.symm, fun e => b.1 e.symm⟩
  · have a := lor_ne_zero ((c.val >>> 12).toUInt8 &&& 0x0f)
    have b := lor_ne_zero ((c.val >>> 6).toUInt8 &&& 0x3f)
    have d := lor_ne_zero (c.val.toUInt8 &&& 0x3f)
    simp only [List.mem_cons, List.mem_singleton, List.not_mem_nil, or_false, not_or]
    exact ⟨fun e => a.2.2.1 e.symm, fun e => b.1 e.symm, fun e => d.1 e.symm⟩
  · have a := lor_ne_zero ((c.val >>> 18).toUInt8 &&& 0x07)
    have b := lor_ne_zero ((c.val >>> 12).toUInt8 &&& 0x3f)
    have b' := lor_ne_zero ((c.val >>> 6).toUInt8 &&& 0x3f)
    have d := lor_ne_zero (c.val.toUInt8 &&& 0x3f)
    simp only [List.mem_cons, List.mem_singleton, List.not_mem_nil, or_false, not_or]
    exact ⟨fun e => a.2.2.2 e.symm, fun e => b.1 e.symm, fun e => b'.1 e.symm,
      fun e => d.1 e.symm⟩

theorem hexByte_ne_zero (n : Nat) (h : n < 16) : hexByte n ≠ 0 := by
  interval_cases n <;> decide

theorem jsonEscapeChar_no_zero (c : Char) : (0 : UInt8) ∉ jsonEscapeChar c := by
  have hx1 := hexByte_ne_zero (c.toNat % 16) (Nat.mod_lt _ (by omega))
  unfold jsonEscapeChar
  split_ifs with h1 h2 h3 h4 h5 h6
  · rcases h1 with h | h <;> rw [h] <;> decide
  · decide
  · decide
  · decide
  · have hx2 : hexByte (c.toNat / 16) ≠ 0 := hexByte_ne_zero _ (by omega)
    simp only [List.mem_cons, List.mem_singleton, List.not_mem_nil, or_false, not_or]
    exact ⟨by decide, by decide, by decide, by decide, fun e => hx2 e.symm,
      fun e => hx1 e.symm⟩
  · simp only [List.mem_cons, List.mem_singleton, List.not_mem_nil, or_false, not_or]
    exact ⟨by decide, by decide, by decide, by decide, by decide, fun e => hx1 e.symm⟩
  · exact utf8EncodeChar_no_zero c (by omega)

theorem jsonMarshalString_no_zero (s : String) : (0 : UInt8) ∉ jsonMarshalString s := by
  unfold jsonMarshalString
  simp only [List.mem_append, List.mem_singleton, List.mem_flatMap, not_or, not_exists, not_and]
  exact ⟨⟨by decide, fun c _ => jsonEscapeChar_no_zero c⟩, by decide⟩

set_option maxRecDepth 100000 in
theorem marshalRequest_no_zero (m : String) : (0 : UInt8) ∉ marshalRequest m := by
  unfold marshalRequest
  simp only [List.mem_append, not_or]
  exact ⟨⟨⟨⟨by decide, jsonMarshalString_no_zero m⟩, by decide⟩,
    jsonMarshalString_no_zero _⟩, by decide⟩

theorem queryUserdbd_written {σ : Type} (conn : Conn) (method : String)
    (unmarshal : List UInt8 → σ → (Bool × Option Error) × σ) (st : σ) :
    ∃ out, queryUserdbd (Except.ok conn) method unmarshal st = some out ∧
      out.written = marshalRequest method ++ [0] := by
  obtain ⟨w, chunks, final⟩ := conn
  cases w with
  | some e => exact ⟨_, rfl, rfl⟩
  | none => exact ⟨_, queryUserdbd_ok chunks final method unmarshal st, rfl⟩

set_option maxRecDepth 100000 in
theorem marshalRequest_eq (m : String) :
    marshalRequest m = stringBytes "\x7b\"method\":" ++ jsonMarshalString m ++
      stringBytes ",\"parameters\":\x7b\"service\":\"io.systemd.NameServiceSwitch\"\x7d,\"more\":true\x7d" := by
  have h : stringBytes ",\"parameters\":\x7b\"service\":"
      ++ jsonMarshalString "io.systemd.NameServiceSwitch"
      ++ stringBytes "\x7d,\"more\":true\x7d"
      = stringBytes ",\"parameters\":\x7b\"service\":\"io.systemd.NameServiceSwitch\"\x7d,\"more\":true\x7d" := by
    decide
  rw [← h]
  simp [marshalRequest, List.append_assoc]

/-! ### Reading the request back -/

theorem hexValue_hexByte (n : Nat) (h : n < 16) : hexValue (hexByte n) = some n := by
  interval_cases n <;> decide

theorem u8_le (a b : UInt8) : a ≤ b ↔ a.toNat ≤ b.toNat := by
  rw [UInt8.le_def, BitVec.le_def]; rfl

theorem u8_lt (a b : UInt8) : a < b ↔ a.toNat < b.toNat := by
  rw [UInt8.lt_def, BitVec.lt_def]; rfl

theorem u8_eq (a b : UInt8) : a = b ↔ a.toNat = b.toNat := by
  constructor
  · intro h; rw [h]
  · intro h
    cases a; cases b
    congr
    exact BitVec.eq_of_toNat_eq h

theorem u8_ofNat_toNat (n : Nat) : (UInt8.ofNat n).toNat = n % 256 := by
  simp [UInt8.ofNat, UInt8.toNat]

theorem u32_shift6 (v : UInt32) : (v >>> 6).toNat = v.toNat / 64 := by
  show (UInt32.shiftRight v 6).toNat = _
  unfold UInt32.shiftRight
  have h : (UInt32.mod 6 32).toBitVec.toNat = 6 := by decide
  simp [UInt32.toNat, h, Nat.shiftRight_eq_div_pow]

theorem u32_shift12 (v : UInt32) : (v >>> 12).toNat = v.toNat / 4096 := by
  show (UInt32.shiftRight v 12).toNat = _
  unfold UInt32.shiftRight
  have h : (UInt32.mod 12 32).toBitVec.toNat = 12 := by decide
  simp [UInt32.toNat, h, Nat.shiftRight_eq_div_pow]

theorem u32_shift18 (v : UInt32) : (v >>> 18).toNat = v.toNat / 262144 := by
  show (UInt32.shiftRight v 18).toNat = _
  unfold UInt32.shiftRight
  have h : (UInt32.mod 18 32).toBitVec.toNat = 18 := by decide
  simp [UInt32.toNat, h, Nat.shiftRight_eq_div_pow]

set_option maxRecDepth 100000 in
theorem utf8_mask_fin : ∀ n : Fin 256,
    (UInt8.mk (BitVec.ofFin n) &&& 0x3f ||| 0x80).toNat = 0x80 + n.val % 64 ∧
    (UInt8.mk (BitVec.ofFin n) &&& 0x1f ||| 0xc0).toNat = 0xc0 + n.val % 32 ∧
    (UInt8.mk (BitVec.ofFin n) &&& 0x0f ||| 0xe0).toNat = 0xe0 + n.val % 16 ∧
    (UInt8.mk (BitVec.ofFin n) &&& 0x07 ||| 0xf0).toNat = 0xf0 + n.val % 8 := by
  decide

theorem utf8_mask (x : UInt8) :
    (x &&& 0x3f ||| 0x80).toNat = 0x80 + x.toNat % 64 ∧
    (x &&& 0x1f ||| 0xc0).toNat = 0xc0 + x.toNat % 32 ∧
    (x &&& 0x0f ||| 0xe0).toNat = 0xe0 + x.toNat % 16 ∧
    (x &&& 0x07 ||| 0xf0).toNat = 0xf0 + x.toNat % 8 := by
  cases x with
  | mk bv =>
    cases bv with
    | ofFin n => exact utf8_mask_fin n

theorem u32_toUInt8 (v : UInt32) : v.toUInt8.toNat = v.toNat % 256 := by
  show (UInt8.ofNat v.toNat).toNat = _
  exact u8_ofNat_toNat _

theorem u32_le (a b : UInt32) : a ≤ b ↔ a.toNat ≤ b.toNat := by
  rw [UInt32.le_def, BitVec.le_def]; rfl

theorem utf8EncodeChar_toNat (c : Char) :
    (String.utf8EncodeChar c).map UInt8.toNat =
      if c.toNat ≤ 0x7f then [c.toNat]
      else if c.toNat ≤ 0x7ff then [0xc0 + c.toNat / 64, 0x80 + c.toNat % 64]
      else if c.toNat ≤ 0xffff then
        [0xe0 + c.toNat / 4096, 0x80 + c.toNat / 64 % 64, 0x80 + c.toNat % 64]
      else [0xf0 + c.toNat / 262144, 0x80 + c.toNat / 4096 % 64, 0x80 + c.toNat / 64 % 64,
        0x80 + c.toNat % 64] := by
  have hv : c.toNat < 0x110000 := by
    have := c.valid
    unfold Char.toNat
    rcases this with h | ⟨_, h⟩
    · have : c.val.toNat < 0xd800 := h
      omega
    · exact h
  unfold String.utf8EncodeChar
  have e1 : (c.val ≤ 0x7f) ↔ c.toNat ≤ 0x7f := by rw [u32_le]; rfl
  have e2 : (c.val ≤ 0x7ff) ↔ c.toNat ≤ 0x7ff := by rw [u32_le]; rfl
  have e3 : (c.val ≤ 0xffff) ↔ c.toNat ≤ 0xffff := by rw [u32_le]; rfl
  simp only [e1, e2, e3]
  have hc : c.val.toNat = c.toNat := rfl
  split_ifs with h1 h2 h3
  · simp only [List.map, u32_toUInt8, hc]
    congr 1; omega
  · simp only [List.map, utf8_mask, u32_toUInt8, u32_shift6, hc]
    congr 1
    · omega
    · congr 1; omega
  · simp only [List.map, utf8_mask, u32_toUInt8, u32_shift6, u32_shift12, hc]
    congr 1
    · omega
    · congr 1
      · omega
      · congr 1; omega
  · simp only [List.map, utf8_mask, u32_toUInt8, u32_shift6, u32_shift12, u32_shift18, hc]
    congr 1
    · omega
    · congr 1
      · omega
      · congr 1
        · omega
        · congr 1; omega

theorem char_range (c : Char) :
    c.toNat < 0xd800 ∨ (0xdfff < c.toNat ∧ c.toNat < 0x110000) := c.valid

theorem map_toNat_eq1 (l : List UInt8) (a : Nat) (h : l.map UInt8.toNat = [a]) :
    ∃ b0, l = [b0] ∧ b0.toNat = a := by
  match l, h with
  | [b0], h => exact ⟨b0, rfl, by simpa using h⟩

theorem map_toNat_eq2 (l : List UInt8) (a0 a1 : Nat) (h : l.map UInt8.toNat = [a0, a1]) :
    ∃ b0 b1, l = [b0, b1] ∧ b0.toNat = a0 ∧ b1.toNat = a1 := by
  match l, h with
  | [b0, b1], h => exact ⟨b0, b1, rfl, by simpa using h⟩

theorem map_toNat_eq3 (l : List UInt8) (a0 a1 a2 : Nat)
    (h : l.map UInt8.toNat = [a0, a1, a2]) :
    ∃ b0 b1 b2, l = [b0, b1, b2] ∧ b0.toNat = a0 ∧ b1.toNat = a1 ∧ b2.toNat = a2 := by
  match l, h with
  | [b0, b1, b2], h => exact ⟨b0, b1, b2, rfl, by simpa using h⟩

theorem map_toNat_eq4 (l : List UInt8) (a0 a1 a2 a3 : Nat)
    (h : l.map UInt8.toNat = [a0, a1, a2, a3]) :
    ∃ b0 b1 b2 b3, l = [b0, b1, b2, b3] ∧ b0.toNat = a0 ∧ b1.toNat = a1 ∧ b2.toNat = a2 ∧
      b3.toNat = a3 := by
  match l, h with
  | [b0, b1, b2, b3], h => exact ⟨b0, b1, b2, b3, rfl, by simpa using h⟩

theorem decodeRune_encode (c : Char) (rest : List UInt8) :
    decodeRune (String.utf8EncodeChar c ++ rest) =
      (c.toNat, (String.utf8EncodeChar c).length) := by
  have hmap := utf8EncodeChar_toNat c
  have hr := char_range c
  have l1 : (0x80 : UInt8).toNat = 0x80 := rfl
  have l2 : (0xc2 : UInt8).toNat = 0xc2 := rfl
  have l3 : (0xdf : UInt8).toNat = 0xdf := rfl
  have l4 : (0xe0 : UInt8).toNat = 0xe0 := rfl
  have l5 : (0xef : UInt8).toNat = 0xef := rfl
  have l6 : (0xa0 : UInt8).toNat = 0xa0 := rfl
  have l7 : (0x9f : UInt8).toNat = 0x9f := rfl
  have l8 : (0xbf : UInt8).toNat = 0xbf := rfl
  have l9 : (0xed : UInt8).toNat = 0xed := rfl
  have l10 : (0xf0 : UInt8).toNat = 0xf0 := rfl
  have l11 : (0xf4 : UInt8).toNat = 0xf4 := rfl
  have l12 : (0x90 : UInt8).toNat = 0x90 := rfl
  have l13 : (0x8f : UInt8).toNat = 0x8f := rfl
  split_ifs at hmap with h1 h2 h3
  · obtain ⟨b0, h, hb0⟩ := map_toNat_eq1 _ _ hmap
    rw [h]
    simp only [List.cons_append, List.nil_append, decodeRune, u8_lt, l1, hb0, List.length]
    rw [if_pos (by omega)]
  · obtain ⟨b0, b1, h, hb0, hb1⟩ := map_toNat_eq2 _ _ _ hmap
    rw [h]
    simp only [List.cons_append, List.nil_append, decodeRune, u8_lt, u8_le, u8_eq, isCont,
      Bool.and_eq_true, decide_eq_true_eq, apply_ite UInt8.toNat,
      l1, l2, l3, l4, l5, l6, l7, l8, l9, l10, l11, l12, l13, hb0, hb1, List.length]
    rw [if_neg (by omega), if_pos (by omega), if_pos (by omega)]
    exact Prod.ext (by simp only []; omega) rfl
  · obtain ⟨b0, b1, b2, h, hb0, hb1, hb2⟩ := map_toNat_eq3 _ _ _ _ hmap
    rw [h]
    simp only [List.cons_append, List.nil_append, decodeRune, u8_lt, u8_le, u8_eq, isCont,
      Bool.and_eq_true, decide_eq_true_eq, apply_ite UInt8.toNat,
      l1, l2, l3, l4, l5, l6, l7, l8, l9, l10, l11, l12, l13, hb0, hb1, hb2, List.length]
    rw [if_neg (by omega), if_neg (by omega), if_pos (by omega)]
    clear l1 l2 l3 l4 l5 l6 l7 l8 l9 l10 l11 l12 l13 hmap h hb0 hb1 hb2
    split_ifs <;> first | (exfalso; omega) | (exact Prod.ext (by simp only []; omega) rfl)
  · obtain ⟨b0, b1, b2, b3, h, hb0, hb1, hb2, hb3⟩ := map_toNat_eq4 _ _ _ _ _ hmap
    rw [h]
    simp only [List.cons_append, List.nil_append, decodeRune, u8_lt, u8_le, u8_eq, isCont,
      Bool.and_eq_true, decide_eq_true_eq, apply_ite UInt8.toNat,
      l1, l2, l3, l4, l5, l6, l7, l8, l9, l10, l11, l12, l13, hb0, hb1, hb2, hb3, List.length]
    rw [if_neg (by omega), if_neg (by omega), if_neg (by omega), if_pos (by omega)]
    clear l1 l2 l3 l4 l5 l6 l7 l8 l9 l10 l11 l12 l13 hmap h hb0 hb1 hb2 hb3
    split_ifs <;> first | (exfalso; omega) | (exact Prod.ext (by simp only []; omega) rfl)

theorem parseString_raw (fuel : Nat) (c : Char) (rest : List UInt8) (acc : List Char)
    (h1 : 0x20 ≤ c.toNat) (h2 : c.toNat ≠ 0x22) (h3 : c.toNat ≠ 0x5c) :
    parseString (fuel + 1) (String.utf8EncodeChar c ++ rest) acc =
      parseString fuel rest (c :: acc) := by
  have hmap := utf8EncodeChar_toNat c
  have hd := decodeRune_encode c rest
  obtain ⟨b, tl, henc⟩ : ∃ b tl, String.utf8EncodeChar c = b :: tl := by
    cases hl : String.utf8EncodeChar c with
    | nil => rw [hl] at hmap; split_ifs at hmap <;> simp at hmap
    | cons b tl => exact ⟨b, tl, rfl⟩
  have hb : b.toNat = c.toNat ∨ 0xc0 ≤ b.toNat := by
    rw [henc] at hmap
    simp only [List.map_cons] at hmap
    split_ifs at hmap <;> simp only [List.cons.injEq] at hmap <;> omega
  have l1 : (0x22 : UInt8).toNat = 0x22 := rfl
  have l2 : (0x5c : UInt8).toNat = 0x5c := rfl
  have l3 : (0x20 : UInt8).toNat = 0x20 := rfl
  have hb22 : ¬ b = 0x22 := by rw [u8_eq, l1]; omega
  have hb5c : ¬ b = 0x5c := by rw [u8_eq, l2]; omega
  have hb20 : ¬ b < 0x20 := by rw [u8_lt, l3]; omega
  rw [henc] at hd ⊢
  rw [List.cons_append] at hd ⊢
  simp only [parseString, hb22, hb5c, hb20, if_false, hd]
  simp only [Char.ofNat_toNat]
  congr 1
  rw [← List.cons_append]
  exact List.drop_left' rfl


theorem char_of_toNat (c : Char) (n : Nat) (h : c.toNat = n) : Char.ofNat n = c := by
  rw [← h, Char.ofNat_toNat]

theorem parseString_escape (fuel : Nat) (c : Char) (rest : List UInt8) (acc : List Char) :
    parseString (fuel + 1) (jsonEscapeChar c ++ rest) acc =
      parseString fuel rest (c :: acc) := by
  unfold jsonEscapeChar
  split_ifs with h1 h2 h3 h4 h5 h6
  · rcases h1 with h | h
    · rw [h, ← char_of_toNat c _ h]
      rfl
    · rw [h, ← char_of_toNat c _ h]
      rfl
  · rw [← char_of_toNat c _ h2]
    rfl
  · rw [← char_of_toNat c _ h3]
    rfl
  · rw [← char_of_toNat c _ h4]
    rfl
  · have hn : c.toNat < 256 := by omega
    have e1 : hexValue (hexByte (c.toNat / 16)) = some (c.toNat / 16) :=
      hexValue_hexByte _ (by omega)
    have e2 : hexValue (hexByte (c.toNat % 16)) = some (c.toNat % 16) :=
      hexValue_hexByte _ (by omega)
    have e0 : hexValue 0x30 = some 0 := by decide
    simp [parseString, getu4, e0, e1, e2]
    have hc : c.toNat / 16 * 16 + c.toNat % 16 = c.toNat := by omega
    rw [hc, if_neg (by omega), Char.ofNat_toNat]
  · rcases h6 with h | h
    · rw [h, ← char_of_toNat c _ h]
      rfl
    · rw [h, ← char_of_toNat c _ h]
      rfl
  · exact parseString_raw fuel c rest acc (by omega) (by omega) (by omega)


theorem parseString_body (cs : List Char) (fuel : Nat) (rest : List UInt8) (acc : List Char)
    (h : cs.length < fuel) :
    parseString fuel (cs.flatMap jsonEscapeChar ++ 0x22 :: rest) acc =
      some (String.mk (acc.reverse ++ cs), rest) := by
  induction cs generalizing fuel acc with
  | nil =>
    obtain ⟨f, rfl⟩ : ∃ f, fuel = f + 1 := ⟨fuel - 1, by simp at h; omega⟩
    simp [parseString]
  | cons c cs ih =>
    obtain ⟨f, rfl⟩ : ∃ f, fuel = f + 1 := ⟨fuel - 1, by simp at h; omega⟩
    rw [List.flatMap_cons, List.append_assoc, parseString_escape,
      ih f (c :: acc) (by simp at h; omega)]
    simp

theorem jsonEscapeChar_ne_nil (c : Char) : jsonEscapeChar c ≠ [] := by
  unfold jsonEscapeChar
  split_ifs <;> try simp
  intro h
  have := congrArg List.length h
  simp [Char.utf8Size] at this
  split_ifs at this

theorem length_le_flatMap (cs : List Char) : cs.length ≤ (cs.flatMap jsonEscapeChar).length := by
  induction cs with
  | nil => simp
  | cons c cs ih =>
    have : 1 ≤ (jsonEscapeChar c).length := by
      cases h : jsonEscapeChar c with
      | nil => exact absurd h (jsonEscapeChar_ne_nil c)
      | cons _ _ => simp
    simp only [List.flatMap_cons, List.length_append, List.length_cons]
    omega

theorem parseValue_string (fuel : Nat) (s : String) (rest : List UInt8) :
    parseValue (fuel + 1) (jsonMarshalString s ++ rest) =
      some (JSON.str s, rest) := by
  have hlen := length_le_flatMap s.data
  unfold jsonMarshalString
  simp only [List.singleton_append, List.cons_append, List.append_assoc]
  rw [parseValue]
  simp only [skipSpace, isSpace]
  simp
  rw [List.length_flatMap] at hlen
  rw [parseString_body s.data _ rest [] (by omega)]
  simp


theorem jsonMarshalString_cons (k : String) (tail : List UInt8) :
    jsonMarshalString k ++ tail = 0x22 :: (k.data.flatMap jsonEscapeChar ++ 0x22 :: tail) := by
  simp [jsonMarshalString]

theorem parseMembers_step (fuel : Nat) (k : String) (rest1 rest2 : List UInt8) (v : JSON)
    (hv : parseValue fuel rest1 = some (v, rest2)) :
    parseMembers (fuel + 1) (jsonMarshalString k ++ 0x3a :: rest1) =
      match skipSpace rest2 with
      | 0x7d :: rest3 => some ([(k, v)], rest3)
      | 0x2c :: rest3 => (parseMembers fuel rest3).map (fun r => ((k, v) :: r.1, r.2))
      | _ => none := by
  have hlen := length_le_flatMap k.data
  rw [List.length_flatMap] at hlen
  rw [jsonMarshalString_cons, parseMembers]
  simp only [skipSpace, isSpace]
  simp
  rw [parseString_body k.data _ _ [] (by omega)]
  simp [skipSpace, isSpace, hv]

theorem parseValue_obj (fuel : Nat) (k : String) (tail rest : List UInt8)
    (ms : List (String × JSON))
    (h : parseMembers fuel (jsonMarshalString k ++ tail) = some (ms, rest)) :
    parseValue (fuel + 1) (0x7b :: (jsonMarshalString k ++ tail)) = some (JSON.obj ms, rest) := by
  rw [parseValue]
  rw [jsonMarshalString_cons] at h ⊢
  simp [skipSpace, isSpace, h]


set_option maxRecDepth 100000 in
theorem marshalRequest_shape (m : String) :
    marshalRequest m = 0x7b :: (jsonMarshalString "method" ++ 0x3a :: (jsonMarshalString m ++
      0x2c :: (jsonMarshalString "parameters" ++ 0x3a :: 0x7b :: (jsonMarshalString "service" ++
      0x3a :: (jsonMarshalString "io.systemd.NameServiceSwitch" ++ 0x7d :: 0x2c ::
      (jsonMarshalString "more" ++ [0x3a, 0x74, 0x72, 0x75, 0x65, 0x7d])))))) := by
  have e1 : stringBytes "\x7b\"method\":" = 0x7b :: (jsonMarshalString "method" ++ [0x3a]) := by
    decide
  have e2 : stringBytes ",\"parameters\":\x7b\"service\":" =
      0x2c :: (jsonMarshalString "parameters" ++ 0x3a :: 0x7b ::
        (jsonMarshalString "service" ++ [0x3a])) := by
    decide
  have e3 : stringBytes "\x7d,\"more\":true\x7d" =
      0x7d :: 0x2c :: (jsonMarshalString "more" ++ [0x3a, 0x74, 0x72, 0x75, 0x65, 0x7d]) := by
    decide
  unfold marshalRequest
  rw [e1, e2, e3]
  simp only [List.cons_append, List.append_assoc, List.nil_append]

theorem parseJSON_marshalRequest (m : String) :
    parseJSON (marshalRequest m) = some (JSON.obj [("method", JSON.str m),
      ("parameters", JSON.obj [("service", JSON.str "io.systemd.NameServiceSwitch")]),
      ("more", JSON.bool true)]) := by
  obtain ⟨n, hn⟩ : ∃ n, (marshalRequest m).length + 1 = n + 6 :=
    ⟨(marshalRequest m).length - 5, by
      rw [marshalRequest_shape]
      simp only [List.length_cons, List.length_append]
      omega⟩
  unfold parseJSON
  rw [hn, marshalRequest_shape]
  have htrue : parseValue (n + 2) [0x74, 0x72, 0x75, 0x65, 0x7d] =
      some (JSON.bool true, [0x7d]) := by
    simp [parseValue, skipSpace, isSpace]
  have hmore := parseMembers_step (n + 2) "more" _ _ _ htrue
  simp [skipSpace, isSpace] at hmore
  have hsvc := parseValue_string n "io.systemd.NameServiceSwitch"
    (0x7d :: 0x2c :: (jsonMarshalString "more" ++ [0x3a, 0x74, 0x72, 0x75, 0x65, 0x7d]))
  have hmsvc := parseMembers_step (n + 1) "service" _ _ _ hsvc
  simp [skipSpace, isSpace] at hmsvc
  have hobj := parseValue_obj (n + 2) "service" _ _ _ hmsvc
  have hparams := parseMembers_step (n + 3) "parameters" _ _ _ hobj
  simp [skipSpace, isSpace] at hparams
  have hmore3 : parseMembers (n + 3) (jsonMarshalString "more" ++ [0x3a, 0x74, 0x72, 0x75, 0x65, 0x7d])
      = some ([("more", JSON.bool true)], []) := hmore
  rw [hmore3] at hparams
  have hm := parseValue_string (n + 3) m
    (0x2c :: (jsonMarshalString "parameters" ++ 0x3a :: 0x7b :: (jsonMarshalString "service" ++
      0x3a :: (jsonMarshalString "io.systemd.NameServiceSwitch" ++ 0x7d :: 0x2c ::
      (jsonMarshalString "more" ++ [0x3a, 0x74, 0x72, 0x75, 0x65, 0x7d])))))
  have hmethod := parseMembers_step (n + 4) "method" _ _ _ hm
  simp [skipSpace, isSpace] at hmethod
  have hparams4 : parseMembers (n + 4) (jsonMarshalString "parameters" ++ 0x3a :: 0x7b ::
      (jsonMarshalString "service" ++ 0x3a :: (jsonMarshalString "io.systemd.NameServiceSwitch" ++
        0x7d :: 0x2c :: (jsonMarshalString "more" ++ [0x3a, 0x74, 0x72, 0x75, 0x65, 0x7d])))) = _ :=
    hparams
  rw [hparams4] at hmethod
  have htop := parseValue_obj (n + 5) "method" _ _ _ hmethod
  have htop6 : parseValue (n + 6) _ = _ := htop
  rw [htop6]
  simp [skipSpace]

set_option maxRecDepth 100000 in
theorem marshalRequest_group :
    marshalRequest "io.systemd.UserDatabase.GetGroupRecord" =
      stringBytes "\x7b\"method\":\"io.systemd.UserDatabase.GetGroupRecord\",\"parameters\":\x7b\"service\":\"io.systemd.NameServiceSwitch\"\x7d,\"more\":true\x7d" := by
  decide

set_option maxRecDepth 100000 in
theorem marshalRequest_user :
    marshalRequest "io.systemd.UserDatabase.GetUserRecord" =
      stringBytes "\x7b\"method\":\"io.systemd.UserDatabase.GetUserRecord\",\"parameters\":\x7b\"service\":\"io.systemd.NameServiceSwitch\"\x7d,\"more\":true\x7d" := by
  decide

theorem queryGroupDb_traced_written (j : List UInt8 → Except Error (Reply groupRecord))
    (conn : Conn) (p : groupRecord → Bool) :
    ∃ res, queryGroupDb.traced j (Except.ok conn) p =
        some (res, marshalRequest "io.systemd.UserDatabase.GetGroupRecord" ++ [0]) := by
  obtain ⟨out, hq, hw⟩ := queryUserdbd_written conn "io.systemd.UserDatabase.GetGroupRecord"
    (queryGroupDb.unmarshal j p) none
  unfold queryGroupDb.traced
  rw [hq]
  cases herr : out.err with
  | some err => exact ⟨(none, some err), by simp only [herr, hw]⟩
  | none => exact ⟨(out.st, none), by simp only [herr, hw]⟩

theorem queryUserDb_traced_written (j : List UInt8 → Except Error (Reply userRecord))
    (conn : Conn) (p : userRecord → Bool) :
    ∃ res, queryUserDb.traced j (Except.ok conn) p =
        some (res, marshalRequest "io.systemd.UserDatabase.GetUserRecord" ++ [0]) := by
  obtain ⟨out, hq, hw⟩ := queryUserdbd_written conn "io.systemd.UserDatabase.GetUserRecord"
    (queryUserDb.unmarshal j p) none
  unfold queryUserDb.traced
  rw [hq]
  cases herr : out.err with
  | some err => exact ⟨(none, some err), by simp only [herr, hw]⟩
  | none => exact ⟨(out.st, none), by simp only [herr, hw]⟩

/-- C12: for every method string `m`, the bytes `queryUserdbd` hands to
`conn.Write` are the JSON object with the fields `method` (`m`, JSON-escaped),
`parameters.service` (`io.systemd.NameServiceSwitch`) and `more` (true),
followed by one 0 byte; no other written byte is 0, the written bytes end in
the 0 byte the test server checks for, and the bytes before that 0 byte read
back, as JSON, as the object with exactly these three members, `method` being
`m` itself. On every connection the group queries
(`queryGroupDb` with any predicate, `lookupGroup`, `lookupGroupId`) write that
object with the method `io.systemd.UserDatabase.GetGroupRecord` and the user
queries (`queryUserDb`, `lookupUser`, `lookupUserId`) write it with the method
`io.systemd.UserDatabase.GetUserRecord`, each followed by the 0 byte, and
return the result that goes with these written bytes. -/
theorem request_wire_shape :
    (∀ (σ : Type) (conn : Conn) (m : String)
        (unmarshal : List UInt8 → σ → (Bool × Option Error) × σ) (st : σ),
      ∃ out, queryUserdbd (Except.ok conn) m unmarshal st = some out ∧
        out.written = stringBytes "\x7b\"method\":" ++ jsonMarshalString m ++
          stringBytes ",\"parameters\":\x7b\"service\":\"io.systemd.NameServiceSwitch\"\x7d,\"more\":true\x7d"
          ++ [0] ∧
        (0 : UInt8) ∉ out.written.dropLast ∧ [(0 : UInt8)] <:+ out.written ∧
        parseJSON out.written.dropLast = some (JSON.obj [("method", JSON.str m),
          ("parameters", JSON.obj [("service", JSON.str "io.systemd.NameServiceSwitch")]),
          ("more", JSON.bool true)])) ∧
    (∀ (j : List UInt8 → Except Error (Reply groupRecord)) (conn : Conn)
        (p : groupRecord → Bool) (key : String),
      (∃ res, queryGroupDb.traced j (Except.ok conn) p = some (res,
          stringBytes "\x7b\"method\":\"io.systemd.UserDatabase.GetGroupRecord\",\"parameters\":\x7b\"service\":\"io.systemd.NameServiceSwitch\"\x7d,\"more\":true\x7d"
            ++ [0]) ∧
        queryGroupDb j (Except.ok conn) p = some res) ∧
      (∃ res, lookupGroup.traced j (Except.ok conn) key = some (res,
          stringBytes "\x7b\"method\":\"io.systemd.UserDatabase.GetGroupRecord\",\"parameters\":\x7b\"service\":\"io.systemd.NameServiceSwitch\"\x7d,\"more\":true\x7d"
            ++ [0]) ∧
        lookupGroup j (Except.ok conn) key = some res) ∧
      (∃ res, lookupGroupId.traced j (Except.ok conn) key = some (res,
          stringBytes "\x7b\"method\":\"io.systemd.UserDatabase.GetGroupRecord\",\"parameters\":\x7b\"service\":\"io.systemd.NameServiceSwitch\"\x7d,\"more\":true\x7d"
            ++ [0]) ∧
        lookupGroupId j (Except.ok conn) key = some res)) ∧
    (∀ (j : List UInt8 → Except Error (Reply userRecord)) (conn : Conn)
        (p : userRecord → Bool) (key : String),
      (∃ res, queryUserDb.traced j (Except.ok conn) p = some (res,
          stringBytes "\x7b\"method\":\"io.systemd.UserDatabase.GetUserRecord\",\"parameters\":\x7b\"service\":\"io.systemd.NameServiceSwitch\"\x7d,\"more\":true\x7d"
            ++ [0]) ∧
        queryUserDb j (Except.ok conn) p = some res) ∧
      (∃ res, lookupUser.traced j (Except.ok conn) key = some (res,
          stringBytes "\x7b\"method\":\"io.systemd.UserDatabase.GetUserRecord\",\"parameters\":\x7b\"service\":\"io.systemd.NameServiceSwitch\"\x7d,\"more\":true\x7d"
            ++ [0]) ∧
        lookupUser j (Except.ok conn) key = some res) ∧
      (∃ res, lookupUserId.traced j (Except.ok conn) key = some (res,
          stringBytes "\x7b\"method\":\"io.systemd.UserDatabase.GetUserRecord\",\"parameters\":\x7b\"service\":\"io.systemd.NameServiceSwitch\"\x7d,\"more\":true\x7d"
            ++ [0]) ∧
        lookupUserId j (Except.ok conn) key = some res)) := by
  refine ⟨?_, ?_, ?_⟩
  · intro σ conn m unmarshal st
    obtain ⟨out, hq, hw⟩ := queryUserdbd_written conn m unmarshal st
    refine ⟨out, hq, ?_, ?_, ?_, ?_⟩
    · rw [hw, marshalRequest_eq]
    · rw [hw, List.dropLast_concat]
      exact marshalRequest_no_zero m
    · rw [hw]
      exact List.suffix_append _ _
    · rw [hw, List.dropLast_concat]
      exact parseJSON_marshalRequest m
  · intro j conn p key
    have h : ∀ q : groupRecord → Bool, ∃ res, queryGroupDb.traced j (Except.ok conn) q =
        some (res, stringBytes "\x7b\"method\":\"io.systemd.UserDatabase.GetGroupRecord\",\"parameters\":\x7b\"service\":\"io.systemd.NameServiceSwitch\"\x7d,\"more\":true\x7d"
          ++ [0]) ∧ queryGroupDb j (Except.ok conn) q = some res := by
      intro q
      obtain ⟨res, hres⟩ := queryGroupDb_traced_written j conn q
      rw [marshalRequest_group] at hres
      exact ⟨res, hres, by rw [queryGroupDb, hres]; rfl⟩
    exact ⟨h p, h (lookupGroup.predicate key), h (lookupGroupId.predicate key)⟩
  · intro j conn p key
    have h : ∀ q : userRecord → Bool, ∃ res, queryUserDb.traced j (Except.ok conn) q =
        some (res, stringBytes "\x7b\"method\":\"io.systemd.UserDatabase.GetUserRecord\",\"parameters\":\x7b\"service\":\"io.systemd.NameServiceSwitch\"\x7d,\"more\":true\x7d"
          ++ [0]) ∧ queryUserDb j (Except.ok conn) q = some res := by
      intro q
      obtain ⟨res, hres⟩ := queryUserDb_traced_written j conn q
      rw [marshalRequest_user] at hres
      exact ⟨res, hres, by rw [queryUserDb, hres]; rfl⟩
    exact ⟨h p, h (lookupUser.predicate key), h (lookupUserId.predicate key)⟩

/-! ## What a record query captures, on any connection -/

theorem consume_captured {ρ ι : Type} (j : List UInt8 → Except Error (Reply ρ))
    (p : ρ → Bool) (build : ρ → ι) (endErr : Option Error)
    (toks : List (List UInt8 × Option Error)) (st : Option ι) (seen : List (List UInt8)) :
    ∃ handed,
      (consume (recordCallback j p build) endErr toks st seen).2.2 = seen ++ handed ∧
      (consume (recordCallback j p build) endErr toks st seen).2.1
        = captured j p build handed st := by
  induction toks generalizing st seen with
  | nil => exact ⟨[], by simp [consume], by simp [consume, captured]⟩
  | cons t ts ih =>
    obtain ⟨f, e⟩ := t
    rcases hu : recordCallback j p build f st with ⟨⟨c, e1⟩, st1⟩
    cases e1 with
    | some e1 => exact ⟨[f], by simp [consume, hu], by simp [consume, hu, captured]⟩
    | none =>
      cases c with
      | false => exact ⟨[f], by simp [consume, hu], by simp [consume, hu, captured]⟩
      | true =>
        obtain ⟨handed, h1, h2⟩ := ih st1 (seen ++ [f])
        refine ⟨f :: handed, ?_, ?_⟩
        · simp [consume, hu, h1]
        · simp only [consume, hu, Bool.not_true, Bool.false_eq_true, if_false, h2]
          simp [captured, hu]

theorem queryUserdbd_captured {ρ ι : Type} (j : List UInt8 → Except Error (Reply ρ))
    (p : ρ → Bool) (build : ρ → ι) (dial : Except Error Conn) (method : String) :
    ∃ out, queryUserdbd dial method (recordCallback j p build) none = some out ∧
      out.st = captured j p build out.frames none := by
  cases dial with
  | error e => exact ⟨_, rfl, rfl⟩
  | ok conn =>
    obtain ⟨w, chunks, final⟩ := conn
    cases w with
    | some e => exact ⟨_, rfl, rfl⟩
    | none =>
      obtain ⟨handed, h1, h2⟩ := consume_captured j p build (errView final)
        (tokens (errView final) none chunks.flatten []) none []
      refine ⟨_, queryUserdbd_ok chunks final method _ none, ?_⟩
      simp only [h2, h1, List.nil_append]

theorem captured_some {ρ ι : Type} (j : List UInt8 → Except Error (Reply ρ))
    (p : ρ → Bool) (build : ρ → ι) (fs : List (List UInt8)) (st : Option ι) (x : ι)
    (h : captured j p build fs st = some x) :
    st = some x ∨ ∃ f ∈ fs, ∃ r, recordOf j f = some r ∧ p r = true ∧ x = build r := by
  induction fs generalizing st with
  | nil => exact Or.inl (by simpa [captured] using h)
  | cons f fs ih =>
    have h' : captured j p build fs (recordCallback j p build f st).2 = some x := by
      simpa [captured] using h
    rcases ih _ h' with h1 | ⟨g, hg, r, hr, hp, hx⟩
    · cases hj : j f with
      | error e =>
        left
        simpa [recordCallback, hj] using h1
      | ok reply =>
        have h2 := recordCallback_snd j p build f st reply hj
        rw [h2] at h1
        by_cases hp : p reply.Record = true
        · right
          rw [if_pos hp] at h1
          exact ⟨f, by simp, reply.Record, by simp [recordOf, hj], hp,
            (Option.some.inj h1).symm⟩
        · left
          rw [if_neg hp] at h1
          exact h1
    · exact Or.inr ⟨g, by simp [hg], r, hr, hp, hx⟩

theorem queryGroupDb_some (j : List UInt8 → Except Error (Reply groupRecord))
    (dial : Except Error Conn) (p : groupRecord → Bool) (g : Group) (e : Option Error)
    (h : queryGroupDb j dial p = some (some g, e)) :
    e = none ∧ ∃ out, queryUserdbd dial "io.systemd.UserDatabase.GetGroupRecord"
        (queryGroupDb.unmarshal j p) none = some out ∧
      some g = captured j p groupOf out.frames none ∧
      ∃ f ∈ out.frames, ∃ r, recordOf j f = some r ∧ p r = true ∧ g = groupOf r := by
  obtain ⟨out, hq, hst⟩ := queryUserdbd_captured j p groupOf dial
    "io.systemd.UserDatabase.GetGroupRecord"
  rw [← queryGroupDb_unmarshal_eq] at hq
  simp only [queryGroupDb_eq, hq] at h
  cases herr : out.err with
  | some err => simp [herr] at h
  | none =>
    simp only [herr, Option.some.injEq, Prod.mk.injEq] at h
    obtain ⟨h1, h2⟩ := h
    rw [hst] at h1
    rcases captured_some j p groupOf out.frames none g h1 with h3 | h3
    · simp at h3
    · exact ⟨h2.symm, out, hq, h1.symm, h3⟩

theorem queryUserDb_some (j : List UInt8 → Except Error (Reply userRecord))
    (dial : Except Error Conn) (p : userRecord → Bool) (u : User) (e : Option Error)
    (h : queryUserDb j dial p = some (some u, e)) :
    e = none ∧ ∃ out, queryUserdbd dial "io.systemd.UserDatabase.GetUserRecord"
        (queryUserDb.unmarshal j p) none = some out ∧
      some u = captured j p userOf out.frames none ∧
      ∃ f ∈ out.frames, ∃ r, recordOf j f = some r ∧ p r = true ∧ u = userOf r := by
  obtain ⟨out, hq, hst⟩ := queryUserdbd_captured j p userOf dial
    "io.systemd.UserDatabase.GetUserRecord"
  rw [← queryUserDb_unmarshal_eq] at hq
  simp only [queryUserDb_eq, hq] at h
  cases herr : out.err with
  | some err => simp [herr] at h
  | none =>
    simp only [herr, Option.some.injEq, Prod.mk.injEq] at h
    obtain ⟨h1, h2⟩ := h
    rw [hst] at h1
    rcases captured_some j p userOf out.frames none u h1 with h3 | h3
    · simp at h3
    · exact ⟨h2.symm, out, hq, h1.symm, h3⟩

/-! ## C13: the shape of a user result -/

/-- C13: whenever `queryUserDb` returns a user, the error is nil and the user is
built from the record `r` captured last, a record of a frame handed to the
callback that satisfies the predicate: Uid and Gid are the decimal renderings
of `r.uid` and `r.gid`, Username is `r.userName`, Name is `r.realName` and
HomeDir is `r.homeDirectory`. The predicate of `lookupUser name` accepts `r`
exactly when `r.userName` equals `name`, and the predicate of `lookupUserId id`
exactly when the rendering of `r.uid` (not of `r.gid`) equals `id`. -/
theorem user_record_shaping (j : List UInt8 → Except Error (Reply userRecord))
    (dial : Except Error Conn) (p : userRecord → Bool) (u : User) (e : Option Error)
    (h : queryUserDb j dial p = some (some u, e)) :
    e = none ∧
    (∃ out, queryUserdbd dial "io.systemd.UserDatabase.GetUserRecord"
        (queryUserDb.unmarshal j p) none = some out ∧
      some u = captured j p userOf out.frames none ∧
      ∃ f ∈ out.frames, ∃ r, recordOf j f = some r ∧ p r = true ∧
        u = { Uid := FormatInt r.Uid, Gid := FormatInt r.Gid, Username := r.UserName,
              Name := r.RealName, HomeDir := r.HomeDirectory }) ∧
    (∀ (name : String) (r : userRecord),
      lookupUser.predicate name r = true ↔ r.UserName = name) ∧
    (∀ (id : String) (r : userRecord),
      lookupUserId.predicate id r = true ↔ FormatInt r.Uid = id) ∧
    lookupUserId.predicate "100"
      { UserName := "alice", RealName := "Alice", Uid := 1000, Gid := 100,
        HomeDirectory := "/home/alice" } = false := by
  obtain ⟨h1, out, hq, hc, f, hf, r, hr, hp, hu⟩ := queryUserDb_some j dial p u e h
  refine ⟨h1, ⟨out, hq, hc, f, hf, r, hr, hp, hu⟩, ?_, ?_, ?_⟩
  · intro name r
    unfold lookupUser.predicate
    exact beq_iff_eq
  · intro id r
    unfold lookupUserId.predicate
    exact beq_iff_eq
  · decide

set_option maxRecDepth 100000 in
/-- C13, instance: the lookup of the uid `1000` on the reply `root`, `alice`
returns the user built from the record of `alice`. -/
theorem user_record_shaping_witness :
    lookupUserId jsonUnmarshalUser
        (Except.ok { writeErr := none, chunks := [rootFrame ++ [0] ++ aliceLastFrame ++ [0]],
                     final := Error.EOF }) "1000"
      = some (some { Uid := "1000", Gid := "100", Username := "alice", Name := "Alice",
                     HomeDir := "/home/alice" }, none) ∧
    (none : Option Error) = none :=
  ⟨by decide,
   (user_record_shaping jsonUnmarshalUser
      (Except.ok { writeErr := none, chunks := [rootFrame ++ [0] ++ aliceLastFrame ++ [0]],
                   final := Error.EOF }) (lookupUserId.predicate "1000")
      { Uid := "1000", Gid := "100", Username := "alice", Name := "Alice",
        HomeDir := "/home/alice" } none (by decide)).1⟩

/-! ## C17: the result agrees with the query key -/

/-- C17: on every connection, a group returned by `lookupGroup n` has Name `n`,
a group returned by `lookupGroupId s` has Gid `s`, a user returned by
`lookupUser n` has Username `n`, and a user returned by `lookupUserId s` has
Uid `s`. -/
theorem result_agrees_with_key :
    (∀ (j : List UInt8 → Except Error (Reply groupRecord)) (dial : Except Error Conn)
        (n : String) (g : Group) (e : Option Error),
      lookupGroup j dial n = some (some g, e) → g.Name = n) ∧
    (∀ (j : List UInt8 → Except Error (Reply groupRecord)) (dial : Except Error Conn)
        (s : String) (g : Group) (e : Option Error),
      lookupGroupId j dial s = some (some g, e) → g.Gid = s) ∧
    (∀ (j : List UInt8 → Except Error (Reply userRecord)) (dial : Except Error Conn)
        (n : String) (u : User) (e : Option Error),
      lookupUser j dial n = some (some u, e) → u.Username = n) ∧
    (∀ (j : List UInt8 → Except Error (Reply userRecord)) (dial : Except Error Conn)
        (s : String) (u : User) (e : Option Error),
      lookupUserId j dial s = some (some u, e) → u.Uid = s) := by
  refine ⟨?_, ?_, ?_, ?_⟩
  · intro j dial n g e h
    obtain ⟨_, _, _, _, _, _, r, _, hp, hg⟩ := queryGroupDb_some j dial _ g e h
    rw [hg]
    exact beq_iff_eq.1 hp
  · intro j dial s g e h
    obtain ⟨_, _, _, _, _, _, r, _, hp, hg⟩ := queryGroupDb_some j dial _ g e h
    rw [hg]
    exact beq_iff_eq.1 hp
  · intro j dial n u e h
    obtain ⟨_, _, _, _, _, _, r, _, hp, hu⟩ := queryUserDb_some j dial _ u e h
    rw [hu]
    exact beq_iff_eq.1 hp
  · intro j dial s u e h
    obtain ⟨_, _, _, _, _, _, r, _, hp, hu⟩ := queryUserDb_some j dial _ u e h
    rw [hu]
    exact beq_iff_eq.1 hp

set_option maxRecDepth 100000 in
/-- C17, instance: the group returned for the gid `998` on the reply `wheel`
(gid 10), `wheel` (gid 998) has Gid `998`. -/
theorem result_agrees_with_key_witness :
    lookupGroupId jsonUnmarshalGroup
        (Except.ok { writeErr := none, chunks := [wheelFrame ++ [0] ++ wheelLastFrame ++ [0]],
                     final := Error.EOF }) "998"
      = some (some { Name := "wheel", Gid := "998" }, none) ∧
    ({ Name := "wheel", Gid := "998" } : Group).Gid = "998" :=
  ⟨by decide,
   result_agrees_with_key.2.1 jsonUnmarshalGroup
      (Except.ok { writeErr := none, chunks := [wheelFrame ++ [0] ++ wheelLastFrame ++ [0]],
                   final := Error.EOF }) "998" { Name := "wheel", Gid := "998" } none
      (by decide)⟩

/-! ## The frames of an arbitrary stream -/

theorem scanFrames_frameStream (fs : List (List UInt8)) (last : List UInt8)
    (chunks : List (List UInt8)) (final : Error)
    (h0 : ∀ f ∈ fs, (0 : UInt8) ∉ f) (hl : (0 : UInt8) ∉ last)
    (hchunks : chunks.flatten = frameStream fs last) :
    scanFrames chunks final = some (fs ++ if last = [] then [] else [last]) := by
  have hcb : ∀ (f : List UInt8) (s : Unit),
      ((fun (_ : List UInt8) (st : Unit) => (((true, none) : Bool × Option Error), st)) f s).1
        = (true, none) := fun _ _ => rfl
  simp only [scanFrames, queryUserdbd_ok, hchunks, Option.map_some',
    tokens_frameStream _ _ _ _ h0 hl]
  rw [consume_all_frames _ _ _ _ _ hcb]
  by_cases hnil : last = [] <;> simp [hnil, Function.comp_def]

theorem exists_frameStream (s : List UInt8) :
    ∃ fs last, (∀ f ∈ fs, (0 : UInt8) ∉ f) ∧ (0 : UInt8) ∉ last ∧ s = frameStream fs last := by
  induction s with
  | nil => exact ⟨[], [], by simp, by simp, by simp [frameStream]⟩
  | cons b bs ih =>
    obtain ⟨fs, last, h0, hl, hs⟩ := ih
    by_cases hb : b = 0
    · refine ⟨[] :: fs, last, ?_, hl, ?_⟩
      · intro f hf
        rcases List.mem_cons.1 hf with rfl | hf
        · simp
        · exact h0 f hf
      · simp [frameStream, hb, hs]
    · cases fs with
      | nil =>
        refine ⟨[], b :: last, by simp, ?_, ?_⟩
        · intro hm
          rcases List.mem_cons.1 hm with e | e
          · exact hb e.symm
          · exact hl e
        · simp [frameStream, hs]
      | cons f fs =>
        refine ⟨(b :: f) :: fs, last, ?_, hl, ?_⟩
        · intro g hg
          rcases List.mem_cons.1 hg with rfl | hg
          · intro hm
            rcases List.mem_cons.1 hm with e | e
            · exact hb e.symm
            · exact h0 f (by simp) e
          · exact h0 g (by simp [hg])
        · simp [frameStream, hs]

theorem frameStream_snoc (fs : List (List UInt8)) (l : List UInt8) :
    frameStream (fs ++ [l]) [] = frameStream fs l ++ [0] := by
  simp [frameStream]

theorem first_zero_index (data : List UInt8) (i : Nat) (hi : data[i]? = some 0)
    (hfirst : ∀ k < i, data[k]? ≠ some 0) :
    (data.takeWhile (fun b => b != 0)).length = i ∧ (0 : UInt8) ∈ data := by
  induction data generalizing i with
  | nil => simp at hi
  | cons b bs ih =>
    cases i with
    | zero =>
      have hb : b = 0 := by simpa using hi
      simp [hb, List.takeWhile_cons]
    | succ i =>
      have hb : ¬ b = 0 := by
        have := hfirst 0 (by omega)
        simpa using this
      have hi' : bs[i]? = some 0 := by simpa using hi
      have hf' : ∀ k < i, bs[k]? ≠ some 0 := by
        intro k hk
        have := hfirst (k + 1) (by omega)
        simpa using this
      obtain ⟨h1, h2⟩ := ih i hi' hf'
      exact ⟨by simp [List.takeWhile_cons, hb, h1], by simp [h2]⟩

theorem zero_not_mem_takeWhile (data : List UInt8) :
    (0 : UInt8) ∉ data.takeWhile (fun b => b != 0) := by
  intro h
  have := List.mem_takeWhile_imp h
  simp at this

/-! ## C14: the delimiter is consumed, not included -/

/-- C14: for every buffer `data` whose first 0 byte is at index `i`, the split
function returns advance `i + 1`, the token `data[0:i]` and no error, whether
or not atEOF is set; the token contains no 0 byte; and two adjacent delimiters
in a stream produce an empty frame, which is not skipped. -/
theorem delimiter_consumed (data : List UInt8) (atEOF : Bool) (i : Nat)
    (hi : data[i]? = some 0) (hfirst : ∀ k < i, data[k]? ≠ some 0) :
    split data atEOF = ((i : Int) + 1, some (data.take i), none) ∧
    (0 : UInt8) ∉ data.take i ∧
    (∀ (a b : List UInt8) (chunks : List (List UInt8)) (final : Error),
      (0 : UInt8) ∉ a → (0 : UInt8) ∉ b → chunks.flatten = a ++ [0, 0] ++ b →
      scanFrames chunks final = some ([a, []] ++ if b = [] then [] else [b])) := by
  obtain ⟨hlen, hmem⟩ := first_zero_index data i hi hfirst
  have htake : data.take i = data.takeWhile (fun b => b != 0) := by
    rw [← hlen, take_takeWhile_length]
  refine ⟨?_, ?_, ?_⟩
  · rw [split_of_mem data atEOF hmem, htake, hlen]
  · rw [htake]
    exact zero_not_mem_takeWhile data
  · intro a b chunks final ha hb hc
    refine scanFrames_frameStream [a, []] b chunks final ?_ hb ?_
    · intro f hf
      rcases List.mem_cons.1 hf with rfl | hf
      · exact ha
      · have : f = [] := by simpa using hf
        simp [this]
    · simp [frameStream, hc]

/-- C14, instance: in the buffer `hi`, 0, `j`, 0 the first 0 byte is at index 2;
the split function advances by 3 and returns the token `hi`. -/
theorem delimiter_consumed_witness :
    split [104, 105, 0, 106, 0] false = (3, some [104, 105], none) :=
  (delimiter_consumed [104, 105, 0, 106, 0] false 2 (by decide) (by decide)).1

/-! ## C15: the terminator of the final frame is optional -/

theorem frameStream_nil_getLast (fs : List (List UInt8)) (hne : fs ≠ []) :
    (frameStream fs []).getLast? = some 0 := by
  rcases List.eq_nil_or_concat fs with rfl | ⟨init, l, rfl⟩
  · exact absurd rfl hne
  · rw [List.concat_eq_append, frameStream_snoc]
    simp

theorem last_ne_nil_of_unterminated (fs : List (List UInt8)) (last : List UInt8)
    (hne : frameStream fs last ≠ []) (hend : (frameStream fs last).getLast? ≠ some 0) :
    last ≠ [] := by
  intro hl
  subst hl
  by_cases hfs : fs = []
  · subst hfs
    exact hne (by simp [frameStream])
  · exact hend (frameStream_nil_getLast fs hfs)

/-- C15: for every non-empty byte stream `s` that does not end in a 0 byte, the
frame scanner yields the same frames for `s` and for `s` followed by one 0
byte, however the two streams are delivered. In general the frames of a stream
are its 0-terminated frames followed by the remainder after the last 0 byte
when that remainder is not empty; an empty remainder yields no frame. At end of
stream the split function returns a non-empty buffer without 0 byte whole, and
no token for an empty buffer. -/
theorem final_terminator_optional (s : List UInt8) (chunks chunks' : List (List UInt8))
    (final : Error) (hne : s ≠ []) (hend : s.getLast? ≠ some 0)
    (hc : chunks.flatten = s) (hc' : chunks'.flatten = s ++ [0]) :
    (∃ frames, scanFrames chunks final = some frames ∧
      scanFrames chunks' final = some frames) ∧
    (∀ (fs : List (List UInt8)) (last : List UInt8) (cs : List (List UInt8)),
      (∀ f ∈ fs, (0 : UInt8) ∉ f) → (0 : UInt8) ∉ last → cs.flatten = frameStream fs last →
      scanFrames cs final = some (fs ++ if last = [] then [] else [last])) ∧
    (∀ data : List UInt8, (0 : UInt8) ∉ data → data ≠ [] →
      split data true = ((data.length : Int), some data, none)) ∧
    split [] true = (0, none, none) := by
  refine ⟨?_, ?_, ?_, split_eof_nil⟩
  · obtain ⟨fs, last, h0, hl, hs⟩ := exists_frameStream s
    have hlast : last ≠ [] := by
      rw [hs] at hne hend
      exact last_ne_nil_of_unterminated fs last hne hend
    have h0' : ∀ f ∈ fs ++ [last], (0 : UInt8) ∉ f := by
      intro f hf
      rcases List.mem_append.1 hf with hf | hf
      · exact h0 f hf
      · have : f = last := by simpa using hf
        rw [this]
        exact hl
    refine ⟨fs ++ [last], ?_, ?_⟩
    · rw [scanFrames_frameStream fs last chunks final h0 hl (by rw [hc, hs]), if_neg hlast]
    · rw [scanFrames_frameStream (fs ++ [last]) [] chunks' final h0' (by simp)
        (by rw [hc', hs, frameStream_snoc])]
      simp
  · intro fs last cs h0 hl hcs
    exact scanFrames_frameStream fs last cs final h0 hl hcs
  · intro data hd hn
    exact split_eof_of_not_mem data hd hn

/-- C15, instance: the stream `hi`, 0, `j` and the same stream followed by a 0
byte give the same frames. -/
theorem final_terminator_optional_witness :
    ∃ frames, scanFrames [[104, 105, 0], [106]] Error.EOF = some frames ∧
      scanFrames [[104, 105], [0, 106, 0]] Error.EOF = some frames :=
  (final_terminator_optional [104, 105, 0, 106] [[104, 105, 0], [106]]
    [[104, 105], [0, 106, 0]] Error.EOF (by decide) (by decide) (by decide) (by decide)).1

/-! ## C18: scanning loses nothing but delimiters -/

/-- C18: for every byte stream, however it is delivered, the frame scanner
produces frames none of which contains a 0 byte, and joining them with single
0 bytes gives back the stream when it does not end in a 0 byte, and the stream
without its last byte when it does. -/
theorem scanning_loses_only_delimiters (chunks : List (List UInt8)) (final : Error) :
    ∃ frames, scanFrames chunks final = some frames ∧
      (∀ f ∈ frames, (0 : UInt8) ∉ f) ∧
      List.intercalate [0] frames =
        if chunks.flatten.getLast? = some 0 then chunks.flatten.dropLast
        else chunks.flatten := by
  obtain ⟨fs, last, h0, hl, hs⟩ := exists_frameStream chunks.flatten
  have hscan := scanFrames_frameStream fs last chunks final h0 hl hs
  by_cases hlast : last = []
  · subst hlast
    refine ⟨fs, by simpa using hscan, h0, ?_⟩
    rcases List.eq_nil_or_concat fs with rfl | ⟨init, l, rfl⟩
    · rw [hs]
      simp [frameStream, List.intercalate]
    · rw [List.concat_eq_append] at hs ⊢
      rw [hs, frameStream_snoc, intercalate_concat]
      simp
  · refine ⟨fs ++ [last], by simpa [hlast] using hscan, ?_, ?_⟩
    · intro f hf
      rcases List.mem_append.1 hf with hf | hf
      · exact h0 f hf
      · have : f = last := by simpa using hf
        rw [this]
        exact hl
    · have hend : (frameStream fs last).getLast? ≠ some 0 := by
        intro h
        have h1 : (frameStream fs last).getLast? = last.getLast? := by
          unfold frameStream
          exact List.getLast?_append_of_ne_nil _ hlast
        rw [h1] at h
        exact hl (List.mem_of_getLast?_eq_some h)
      rw [intercalate_concat, hs, if_neg hend]

/-! ## C19: framing does not depend on how the stream is read -/

/-- C19: for every response stream delivered as a sequence of non-empty reads
and then the end of the stream, the frames produced, and the whole outcome of
`queryUserdbd` under any callback, are the same as when the stream is delivered
in one read: the split function returns no token and asks for more data while
the buffer holds no 0 byte and the end of the stream is not reached. -/
theorem framing_independent_of_chunking (chunks : List (List UInt8)) (final : Error)
    (_hne : ∀ c ∈ chunks, c ≠ []) :
    scanFrames chunks final = scanFrames [chunks.flatten] final ∧
    (∀ (σ : Type) (unmarshal : List UInt8 → σ → (Bool × Option Error) × σ) (method : String)
        (st : σ),
      queryUserdbd (Except.ok { writeErr := none, chunks := chunks, final := final }) method
          unmarshal st =
        queryUserdbd (Except.ok { writeErr := none, chunks := [chunks.flatten],
                                  final := final }) method unmarshal st) ∧
    (∀ data : List UInt8, (0 : UInt8) ∉ data → split data false = (0, none, none)) := by
  refine ⟨?_, ?_, split_of_not_mem⟩
  · simp [scanFrames, queryUserdbd_ok]
  · intro σ unmarshal method st
    simp [queryUserdbd_ok]

/-- C19, instance: a stream read in three pieces that cut through its frames
gives the frames of the whole stream. -/
theorem framing_independent_of_chunking_witness :
    scanFrames [[104], [105, 0, 106], [0, 107]] Error.EOF
      = scanFrames [[104, 105, 0, 106, 0, 107]] Error.EOF :=
  (framing_independent_of_chunking [[104], [105, 0, 106], [0, 107]] Error.EOF
    (by decide)).1

/-! ## C16: the decode error is dropped -/

theorem consume_decode_error {σ : Type} (cb : List UInt8 → σ → (Bool × Option Error) × σ)
    (endErr flag flagb : Option Error) (pre : List (List UInt8)) (bad : List UInt8)
    (post : List (List UInt8 × Option Error)) (st : σ) (seen : List (List UInt8))
    (hpre : ∀ f ∈ pre, ∀ s, (cb f s).1 = (true, none))
    (hbad : ∀ s, (cb bad s).1.2.isSome = true) :
    consume cb endErr (pre.map (fun f => (f, flag)) ++ (bad, flagb) :: post) st seen =
      (none, (cb bad (pre.foldl (fun s f => (cb f s).2) st)).2, seen ++ pre ++ [bad]) := by
  rw [consume_continuing cb endErr flag pre _ st seen hpre]
  have h := hbad (pre.foldl (fun s f => (cb f s).2) st)
  rcases hu : cb bad (pre.foldl (fun s f => (cb f s).2) st) with ⟨⟨c, e⟩, st1⟩
  rw [hu] at h
  cases e with
  | none => simp at h
  | some e => simp [consume, hu]

theorem queryUserdbd_decode_error {σ : Type}
    (unmarshal : List UInt8 → σ → (Bool × Option Error) × σ)
    (pre : List (List UInt8)) (bad : List UInt8) (chunks : List (List UInt8)) (final : Error)
    (method : String) (st : σ)
    (h0 : ∀ f ∈ pre ++ [bad], (0 : UInt8) ∉ f)
    (hs : (∃ rest, chunks.flatten = frameStream (pre ++ [bad]) [] ++ rest) ∨
      (chunks.flatten = frameStream pre bad ∧ bad ≠ []))
    (hpre : ∀ f ∈ pre, ∀ s, (unmarshal f s).1 = (true, none))
    (hbad : ∀ s, (unmarshal bad s).1.2.isSome = true) :
    queryUserdbd (Except.ok { writeErr := none, chunks := chunks, final := final }) method
        unmarshal st =
      some { err := none,
             st := (unmarshal bad (pre.foldl (fun s f => (unmarshal f s).2) st)).2,
             written := marshalRequest method ++ [0],
             frames := pre ++ [bad] } := by
  have h0p : ∀ f ∈ pre, (0 : UInt8) ∉ f := fun f hf => h0 f (by simp [hf])
  have h0b : (0 : UInt8) ∉ bad := h0 bad (by simp)
  rw [queryUserdbd_ok]
  rcases hs with ⟨rest, hr⟩ | ⟨hr, hne⟩
  · rw [hr, tokens_frames_append _ _ _ _ h0, List.map_append, List.append_assoc]
    simp only [List.map_cons, List.map_nil, List.cons_append, List.nil_append]
    rw [consume_decode_error unmarshal _ none none pre bad _ st [] hpre hbad]
    simp
  · rw [hr, tokens_frameStream _ _ _ _ h0p h0b, if_neg hne]
    rw [consume_decode_error unmarshal _ none (errView final) pre bad [] st [] hpre hbad]
    simp

theorem recordCallback_undecodable {ρ ι : Type} (j : List UInt8 → Except Error (Reply ρ))
    (p : ρ → Bool) (build : ρ → ι) (f : List UInt8) (h : continuesOf j f = none)
    (st : Option ι) :
    (recordCallback j p build f st).1.2.isSome = true ∧ (recordCallback j p build f st).2 = st := by
  unfold continuesOf at h
  cases hj : j f with
  | ok reply => rw [hj] at h; simp at h
  | error e => simp [recordCallback, hj]

theorem record_query_decode_error {ρ ι : Type} (j : List UInt8 → Except Error (Reply ρ))
    (p : ρ → Bool) (build : ρ → ι) (pre : List (List UInt8)) (bad : List UInt8)
    (chunks : List (List UInt8)) (final : Error) (method : String)
    (h0 : ∀ f ∈ pre ++ [bad], (0 : UInt8) ∉ f)
    (hs : (∃ rest, chunks.flatten = frameStream (pre ++ [bad]) [] ++ rest) ∨
      (chunks.flatten = frameStream pre bad ∧ bad ≠ []))
    (hpre : ∀ f ∈ pre, continuesOf j f = some true)
    (hbad : continuesOf j bad = none) :
    queryUserdbd (Except.ok { writeErr := none, chunks := chunks, final := final }) method
        (recordCallback j p build) none =
      some { err := none,
             st := captured j p build pre none,
             written := marshalRequest method ++ [0],
             frames := pre ++ [bad] } := by
  rw [queryUserdbd_decode_error (recordCallback j p build) pre bad chunks final method none h0
    hs (fun f hf s => recordCallback_continues j p build f true (hpre f hf) s)
    (fun s => (recordCallback_undecodable j p build bad hbad s).1)]
  rw [(recordCallback_undecodable j p build bad hbad _).2]
  rfl

/-- C16 (as amended): whenever the callback returns a decode error for a frame
(`bad`), after frames that decode with continues=true (`pre`), `queryUserdbd`
stops at that frame and returns nil instead of the error; the lookup
(`queryGroupDb`, `queryUserDb`) returns a nil error together with the record
captured from the frames before it, which is nil when none of them matched. -/
theorem decode_error_is_dropped (pre : List (List UInt8)) (bad : List UInt8)
    (chunks : List (List UInt8)) (final : Error)
    (h0 : ∀ f ∈ pre ++ [bad], (0 : UInt8) ∉ f)
    (hs : (∃ rest, chunks.flatten = frameStream (pre ++ [bad]) [] ++ rest) ∨
      (chunks.flatten = frameStream pre bad ∧ bad ≠ [])) :
    (∀ (σ : Type) (unmarshal : List UInt8 → σ → (Bool × Option Error) × σ) (method : String)
        (st : σ),
      (∀ f ∈ pre, ∀ s, (unmarshal f s).1 = (true, none)) →
      (∀ s, (unmarshal bad s).1.2.isSome = true) →
      ∃ out,
        queryUserdbd (Except.ok { writeErr := none, chunks := chunks, final := final }) method
          unmarshal st = some out ∧
        out.err = none ∧ out.frames = pre ++ [bad]) ∧
    (∀ (j : List UInt8 → Except Error (Reply groupRecord)) (p : groupRecord → Bool),
      (∀ f ∈ pre, continuesOf j f = some true) → continuesOf j bad = none →
      queryGroupDb j (Except.ok { writeErr := none, chunks := chunks, final := final }) p
        = some (captured j p groupOf pre none, none) ∧
      ((∀ f ∈ pre, (recordOf j f).map p = some false) →
        queryGroupDb j (Except.ok { writeErr := none, chunks := chunks, final := final }) p
          = some (none, none))) ∧
    (∀ (j : List UInt8 → Except Error (Reply userRecord)) (p : userRecord → Bool),
      (∀ f ∈ pre, continuesOf j f = some true) → continuesOf j bad = none →
      queryUserDb j (Except.ok { writeErr := none, chunks := chunks, final := final }) p
        = some (captured j p userOf pre none, none) ∧
      ((∀ f ∈ pre, (recordOf j f).map p = some false) →
        queryUserDb j (Except.ok { writeErr := none, chunks := chunks, final := final }) p
          = some (none, none))) := by
  refine ⟨?_, ?_, ?_⟩
  · intro σ unmarshal method st hpre hbad
    exact ⟨_, queryUserdbd_decode_error unmarshal pre bad chunks final method st h0 hs hpre
      hbad, rfl, rfl⟩
  · intro j p hpre hbad
    have hq := record_query_decode_error j p groupOf pre bad chunks final
      "io.systemd.UserDatabase.GetGroupRecord" h0 hs hpre hbad
    have hres := queryGroupDb_of_outcome j _ p _ hq rfl
    refine ⟨hres, fun hno => ?_⟩
    rw [hres]
    simp [captured_no_match j p groupOf pre none hno]
  · intro j p hpre hbad
    have hq := record_query_decode_error j p userOf pre bad chunks final
      "io.systemd.UserDatabase.GetUserRecord" h0 hs hpre hbad
    have hres := queryUserDb_of_outcome j _ p _ hq rfl
    refine ⟨hres, fun hno => ?_⟩
    rw [hres]
    simp [captured_no_match j p userOf pre none hno]

set_option maxRecDepth 100000 in
/-- C16, instance: after the frame `users`, a frame cut in the middle does not
decode; the lookup of `audio` stops there, does not see the frame `audio` that
follows, and returns a nil record with a nil error. -/
theorem decode_error_is_dropped_witness :
    lookupGroup jsonUnmarshalGroup
        (Except.ok { writeErr := none,
                     chunks := [usersFrame ++ [0] ++ brokenFrame ++ [0], audioLastFrame ++ [0]],
                     final := Error.EOF }) "audio" = some (none, none) :=
  ((decode_error_is_dropped [usersFrame] brokenFrame
      [usersFrame ++ [0] ++ brokenFrame ++ [0], audioLastFrame ++ [0]] Error.EOF
      (by decide) (Or.inl ⟨audioLastFrame ++ [0], by decide⟩)).2.1 jsonUnmarshalGroup
      (lookupGroup.predicate "audio") (by decide) (by decide)).2 (by decide)

set_option maxRecDepth 100000 in
/-- C16 as stated fails: the frame `root` matches the lookup of `root` and
continues, the next frame does not decode; the callback returns the decode
error, and `lookupUser` returns the user `root` with a nil error, not a nil
record. -/
theorem decode_error_after_match_keeps_record :
    continuesOf jsonUnmarshalUser rootFrame = some true ∧
    continuesOf jsonUnmarshalUser brokenFrame = none ∧
    lookupUser jsonUnmarshalUser
        (Except.ok { writeErr := none, chunks := [rootFrame ++ [0] ++ brokenFrame ++ [0]],
                     final := Error.EOF }) "root"
      = some (some { Uid := "0", Gid := "0", Username := "root", Name := "Super User",
                     HomeDir := "/root" }, none) ∧
    lookupUser jsonUnmarshalUser
        (Except.ok { writeErr := none, chunks := [rootFrame ++ [0] ++ brokenFrame ++ [0]],
                     final := Error.EOF }) "root" ≠ some (none, none) := by
  decide

/-! ## C10: the ids of a result -/

set_option maxRecDepth 100000 in
/-- C10: every id string exposed in a result renders the id of the matched wire
record exactly, for every integer id: the string parses back in base 10 to the
id, it is an optional `-` followed by decimal digits only, its digits do not
start with `0` unless it is the single digit `0`, and it starts with `-` exactly
when the id is negative (`rendersExactly`). One string only renders a given
integer exactly, so `007`, `+7`, `+007`, `+0`, `-0` and `7` followed by a blank
are refused. This holds of the `Gid` the callback of `queryGroupDb` captures
from a matching frame and of the `Uid` and `Gid` the callback of `queryUserDb`
captures, and of every group or user returned by `queryGroupDb`, `queryUserDb`
and the four lookups, with respect to a record that was decoded from a frame
handed to the callback and satisfied the predicate. -/
theorem ids_round_trip :
    (∀ (s : String) (v : Int), rendersExactly s v ↔ s = FormatInt v) ∧
    (¬ rendersExactly "007" 7 ∧ ¬ rendersExactly "+7" 7 ∧ ¬ rendersExactly "+007" 7 ∧
      ¬ rendersExactly "+0" 0 ∧ ¬ rendersExactly "-0" 0 ∧ ¬ rendersExactly "7 " 7 ∧
      ¬ rendersExactly "-7" 7 ∧ ¬ rendersExactly "7" (-7) ∧
      rendersExactly "0" 0 ∧ rendersExactly "181" 181 ∧ rendersExactly "-181" (-181)) ∧
    (∀ (j : List UInt8 → Except Error (Reply groupRecord)) (p : groupRecord → Bool)
        (b : List UInt8) (st : Option Group) (reply : Reply groupRecord),
      j b = Except.ok reply → p reply.Record = true →
      ∃ g, (queryGroupDb.unmarshal j p b st).2 = some g ∧
        rendersExactly g.Gid reply.Record.Gid) ∧
    (∀ (j : List UInt8 → Except Error (Reply userRecord)) (p : userRecord → Bool)
        (b : List UInt8) (st : Option User) (reply : Reply userRecord),
      j b = Except.ok reply → p reply.Record = true →
      ∃ u, (queryUserDb.unmarshal j p b st).2 = some u ∧
        rendersExactly u.Uid reply.Record.Uid ∧ rendersExactly u.Gid reply.Record.Gid) ∧
    (∀ (j : List UInt8 → Except Error (Reply groupRecord)) (dial : Except Error Conn)
        (p : groupRecord → Bool) (g : Group) (e : Option Error),
      queryGroupDb j dial p = some (some g, e) →
      ∃ out, queryUserdbd dial "io.systemd.UserDatabase.GetGroupRecord"
          (queryGroupDb.unmarshal j p) none = some out ∧
        ∃ f ∈ out.frames, ∃ r, recordOf j f = some r ∧ p r = true ∧
          g.Name = r.GroupName ∧ rendersExactly g.Gid r.Gid) ∧
    (∀ (j : List UInt8 → Except Error (Reply userRecord)) (dial : Except Error Conn)
        (p : userRecord → Bool) (u : User) (e : Option Error),
      queryUserDb j dial p = some (some u, e) →
      ∃ out, queryUserdbd dial "io.systemd.UserDatabase.GetUserRecord"
          (queryUserDb.unmarshal j p) none = some out ∧
        ∃ f ∈ out.frames, ∃ r, recordOf j f = some r ∧ p r = true ∧
          u.Username = r.UserName ∧ rendersExactly u.Uid r.Uid ∧
          rendersExactly u.Gid r.Gid) ∧
    (∀ (j : List UInt8 → Except Error (Reply groupRecord)) (dial : Except Error Conn)
        (key : String) (g : Group) (e : Option Error),
      (lookupGroup j dial key = some (some g, e) →
        ∃ f r, recordOf j f = some r ∧ r.GroupName = key ∧ rendersExactly g.Gid r.Gid) ∧
      (lookupGroupId j dial key = some (some g, e) →
        ∃ f r, recordOf j f = some r ∧ g.Gid = key ∧ rendersExactly g.Gid r.Gid)) ∧
    (∀ (j : List UInt8 → Except Error (Reply userRecord)) (dial : Except Error Conn)
        (key : String) (u : User) (e : Option Error),
      (lookupUser j dial key = some (some u, e) →
        ∃ f r, recordOf j f = some r ∧ r.UserName = key ∧ rendersExactly u.Uid r.Uid ∧
          rendersExactly u.Gid r.Gid) ∧
      (lookupUserId j dial key = some (some u, e) →
        ∃ f r, recordOf j f = some r ∧ u.Uid = key ∧ rendersExactly u.Uid r.Uid ∧
          rendersExactly u.Gid r.Gid)) := by
  refine ⟨rendersExactly_iff, ?_, ?_, ?_, ?_, ?_, ?_, ?_⟩
  · simp only [rendersExactly_iff]
    decide
  · intro j p b st reply hj hp
    refine ⟨groupOf reply.Record, ?_, FormatInt_rendersExactly _⟩
    rw [queryGroupDb_unmarshal_eq, recordCallback_snd j p groupOf b st reply hj, if_pos hp]
  · intro j p b st reply hj hp
    refine ⟨userOf reply.Record, ?_, FormatInt_rendersExactly _, FormatInt_rendersExactly _⟩
    rw [queryUserDb_unmarshal_eq, recordCallback_snd j p userOf b st reply hj, if_pos hp]
  · intro j dial p g e h
    obtain ⟨_, out, hq, _, f, hf, r, hr, hp, hg⟩ := queryGroupDb_some j dial p g e h
    refine ⟨out, hq, f, hf, r, hr, hp, ?_, ?_⟩
    · rw [hg]; rfl
    · rw [hg]; exact FormatInt_rendersExactly _
  · intro j dial p u e h
    obtain ⟨_, out, hq, _, f, hf, r, hr, hp, hu⟩ := queryUserDb_some j dial p u e h
    refine ⟨out, hq, f, hf, r, hr, hp, ?_, ?_, ?_⟩
    · rw [hu]; rfl
    · rw [hu]; exact FormatInt_rendersExactly _
    · rw [hu]; exact FormatInt_rendersExactly _
  · intro j dial key g e
    constructor
    · intro h
      obtain ⟨_, _, _, _, f, _, r, hr, hp, hg⟩ := queryGroupDb_some j dial _ g e h
      refine ⟨f, r, hr, beq_iff_eq.1 hp, ?_⟩
      rw [hg]; exact FormatInt_rendersExactly _
    · intro h
      obtain ⟨_, _, _, _, f, _, r, hr, hp, hg⟩ := queryGroupDb_some j dial _ g e h
      refine ⟨f, r, hr, ?_, ?_⟩
      · rw [hg]; exact beq_iff_eq.1 hp
      · rw [hg]; exact FormatInt_rendersExactly _
  · intro j dial key u e
    constructor
    · intro h
      obtain ⟨_, _, _, _, f, _, r, hr, hp, hu⟩ := queryUserDb_some j dial _ u e h
      refine ⟨f, r, hr, beq_iff_eq.1 hp, ?_, ?_⟩
      · rw [hu]; exact FormatInt_rendersExactly _
      · rw [hu]; exact FormatInt_rendersExactly _
    · intro h
      obtain ⟨_, _, _, _, f, _, r, hr, hp, hu⟩ := queryUserDb_some j dial _ u e h
      refine ⟨f, r, hr, ?_, ?_, ?_⟩
      · rw [hu]; exact beq_iff_eq.1 hp
      · rw [hu]; exact FormatInt_rendersExactly _
      · rw [hu]; exact FormatInt_rendersExactly _

set_option maxRecDepth 100000 in
/-- C10, instance: the group returned for the frame of the test server has the
Gid `181`, which renders the gid 181 of the record of that frame exactly. -/
theorem ids_round_trip_witness :
    lookupGroup jsonUnmarshalGroup
        (Except.ok { writeErr := none, chunks := [testFrame ++ [0]], final := Error.EOF })
        "stdlibcontrib"
      = some (some { Name := "stdlibcontrib", Gid := "181" }, none) ∧
    ∃ f r, recordOf jsonUnmarshalGroup f = some r ∧ r.GroupName = "stdlibcontrib" ∧
      rendersExactly "181" r.Gid :=
  ⟨by decide,
   (ids_round_trip.2.2.2.2.2.2.1 jsonUnmarshalGroup
      (Except.ok { writeErr := none, chunks := [testFrame ++ [0]], final := Error.EOF })
      "stdlibcontrib" { Name := "stdlibcontrib", Gid := "181" } none).1 (by decide)⟩

end user
